import Mathlib

/-!
Verification development for the warehouse-robot fleet controller
(`astar_algorithm`, `baseline_algorithm`, `shared_functions`).

The Python sources are shallowly embedded: grid positions are pairs of
integers, the per-agent controller state is an explicit record, Python dicts
become association lists or functions, and the two unbounded search loops
(`_pathfind_movement` in both strategies) are modelled with an explicit fuel
argument that is provably sufficient for the grids the code runs on.
-/

namespace Warehouse

/-- A grid cell, as the Python pair `(x, y)` of ints. -/
abbrev Pos := Int × Int

/-! Action codes.  `shared_functions/enums.py` is not part of the provided
sources; the numeric values are modelled from the spec's action vocabulary
(`NOOP=0, FORWARD=1, TURN_LEFT=2, TURN_RIGHT=3, TOGGLE_LOAD=4`), which agrees
with the `action_names` tables in both `shelf_movement.py` files. -/

def NOOP : Nat := 0
def FORWARD : Nat := 1
def LEFT : Nat := 2
def RIGHT : Nat := 3
def TOGGLE_LOAD : Nat := 4

/-- Direction codes are `0=UP, 1=DOWN, 2=LEFT, 3=RIGHT` (`direction_map`).
Turning left: the dict `{0:2, 1:3, 2:1, 3:0}` in `_validate_action_sequence`.
Out-of-range codes are returned unchanged (Python would raise `KeyError`). -/
def turnLeftDir (d : Nat) : Nat :=
  match d with
  | 0 => 2
  | 1 => 3
  | 2 => 1
  | 3 => 0
  | _ => d

/-- Turning right: the dict `{0:3, 1:2, 2:0, 3:1}` in `_validate_action_sequence`. -/
def turnRightDir (d : Nat) : Nat :=
  match d with
  | 0 => 3
  | 1 => 2
  | 2 => 0
  | 3 => 1
  | _ => d

/-- One `FORWARD` step from `p` facing `d`: `new_y -= 1` for UP, `new_y += 1`
for DOWN, `new_x -= 1` for LEFT, `new_x += 1` for RIGHT.  For a direction code
with no branch the Python code leaves `(new_x, new_y) = (x, y)`. -/
def forwardPos (d : Nat) (p : Pos) : Pos :=
  match d with
  | 0 => (p.1, p.2 - 1)
  | 1 => (p.1, p.2 + 1)
  | 2 => (p.1 - 1, p.2)
  | 3 => (p.1 + 1, p.2)
  | _ => p

/-- `_is_position_valid`: `0 <= x < self.cols and 0 <= y < self.rows`. -/
def is_position_valid (cols rows : Int) (p : Pos) : Bool :=
  decide (0 ≤ p.1) && decide (p.1 < cols) && decide (0 ≤ p.2) && decide (p.2 < rows)

/-- `_validate_action_sequence` (identical in both strategies): replay the
actions from pose `(p, d)`; a `FORWARD` into an invalid or blocked cell fails
the validation, turns update the direction, other codes are ignored. -/
def validate_from (cols rows : Int) (blocked : List Pos) :
    List Nat → Pos → Nat → Bool
  | [], _, _ => true
  | a :: rest, p, d =>
    if a = FORWARD then
      let q := forwardPos d p
      if !(is_position_valid cols rows q) || decide (q ∈ blocked) then
        false
      else
        validate_from cols rows blocked rest q d
    else if a = LEFT then
      validate_from cols rows blocked rest p (turnLeftDir d)
    else if a = RIGHT then
      validate_from cols rows blocked rest p (turnRightDir d)
    else
      validate_from cols rows blocked rest p d

/-- The agent data the planner reads: `agent.x`, `agent.y`, `agent.dir.value`. -/
structure AgentPose where
  x : Int
  y : Int
  dir : Nat
deriving DecidableEq

def validate_action_sequence (cols rows : Int) (agent : AgentPose)
    (actions : List Nat) (blocked : List Pos) : Bool :=
  validate_from cols rows blocked actions (agent.x, agent.y) agent.dir

/-- Final position after replaying an action sequence from pose `(p, d)`,
using the same pose-transition semantics as the validator (the replay of the
round-trip property; `FORWARD` always advances). -/
def replayPos : List Nat → Pos → Nat → Pos
  | [], p, _ => p
  | a :: rest, p, d =>
    if a = FORWARD then replayPos rest (forwardPos d p) d
    else if a = LEFT then replayPos rest p (turnLeftDir d)
    else if a = RIGHT then replayPos rest p (turnRightDir d)
    else replayPos rest p d

/-- `_turn_to_face`: the `turn_map` table; equal directions give `[]`, and a
pair outside the table (impossible for real direction codes, a `KeyError` in
Python) is modelled as `[]`. -/
def turn_to_face (current desired : Nat) : List Nat :=
  if current = desired then []
  else
    match current, desired with
    | 0, 1 => [LEFT, LEFT]
    | 0, 2 => [LEFT]
    | 0, 3 => [RIGHT]
    | 1, 0 => [LEFT, LEFT]
    | 1, 2 => [RIGHT]
    | 1, 3 => [LEFT]
    | 2, 0 => [RIGHT]
    | 2, 1 => [LEFT]
    | 2, 3 => [LEFT, LEFT]
    | 3, 0 => [LEFT]
    | 3, 1 => [RIGHT]
    | 3, 2 => [LEFT, LEFT]
    | _, _ => []

/-- The `if dx != 0` block of `_direct_movement`: turn to face the x
displacement and advance `|dx|` cells; returns the actions and the updated
`current_dir`. -/
def legX (d : Nat) (dx : Int) : List Nat × Nat :=
  if dx ≠ 0 then
    let desired : Nat := if dx > 0 then 3 else 2
    if d ≠ desired then
      (turn_to_face d desired ++ List.replicate dx.natAbs FORWARD, desired)
    else
      (List.replicate dx.natAbs FORWARD, d)
  else ([], d)

/-- The `if dy != 0` block of `_direct_movement`. -/
def legY (d : Nat) (dy : Int) : List Nat × Nat :=
  if dy ≠ 0 then
    let desired : Nat := if dy > 0 then 1 else 0
    if d ≠ desired then
      (turn_to_face d desired ++ List.replicate dy.natAbs FORWARD, desired)
    else
      (List.replicate dy.natAbs FORWARD, d)
  else ([], d)

/-- `_direct_movement`: move along the primary axis
(`'x' if abs(dx) > abs(dy) else 'y'`) first, then the other axis. -/
def direct_movement (agent : AgentPose) (goal : Pos) : List Nat :=
  let dx := goal.1 - agent.x
  let dy := goal.2 - agent.y
  if dx.natAbs > dy.natAbs then
    let rx := legX agent.dir dx
    let ry := legY rx.2 dy
    rx.1 ++ ry.1
  else
    let ry := legY agent.dir dy
    let rx := legX ry.2 dx
    ry.1 ++ rx.1

/-- The cells visited by Python's `range(a, b, step)` with `step = ±1`
(excludes `b`; empty when `a = b`). -/
def intStepRange (a b : Int) : List Int :=
  (List.range (b - a).natAbs).map (fun i => if a ≤ b then a + (i : Int) else a - (i : Int))

/-- `_is_direct_path_clear`: scan the x-leg at height `y1` and the y-leg at
column `x2` against the blocked set (the `shelf_width`/`shelf_height`
parameters are unused in the source). -/
def is_direct_path_clear (blocked : List Pos) (s e : Pos) : Bool :=
  ((intStepRange s.1 e.1).all fun x => !(decide ((x, s.2) ∈ blocked))) &&
  ((intStepRange s.2 e.2).all fun y => !(decide ((e.1, y) ∈ blocked)))

/-- `_get_neighbors` (identical in both strategies): offsets
`[(0,1), (1,0), (0,-1), (-1,0)]`, filtered to the grid bounds. -/
def get_neighbors (cols rows : Int) (p : Pos) : List Pos :=
  [(p.1, p.2 + 1), (p.1 + 1, p.2), (p.1, p.2 - 1), (p.1 - 1, p.2)].filter
    (fun q => is_position_valid cols rows q)

/-- The body of `_convert_path_to_actions`: walk the path, turning to the
direction given by the first matching displacement test
(`dx == 1 / dx == -1 / dy == 1 / dy == -1`), skipping a step that matches
none, and emitting a `FORWARD` per step. -/
def convert_path (d : Nat) (p : Pos) : List Pos → List Nat
  | [] => []
  | next :: rest =>
    let dx := next.1 - p.1
    let dy := next.2 - p.2
    let desired : Option Nat :=
      if dx = 1 then some 3
      else if dx = -1 then some 2
      else if dy = 1 then some 1
      else if dy = -1 then some 0
      else none
    match desired with
    | none => convert_path d p rest
    | some dd =>
      (if d ≠ dd then turn_to_face d dd else []) ++ FORWARD :: convert_path dd next rest

/-- `_convert_path_to_actions` (identical in both strategies). -/
def convert_path_to_actions (agent : AgentPose) (path : List Pos) : List Nat :=
  convert_path agent.dir (agent.x, agent.y) path

/-! Association-list helpers standing in for Python dicts. -/

/-- Dict lookup: first matching key. -/
def alookup {α β : Type} [DecidableEq α] : List (α × β) → α → Option β
  | [], _ => none
  | (k, v) :: t, q => if q = k then some v else alookup t q

/-- Dict assignment `m[k] = v`: replace the first binding of `k`, or append. -/
def aupdate {α β : Type} [DecidableEq α] : List (α × β) → α → β → List (α × β)
  | [], k, v => [(k, v)]
  | (k', v') :: t, k, v => if k' = k then (k, v) :: t else (k', v') :: aupdate t k v

/-! The BFS strategy (`baseline_algorithm/shelf_movement.py`). -/

/-- The inner `for neighbor in ...` loop of the BFS `_pathfind_movement`:
a neighbor equal to the goal records its parent and breaks with `found`;
an unvisited unblocked neighbor is recorded and enqueued.  Returns the
updated queue, visited map and the `found` flag. -/
def bfsProcess (blocked : List Pos) (goal current : Pos) :
    List Pos → List Pos → List (Pos × Option Pos) →
    List Pos × List (Pos × Option Pos) × Bool
  | [], queue, visited => (queue, visited, false)
  | n :: rest, queue, visited =>
    if n = goal then (queue, visited ++ [(n, some current)], true)
    else if (alookup visited n).isNone && !(decide (n ∈ blocked)) then
      bfsProcess blocked goal current rest (queue ++ [n]) (visited ++ [(n, some current)])
    else
      bfsProcess blocked goal current rest queue visited

/-- The `while queue and not found` loop, with fuel.  Returns the visited map
at the moment the goal is found, `none` when the queue is exhausted (or on
fuel exhaustion, which the fuel bound lemmas rule out). -/
def bfsLoop (cols rows : Int) (blocked : List Pos) (goal : Pos) :
    Nat → List Pos → List (Pos × Option Pos) → Option (List (Pos × Option Pos))
  | 0, _, _ => none
  | _ + 1, [], _ => none
  | fuel + 1, current :: queue, visited =>
    match bfsProcess blocked goal current (get_neighbors cols rows current) queue visited with
    | (_, v2, true) => some v2
    | (q2, v2, false) => bfsLoop cols rows blocked goal fuel q2 v2

/-- The reconstruction loop `while current != start`, with fuel; follows the
`visited` parent pointers.  Python appends each cell and reverses at the end;
prepending into `acc` builds the same final list directly.  `none` models the
Python `KeyError` on a missing or `None` parent and fuel exhaustion (both
provably unreachable for the maps the loop produces). -/
def bfsReconstruct (visited : List (Pos × Option Pos)) (start : Pos) :
    Nat → Pos → List Pos → Option (List Pos)
  | 0, _, _ => none
  | fuel + 1, current, acc =>
    if current = start then some acc
    else
      match alookup visited current with
      | some (some parent) => bfsReconstruct visited start fuel parent (current :: acc)
      | _ => none

def bfsFuel (cols rows : Int) : Nat := (cols * rows).toNat + 2

/-- `_pathfind_movement` of the BFS strategy. -/
def pathfind_movement_bfs (cols rows : Int) (agent : AgentPose) (goal : Pos)
    (blocked : List Pos) : List Nat :=
  let start : Pos := (agent.x, agent.y)
  if start = goal then []
  else
    match bfsLoop cols rows blocked goal (bfsFuel cols rows) [start] [(start, none)] with
    | none => []
    | some visited =>
      match bfsReconstruct visited start (visited.length + 1) goal [] with
      | none => []
      | some path => convert_path_to_actions agent path

/-- `calculate_movement` of the BFS strategy, parameterised by the blocked
set its caller computed (`get_blocked_positions`).  Invalid or blocked goal:
empty sequence; otherwise the BFS result, re-validated before being returned. -/
def calculate_movement_bfs (cols rows : Int) (agent : AgentPose) (goal : Pos)
    (blocked : List Pos) : List Nat :=
  if !(is_position_valid cols rows goal) then []
  else if decide (goal ∈ blocked) then []
  else
    let actions := pathfind_movement_bfs cols rows agent goal blocked
    if actions ≠ [] ∧ validate_action_sequence cols rows agent actions blocked then
      actions
    else []

/-! The A* strategy (`astar_algorithm/shelf_movement.py`). -/

/-- `_heuristic`: Manhattan distance. -/
def heuristic (p q : Pos) : Nat := (p.1 - q.1).natAbs + (p.2 - q.2).natAbs

/-- Comparison used by `min(open_set, key=lambda pos: f_score.get(pos, inf))`
(a missing f-score is `float('inf')`). -/
def ltOpt (a b : Option Nat) : Bool :=
  match a, b with
  | some x, some y => x < y
  | some _, none => true
  | none, _ => false

/-- Python `min` over a nonempty list: keeps the first element whose key is
strictly smaller than the current best. -/
def pyMinBy (key : Pos → Option Nat) : List Pos → Option Pos
  | [] => none
  | x :: xs => some (xs.foldl (fun best y => if ltOpt (key y) (key best) then y else best) x)

/-- `list.remove`: drop the first occurrence. -/
def removeFirst : List Pos → Pos → List Pos
  | [], _ => []
  | x :: xs, y => if x = y then xs else x :: removeFirst xs y

/-- `tentative_g_score >= g_score.get(neighbor, float('inf'))`. -/
def geOpt (a : Nat) : Option Nat → Bool
  | some b => decide (b ≤ a)
  | none => false

structure AstarSt where
  openSet : List Pos
  closed : List Pos
  cameFrom : List (Pos × Pos)
  gScore : List (Pos × Nat)
  fScore : List (Pos × Nat)
deriving DecidableEq

/-- The neighbor-relaxation `for` loop of the A* `_pathfind_movement`:
skip closed or blocked neighbors; append a new neighbor to the open list;
skip a known neighbor whose tentative score is not an improvement; otherwise
record parent, g-score and f-score. -/
def astarRelax (blocked : List Pos) (goal current : Pos) (gCur : Nat) :
    List Pos → AstarSt → AstarSt
  | [], st => st
  | n :: rest, st =>
    if decide (n ∈ st.closed) || decide (n ∈ blocked) then
      astarRelax blocked goal current gCur rest st
    else
      let tentative := gCur + 1
      let updated : AstarSt → AstarSt := fun s =>
        { s with
          cameFrom := aupdate s.cameFrom n current
          gScore := aupdate s.gScore n tentative
          fScore := aupdate s.fScore n (tentative + heuristic n goal) }
      if !(decide (n ∈ st.openSet)) then
        astarRelax blocked goal current gCur rest
          (updated { st with openSet := st.openSet ++ [n] })
      else if geOpt tentative (alookup st.gScore n) then
        astarRelax blocked goal current gCur rest st
      else
        astarRelax blocked goal current gCur rest (updated st)

/-- The `while open_set` loop, with fuel: pick the open node minimising the
f-score (first minimum, as Python `min`), return the parent map when that
node is the goal, else close it and relax its neighbors. -/
def astarLoop (cols rows : Int) (blocked : List Pos) (goal : Pos) :
    Nat → AstarSt → Option (List (Pos × Pos))
  | 0, _ => none
  | fuel + 1, st =>
    match pyMinBy (fun p => alookup st.fScore p) st.openSet with
    | none => none
    | some current =>
      if current = goal then some st.cameFrom
      else
        let st1 : AstarSt :=
          { st with
            openSet := removeFirst st.openSet current
            closed := st.closed ++ [current] }
        astarLoop cols rows blocked goal fuel
          (astarRelax blocked goal current ((alookup st.gScore current).getD 0)
            (get_neighbors cols rows current) st1)

/-- The A* reconstruction `while current in came_from` loop: append the
parent at each step (so the final path is `[start, ..., parent-of-goal]` and,
unlike the BFS variant, never contains the goal itself). -/
def astarReconstruct (cameFrom : List (Pos × Pos)) : Nat → Pos → List Pos → List Pos
  | 0, _, acc => acc
  | fuel + 1, current, acc =>
    match alookup cameFrom current with
    | some parent => astarReconstruct cameFrom fuel parent (parent :: acc)
    | none => acc

def astarFuel (cols rows : Int) : Nat := (cols * rows).toNat + 2

/-- `_pathfind_movement` of the A* strategy. -/
def pathfind_movement_astar (cols rows : Int) (agent : AgentPose) (goal : Pos)
    (blocked : List Pos) : List Nat :=
  let start : Pos := (agent.x, agent.y)
  let st0 : AstarSt :=
    { openSet := [start], closed := [], cameFrom := []
      gScore := [(start, 0)], fScore := [(start, heuristic start goal)] }
  match astarLoop cols rows blocked goal (astarFuel cols rows) st0 with
  | none => []
  | some cameFrom =>
    let path := astarReconstruct cameFrom (cameFrom.length + 1) goal []
    if path = [] then [] else convert_path_to_actions agent path

/-- `calculate_movement` of the A* strategy, parameterised by the blocked set
its caller computed: goal validation, then the direct-path shortcut (validated
before being returned), then the A* fallback (likewise re-validated). -/
def calculate_movement_astar (cols rows : Int) (agent : AgentPose) (goal : Pos)
    (blocked : List Pos) : List Nat :=
  if !(is_position_valid cols rows goal) then []
  else if decide (goal ∈ blocked) then []
  else
    if is_direct_path_clear blocked (agent.x, agent.y) goal &&
       validate_action_sequence cols rows agent (direct_movement agent goal) blocked then
      direct_movement agent goal
    else
      let actions := pathfind_movement_astar cols rows agent goal blocked
      if actions ≠ [] ∧ validate_action_sequence cols rows agent actions blocked then
        actions
      else []

/-! The shelf helper (`shared_functions/shelf_helper.py`) and the controller
(`astar_algorithm/main.py`).  Python dicts keyed by agent or shelf id become
association lists; the `MetricsTracker` is abstracted to the list of recording
calls made on it. -/

/-- The controller's string-valued agent states. -/
inductive AgState
  | seek_shelf
  | deliver
  | return_shelf
  | charging
  | no_shelf_to_carry
deriving DecidableEq

/-- An env shelf: `shelf.id`, `shelf.x`, `shelf.y`, `shelf.weight`. -/
structure Shelf where
  sid : Nat
  x : Int
  y : Int
  weight : Int
deriving DecidableEq

/-- An env agent snapshot.  `carrying` is the id of `agent.carrying_shelf`
(`none` for Python `None`); Python's object comparison
`a.carrying_shelf == shelf` is modelled as id equality. -/
structure AgentSnap where
  aid : Nat
  x : Int
  y : Int
  dir : Nat
  battery_level : Int
  is_charging : Bool
  carrying : Option Nat
  max_carry_weight : Int
deriving DecidableEq

/-- The read-only world snapshot the controller consults.
`rows = grid_size[0]`, `cols = grid_size[1]`; `obstacles` lists the cells
`(x, y)` whose obstacle flag is set. -/
structure Env where
  rows : Int
  cols : Int
  battery_capacity : Int
  agents : List AgentSnap
  request_queue : List Shelf
  shelfs : List Shelf
  goals : List Pos
  obstacles : List Pos
deriving DecidableEq

/-- The `ShelfHelper` snapshot taken at construction: `shelf_memory` maps a
shelf id to its initial `(int(x), int(y))`, and `shelf_locations` is the set
of initial positions clamped into the grid. -/
structure HelperSt where
  shelf_memory : List (Nat × Pos)
  shelf_locations : List Pos
deriving DecidableEq

/-- `get_blocked_positions`: obstacle cells, every other agent's cell, and —
only in the deliver/return_shelf/charging states — the remembered shelf cells
minus the carried shelf's remembered position (or all of them when not
carrying).  The Python set is modelled as a list used only through
membership. -/
def get_blocked_positions (env : Env) (hs : HelperSt) (state : AgState)
    (agent : AgentSnap) : List Pos :=
  let otherAgents := (env.agents.filter (fun a => a ≠ agent)).map (fun a => ((a.x, a.y) : Pos))
  let shelfPart :=
    if state = AgState.deliver ∨ state = AgState.return_shelf ∨ state = AgState.charging then
      match agent.carrying with
      | some sid =>
        let carriedPos := (alookup hs.shelf_memory sid).getD (-1, -1)
        hs.shelf_locations.filter (fun p => p ≠ carriedPos)
      | none => hs.shelf_locations
    else []
  env.obstacles ++ otherAgents ++ shelfPart

/-- Dict deletion `del m[k]`: drop the first binding. -/
def adelete {α β : Type} [DecidableEq α] : List (α × β) → α → List (α × β)
  | [], _ => []
  | (k, v) :: t, q => if k = q then t else (k, v) :: adelete t q

/-- A value of `self.agent_targets[...]`: the dicts `{'id': ..., 'position': ...}`
and `{'position': ...}` (no `'id'` key: `tid = none`). -/
structure Target where
  tid : Option Nat
  position : Pos
deriving DecidableEq

/-- The `targets` sub-dict stored by `_store_pre_charging_state`, one shape
per state. -/
inductive StoredTargets
  | seek (shelf_location : Pos) (shelf_id : Option Nat)
  | deliver (goal_location : Pos) (shelf_id : Nat)
  | ret (shelf_origin : Pos) (shelf_id : Nat)
deriving DecidableEq

/-- An entry of `self.pre_charging_data`. -/
structure PreChargeData where
  state : AgState
  targets : Option StoredTargets
  shelf_id : Option Nat
  shelf_origin : Option Pos
deriving DecidableEq

/-- The recording calls made on the `MetricsTracker`. -/
inductive MEvent
  | movement (aid : Nat)
  | total_steps
  | battery_failure (aid : Nat)
  | critical_battery (aid : Nat)
  | low_battery (aid : Nat)
  | charging_start (aid : Nat)
  | charging_end (aid : Nat)
  | collision (aid : Nat)
  | recovery_step (aid : Nat)
  | recovery_complete (aid : Nat)
  | task_start (aid sid : Nat)
  | task_completion (aid sid : Nat)
  | overcapacity (aid sid : Nat)
  | step_completion
deriving DecidableEq

/-- The mutable state of the A*-variant `WarehouseController`.
`waiting_areas`, `helper`, `goal_locations` and `shelf_memory` are the fields
computed once by `initialize_and_verify`. -/
structure Ctrl where
  agent_states : List (Nat × AgState)
  agent_targets : List (Nat × Option Target)
  last_positions : List (Nat × Pos)
  stuck_count : List (Nat × Nat)
  last_actions : List (Nat × List Nat)
  reserved_shelves : List (Nat × Nat)
  shelf_reservation_time : List (Nat × Int)
  current_step : Int
  pre_charging_data : List (Nat × PreChargeData)
  assigned_waiting_areas : List (Nat × Pos)
  waiting_areas : List Pos
  in_recovery : List (Nat × Bool)
  helper : HelperSt
  goal_locations : List Pos
  shelf_memory : List (Nat × Pos)
  metrics : List MEvent
deriving DecidableEq

/-- Read `self.agent_states[agent.id]` (initialised for every env agent). -/
def ctrlState (c : Ctrl) (aid : Nat) : AgState :=
  (alookup c.agent_states aid).getD AgState.seek_shelf

def recordM (c : Ctrl) (e : MEvent) : Ctrl :=
  { c with metrics := c.metrics ++ [e] }

/-- `_identify_charging_stations`: the four grid corners,
`(0,0), (grid_size[1]-1, 0), (0, grid_size[0]-1), (grid_size[1]-1, grid_size[0]-1)`. -/
def charging_stations (env : Env) : List Pos :=
  [(0, 0), (env.cols - 1, 0), (0, env.rows - 1), (env.cols - 1, env.rows - 1)]

/-- The test `battery_pct < t` where
`battery_pct = (agent.battery_level / self.env.battery_capacity) * 100`:
for a positive capacity, `(level / capacity) * 100 < t` is exactly
`100 * level < t * capacity`, which is the kernel-computable form used here. -/
def battery_pct_lt (env : Env) (a : AgentSnap) (t : Int) : Bool :=
  decide (100 * a.battery_level < t * env.battery_capacity)

/-- The test `battery_pct > t`, cross-multiplied in the same way. -/
def battery_pct_gt (env : Env) (a : AgentSnap) (t : Int) : Bool :=
  decide (t * env.battery_capacity < 100 * a.battery_level)

/-- `_needs_charging`: battery percentage below the low threshold (20). -/
def needs_charging (env : Env) (a : AgentSnap) : Bool :=
  battery_pct_lt env a 20

/-- Stable insertion used to model Python's stable `sorted(..., key=...)`. -/
def insertByKey (key : Pos → Nat) (x : Pos) : List Pos → List Pos
  | [] => [x]
  | y :: ys => if key x ≤ key y then x :: y :: ys else y :: insertByKey key x ys

def sortByKey (key : Pos → Nat) (l : List Pos) : List Pos :=
  l.foldr (insertByKey key) []

/-- Python `min` over a nonempty list with a `Nat`-valued key: the first
element attaining the minimum. -/
def pyMinKey (key : Pos → Nat) : List Pos → Option Pos
  | [] => none
  | x :: xs => some (xs.foldl (fun best y => if key y < key best then y else best) x)

/-- The `for station in stations_sorted` loop of
`_get_closest_charging_station`: skip the agent's own cell; an empty station
is taken; an occupied one is taken if some occupant is above 90% battery. -/
def findStation (env : Env) (agent : AgentSnap) : List Pos → Option Pos
  | [] => none
  | st :: rest =>
    if ((agent.x, agent.y) : Pos) = st then findStation env agent rest
    else
      let occupants := env.agents.filter (fun a => ((a.x, a.y) : Pos) = st)
      if occupants = [] then some st
      else if occupants.any (fun a => battery_pct_gt env a 90) then some st
      else findStation env agent rest

/-- `_get_closest_charging_station`: `None` when already at a station;
otherwise the first station accepted by `findStation` over the
distance-sorted list, falling back to the closest station. -/
def get_closest_charging_station (env : Env) (agent : AgentSnap) : Option Pos :=
  let current : Pos := (agent.x, agent.y)
  let stations := charging_stations env
  if current ∈ stations then none
  else
    let key : Pos → Nat := fun st => (st.1 - agent.x).natAbs + (st.2 - agent.y).natAbs
    let sorted := sortByKey key stations
    match findStation env agent sorted with
    | some st => some st
    | none => sorted.head?

/-- `any(a.carrying_shelf == shelf for a in self.env.agents)`. -/
def shelfCarriedByAny (env : Env) (s : Shelf) : Bool :=
  env.agents.any (fun a => a.carrying = some s.sid)

/-- Whether the shelf-selection loop skips `shelf` as reserved: reserved by a
different agent and the reservation is younger than 20 steps. -/
def reservedByOther (c : Ctrl) (aid : Nat) (shelf : Shelf) : Bool :=
  match alookup c.reserved_shelves shelf.sid with
  | some reserving =>
    let rtime := (alookup c.shelf_reservation_time shelf.sid).getD 0
    decide (reserving ≠ aid) && decide (c.current_step - rtime < 20)
  | none => false

/-- `_can_carry_any_shelf` (A* variant): some request-queue shelf is not
carried, not reserved by another agent within the timeout, and within the
agent's carry weight. -/
def can_carry_any_shelf (env : Env) (c : Ctrl) (agent : AgentSnap) : Bool :=
  env.request_queue.any (fun shelf =>
    !(shelfCarriedByAny env shelf) &&
    !(reservedByOther c agent.aid shelf) &&
    decide (shelf.weight ≤ agent.max_carry_weight))

/-- `_get_aligned_position`: clamp into the grid. -/
def get_aligned_position (env : Env) (p : Pos) : Pos :=
  (max 0 (min p.1 (env.cols - 1)), max 0 (min p.2 (env.rows - 1)))

/-- `_get_waiting_area`: keep an existing assignment; otherwise the closest
unassigned waiting area; if all are taken, index the list by
`agent.id % len(...)` (Python raises there when the list is empty; modelled
with a `(0, 0)` default). -/
def get_waiting_area (c : Ctrl) (agent : AgentSnap) : Ctrl × Pos :=
  match alookup c.assigned_waiting_areas agent.aid with
  | some area => (c, area)
  | none =>
    let occupied := c.assigned_waiting_areas.map (·.2)
    let available := c.waiting_areas.filter (fun a => !(decide (a ∈ occupied)))
    let current : Pos := (agent.x, agent.y)
    match pyMinKey (fun p => (p.1 - current.1).natAbs + (p.2 - current.2).natAbs) available with
    | some area =>
      ({ c with assigned_waiting_areas := aupdate c.assigned_waiting_areas agent.aid area }, area)
    | none =>
      let area := (c.waiting_areas.get? (agent.aid % c.waiting_areas.length)).getD (0, 0)
      ({ c with assigned_waiting_areas := aupdate c.assigned_waiting_areas agent.aid area }, area)

/-- The planner call `self.shelf_mover.calculate_movement(agent, goal)`: the
helper reads the live `agent_states` dict shared with the controller. -/
def calc_for (env : Env) (c : Ctrl) (agent : AgentSnap) (goal : Pos) : List Nat :=
  let blocked := get_blocked_positions env c.helper (ctrlState c agent.aid) agent
  calculate_movement_astar env.cols env.rows ⟨agent.x, agent.y, agent.dir⟩ goal blocked

/-- `_store_pre_charging_state`. -/
def store_pre_charging (c : Ctrl) (agent : AgentSnap) : Ctrl :=
  let aid := agent.aid
  let st := ctrlState c aid
  match (alookup c.agent_targets aid).getD none with
  | none =>
    { c with pre_charging_data :=
        aupdate c.pre_charging_data aid ⟨st, none, agent.carrying, none⟩ }
  | some tgt =>
    let base : PreChargeData := ⟨st, none, agent.carrying, none⟩
    let stored : PreChargeData :=
      if st = AgState.seek_shelf then
        { base with targets := some (.seek tgt.position tgt.tid) }
      else if st = AgState.deliver then
        match agent.carrying with
        | some sid =>
          let g := (pyMinKey (fun g => (g.1 - agent.x).natAbs + (g.2 - agent.y).natAbs)
            c.goal_locations).getD (0, 0)
          { base with targets := some (.deliver g sid) }
        | none => base
      else if st = AgState.return_shelf then
        match agent.carrying with
        | some sid =>
          match alookup c.shelf_memory sid with
          | some origin => { base with targets := some (.ret origin sid), shelf_origin := some origin }
          | none => base
        | none => base
      else base
    { c with pre_charging_data := aupdate c.pre_charging_data aid stored }

/-- `_restore_pre_charging_state`. -/
def restore_pre_charging (env : Env) (c : Ctrl) (agent : AgentSnap) : Ctrl :=
  let aid := agent.aid
  match alookup c.pre_charging_data aid with
  | none => { c with agent_states := aupdate c.agent_states aid AgState.seek_shelf }
  | some data =>
    let c := { c with
      agent_states := aupdate c.agent_states aid data.state
      last_actions := aupdate c.last_actions aid [] }
    let c :=
      match data.state, data.targets with
      | AgState.seek_shelf, some (.seek loc sid) =>
        let shelf := env.request_queue.find? (fun (s : Shelf) => decide (some s.sid = sid))
        match shelf with
        | some s =>
          if !(shelfCarriedByAny env s) then
            let c := { c with agent_targets := aupdate c.agent_targets aid (some ⟨sid, loc⟩) }
            let movement := calc_for env c agent loc
            if movement ≠ [] then
              { c with last_actions := aupdate c.last_actions aid movement.tail }
            else c
          else c
        | none => c
      | AgState.deliver, some (.deliver gloc sid) =>
        match env.shelfs.find? (fun (s : Shelf) => decide (s.sid = sid)) with
        | some s =>
          if env.agents.any (fun a => decide (a.aid = aid) && decide (a.carrying = some s.sid)) then
            let c := { c with agent_targets := aupdate c.agent_targets aid (some ⟨none, gloc⟩) }
            let movement := calc_for env c agent gloc
            if movement ≠ [] then
              { c with last_actions := aupdate c.last_actions aid movement.tail }
            else c
          else c
        | none => c
      | AgState.return_shelf, some (.ret origin sid) =>
        match env.shelfs.find? (fun (s : Shelf) => decide (s.sid = sid)) with
        | some s =>
          if env.agents.any (fun a => decide (a.aid = aid) && decide (a.carrying = some s.sid)) then
            let c := { c with agent_targets := aupdate c.agent_targets aid (some ⟨none, origin⟩) }
            let movement := calc_for env c agent origin
            if movement ≠ [] then
              { c with last_actions := aupdate c.last_actions aid movement.tail }
            else c
          else c
        | none => c
      | _, _ => c
    { c with pre_charging_data := adelete c.pre_charging_data aid }

/-! The stuck/recovery bookkeeping block of `get_actions`. -/

/-- Whether this tick counts as a failed forward attempt: a nonempty pending
queue whose head is `FORWARD` while the position did not change
(`self.last_actions.get(...) and current_pos == self.last_positions.get(...)
and self.last_actions[...][0] == Action.FORWARD.value`). -/
def stuckIncCond (c : Ctrl) (aid : Nat) (current : Pos) : Bool :=
  let la := (alookup c.last_actions aid).getD []
  !(decide (la = [])) && decide (alookup c.last_positions aid = some current) &&
    decide (la.head? = some FORWARD)

/-- The counter update (A* lines 391-397, baseline lines 165-171): bump on a
failed forward attempt, reset to zero otherwise. -/
def stuckCountStage (c : Ctrl) (aid : Nat) (current : Pos) : Ctrl :=
  if stuckIncCond c aid current then
    { c with stuck_count := aupdate c.stuck_count aid ((alookup c.stuck_count aid).getD 0 + 1) }
  else
    { c with stuck_count := aupdate c.stuck_count aid 0 }

/-- Recovery entry in the A* variant (lines 399-408): clear the queue, record
the collision, set the flag. -/
def recoveryEntryAstar (c : Ctrl) (agent : AgentSnap) : Ctrl :=
  let aid := agent.aid
  if 1 < (alookup c.stuck_count aid).getD 0 ∧ ¬ agent.is_charging ∧
      ctrlState c aid ≠ AgState.no_shelf_to_carry ∧
      ¬ (alookup c.in_recovery aid).getD false then
    recordM { c with last_actions := aupdate c.last_actions aid []
                     in_recovery := aupdate c.in_recovery aid true } (.collision aid)
  else c

/-- Recovery entry in the baseline variant (lines 173-178): record the
collision and set the flag; the queue is left as it is. -/
def recoveryEntryBaseline (c : Ctrl) (agent : AgentSnap) : Ctrl :=
  let aid := agent.aid
  if 1 < (alookup c.stuck_count aid).getD 0 ∧
      ctrlState c aid ≠ AgState.no_shelf_to_carry ∧
      ¬ (alookup c.in_recovery aid).getD false then
    recordM { c with in_recovery := aupdate c.in_recovery aid true } (.collision aid)
  else c

/-- The recovery-step metric (A* lines 410-411, baseline lines 180-181). -/
def recoveryStepStage (c : Ctrl) (aid : Nat) : Ctrl :=
  if (alookup c.in_recovery aid).getD false then recordM c (.recovery_step aid) else c

/-- Recovery exit (A* lines 414-419, baseline lines 183-190): leave recovery
on the first position change after a forward attempt. -/
def recoveryExitStage (c : Ctrl) (aid : Nat) (current : Pos) : Ctrl :=
  if decide (alookup c.last_positions aid ≠ some current) &&
      !(decide ((alookup c.last_actions aid).getD [] = [])) &&
      decide (((alookup c.last_actions aid).getD []).head? = some FORWARD) &&
      (alookup c.in_recovery aid).getD false then
    recordM { c with stuck_count := aupdate c.stuck_count aid 0
                     in_recovery := aupdate c.in_recovery aid false } (.recovery_complete aid)
  else c

/-- Lines 391-421 of `astar_algorithm/main.py`: the full stuck/recovery block
(counter, recovery entry, recovery-step metric, recovery exit, then
`last_positions` is refreshed). -/
def stuck_update_astar (c : Ctrl) (agent : AgentSnap) : Ctrl :=
  let aid := agent.aid
  let current : Pos := (agent.x, agent.y)
  let c := recoveryExitStage
    (recoveryStepStage (recoveryEntryAstar (stuckCountStage c aid current) agent) aid)
    aid current
  { c with last_positions := aupdate c.last_positions aid current }

/-- Lines 165-192 of `baseline_algorithm/main.py`: the same block in the
baseline controller.  It differs from the A* variant in two ways: the
recovery-entry condition has no charging check, and entering recovery does
not clear the pending action queue. -/
def stuck_update_baseline (c : Ctrl) (agent : AgentSnap) : Ctrl :=
  let aid := agent.aid
  let current : Pos := (agent.x, agent.y)
  let c := recoveryExitStage
    (recoveryStepStage (recoveryEntryBaseline (stuckCountStage c aid current) agent) aid)
    aid current
  { c with last_positions := aupdate c.last_positions aid current }

/-! The per-agent body of the A*-variant `get_actions`, split into the
phases separated by `continue` statements. -/

/-- Lines 319-351: demote an agent with nothing to carry to
`no_shelf_to_carry`; such an agent either returns to `seek_shelf`, or heads
to (or waits at) its assigned waiting area and its processing ends for this
tick (`inl` is the `continue` case carrying the emitted action). -/
def no_shelf_phase (env : Env) (c : Ctrl) (agent : AgentSnap) : Ctrl × Nat ⊕ Ctrl :=
  let aid := agent.aid
  let st := ctrlState c aid
  let c :=
    if (st ≠ AgState.deliver ∧ st ≠ AgState.return_shelf ∧ st ≠ AgState.charging) ∧
        ¬ can_carry_any_shelf env c agent then
      { c with
        agent_states := aupdate c.agent_states aid AgState.no_shelf_to_carry
        agent_targets := aupdate c.agent_targets aid none
        last_actions := aupdate c.last_actions aid [] }
    else c
  if ctrlState c aid = AgState.no_shelf_to_carry then
    if can_carry_any_shelf env c agent then
      .inr { c with agent_states := aupdate c.agent_states aid AgState.seek_shelf }
    else
      let r := get_waiting_area c agent
      let c := r.1
      let warea := r.2
      if ((agent.x, agent.y) : Pos) = warea then .inl (c, NOOP)
      else
        let c :=
          if (alookup c.agent_targets aid).getD none = none then
            { c with agent_targets := aupdate c.agent_targets aid (some ⟨none, warea⟩) }
          else c
        match calc_for env c agent warea with
        | m :: rest => .inl ({ c with last_actions := aupdate c.last_actions aid rest }, m)
        | [] => .inl (c, NOOP)
  else .inr c

/-- Lines 360-374: the critical-battery branch.  The pre-charging snapshot is
taken only when the agent is not already in the charging state and has a
non-`None` target; the transition itself happens only when
`_get_closest_charging_station` returns a station (it returns `None` for an
agent already standing on a station cell). -/
def critical_phase (env : Env) (c : Ctrl) (agent : AgentSnap) : Ctrl :=
  let aid := agent.aid
  if battery_pct_lt env agent 10 && !agent.is_charging then
    let c := recordM c (.critical_battery aid)
    let c :=
      if ctrlState c aid ≠ AgState.charging ∧ ((alookup c.agent_targets aid).getD none).isSome then
        store_pre_charging c agent
      else c
    match get_closest_charging_station env agent with
    | some station =>
      let c := recordM c (.charging_start aid)
      { c with
        agent_states := aupdate c.agent_states aid AgState.charging
        agent_targets := aupdate c.agent_targets aid (some ⟨none, station⟩)
        last_actions := aupdate c.last_actions aid [] }
    | none => c
  else c

/-- Lines 377-387: the low-battery branch.  Unlike the critical branch, the
snapshot call is not guarded by a target check. -/
def low_phase (env : Env) (c : Ctrl) (agent : AgentSnap) : Ctrl :=
  let aid := agent.aid
  if needs_charging env agent && !agent.is_charging &&
      decide (ctrlState c aid ≠ AgState.charging) then
    let c := recordM c (.low_battery aid)
    let c := if ctrlState c aid ≠ AgState.charging then store_pre_charging c agent else c
    match get_closest_charging_station env agent with
    | some station =>
      let c := recordM c (.charging_start aid)
      { c with
        agent_states := aupdate c.agent_states aid AgState.charging
        agent_targets := aupdate c.agent_targets aid (some ⟨none, station⟩)
        last_actions := aupdate c.last_actions aid [] }
    | none => c
  else c

/-- The shelf-selection loop of the seek branch (lines 492-521): fold over the
request queue keeping the first shelf of minimal Manhattan distance among
those not carried, not reserved by another agent within the timeout, and not
over the agent's capacity. -/
def select_closest_shelf (env : Env) (c : Ctrl) (agent : AgentSnap) : Option Shelf :=
  (env.request_queue.foldl (fun (acc : Option (Shelf × Nat)) shelf =>
    if shelfCarriedByAny env shelf then acc
    else if reservedByOther c agent.aid shelf then acc
    else if decide (agent.max_carry_weight < shelf.weight) then acc
    else
      let pos := get_aligned_position env (shelf.x, shelf.y)
      let dist := (pos.1 - agent.x).natAbs + (pos.2 - agent.y).natAbs
      match acc with
      | none => some (shelf, dist)
      | some best => if dist < best.2 then some (shelf, dist) else acc) none).map (·.1)

/-- Lines 549-567 of the seek branch: on standing at the selected shelf's
cell, either pick it up (toggle-load, switch to deliver, drop the queue and
the reservation) or, if it is over capacity after all, record the attempt and
drop the reservation. -/
def seek_reached_check (c : Ctrl) (agent : AgentSnap) (shelf : Shelf) (action : Nat) :
    Ctrl × Nat :=
  let aid := agent.aid
  if ((agent.x, agent.y) : Pos) = ((shelf.x, shelf.y) : Pos) then
    if shelf.weight ≤ agent.max_carry_weight then
      let c := { c with
        agent_states := aupdate c.agent_states aid AgState.deliver
        last_actions := aupdate c.last_actions aid [] }
      let c :=
        if (alookup c.reserved_shelves shelf.sid).isSome then
          { c with
            reserved_shelves := adelete c.reserved_shelves shelf.sid
            shelf_reservation_time := adelete c.shelf_reservation_time shelf.sid }
        else c
      (c, TOGGLE_LOAD)
    else
      let c := recordM c (.overcapacity aid shelf.sid)
      let c :=
        if (alookup c.reserved_shelves shelf.sid).isSome then
          { c with
            reserved_shelves := adelete c.reserved_shelves shelf.sid
            shelf_reservation_time := adelete c.shelf_reservation_time shelf.sid }
        else c
      (c, action)
  else (c, action)

/-- Lines 486-567: the seek_shelf branch after the waiting-area cleanup.  A
nonempty queue cannot normally reach this point, so the replan condition
holds unless the restore path just refilled the queue; should it be skipped,
Python would hit an unbound `closest_shelf` (`NameError`), modelled as
leaving the state unchanged. -/
def seek_branch_core (env : Env) (c : Ctrl) (agent : AgentSnap) (action0 : Nat) : Ctrl × Nat :=
  let aid := agent.aid
  let replan :=
    decide ((alookup c.last_actions aid).getD [] = []) ||
      (match (alookup c.agent_targets aid).getD none with
       | some t => decide (((agent.x, agent.y) : Pos) ≠ t.position)
       | none => true)
  if replan then
    match select_closest_shelf env c agent with
    | some shelf =>
      let c := { c with
        reserved_shelves := aupdate c.reserved_shelves shelf.sid aid
        shelf_reservation_time := aupdate c.shelf_reservation_time shelf.sid c.current_step }
      let target_pos := get_aligned_position env (shelf.x, shelf.y)
      let c :=
        { c with agent_targets := aupdate c.agent_targets aid (some ⟨some shelf.sid, target_pos⟩) }
      let c :=
        if ((agent.x, agent.y) : Pos) ≠ ((shelf.x, shelf.y) : Pos) then
          recordM c (.task_start aid shelf.sid)
        else c
      match calc_for env c agent target_pos with
      | m :: rest =>
        seek_reached_check { c with last_actions := aupdate c.last_actions aid rest } agent shelf m
      | [] => seek_reached_check c agent shelf action0
    | none => (c, action0)
  else (c, action0)

/-- Lines 483-485 plus the core: the seek branch first drops the agent's
waiting-area assignment. -/
def seek_branch (env : Env) (c : Ctrl) (agent : AgentSnap) (action0 : Nat) : Ctrl × Nat :=
  let aid := agent.aid
  let c :=
    if (alookup c.assigned_waiting_areas aid).isSome then
      { c with assigned_waiting_areas := adelete c.assigned_waiting_areas aid }
    else c
  seek_branch_core env c agent action0

/-- Lines 571-589: the deliver branch (entered only when carrying). -/
def deliver_branch (env : Env) (c : Ctrl) (agent : AgentSnap) (action0 : Nat) : Ctrl × Nat :=
  let aid := agent.aid
  let closest_goal :=
    (pyMinKey (fun g => (g.1 - agent.x).natAbs + (g.2 - agent.y).natAbs) c.goal_locations).getD
      (0, 0)
  let c :=
    match alookup c.agent_targets aid with
    | some (some t) =>
      { c with agent_targets := aupdate c.agent_targets aid (some { t with position := closest_goal }) }
    | _ => c
  let r :=
    match calc_for env c agent closest_goal with
    | m :: rest => ({ c with last_actions := aupdate c.last_actions aid rest }, m)
    | [] => (c, action0)
  let c := r.1
  if ((agent.x, agent.y) : Pos) = closest_goal then
    ({ c with
      agent_states := aupdate c.agent_states aid AgState.return_shelf
      last_actions := aupdate c.last_actions aid [] }, TOGGLE_LOAD)
  else r

/-- Lines 593-617: the return_shelf branch. -/
def return_branch (env : Env) (c : Ctrl) (agent : AgentSnap) (action0 : Nat) : Ctrl × Nat :=
  let aid := agent.aid
  match agent.carrying with
  | some sid =>
    match alookup c.shelf_memory sid with
    | some original_pos =>
      let c :=
        match alookup c.agent_targets aid with
        | some (some t) =>
          { c with
            agent_targets := aupdate c.agent_targets aid (some { t with position := original_pos }) }
        | _ => c
      let r :=
        match calc_for env c agent original_pos with
        | m :: rest => ({ c with last_actions := aupdate c.last_actions aid rest }, m)
        | [] => (c, action0)
      let c := r.1
      if ((agent.x, agent.y) : Pos) = original_pos then
        let c := { c with
          agent_states := aupdate c.agent_states aid AgState.seek_shelf
          agent_targets := aupdate c.agent_targets aid none
          last_actions := aupdate c.last_actions aid [] }
        (recordM c (.task_completion aid sid), TOGGLE_LOAD)
      else r
    | none =>
      ({ c with
        agent_states := aupdate c.agent_states aid AgState.seek_shelf
        agent_targets := aupdate c.agent_targets aid none
        last_actions := aupdate c.last_actions aid [] }, action0)
  | none =>
    ({ c with
      agent_states := aupdate c.agent_states aid AgState.seek_shelf
      agent_targets := aupdate c.agent_targets aid none
      last_actions := aupdate c.last_actions aid [] }, action0)

/-- The `if seek_shelf / elif deliver / elif return_shelf` chain
(lines 483-617) followed by `actions.append(action)` and
`record_step_completion`. -/
def task_chain (env : Env) (c : Ctrl) (agent : AgentSnap) (action0 : Nat) : Ctrl × Nat :=
  let aid := agent.aid
  let r :=
    if ctrlState c aid = AgState.seek_shelf then seek_branch env c agent action0
    else if ctrlState c aid = AgState.deliver ∧ agent.carrying.isSome then
      deliver_branch env c agent action0
    else if ctrlState c aid = AgState.return_shelf then return_branch env c agent action0
    else (c, action0)
  (recordM r.1 .step_completion, r.2)

/-- Lines 433-480: the charging branch.  Every path `continue`s except the
restore path (fully charged at a station), which falls through into the
seek/deliver/return chain with the restored state. -/
def charging_branch (env : Env) (c : Ctrl) (agent : AgentSnap) : Ctrl × Nat :=
  let aid := agent.aid
  if agent.is_charging then
    if env.battery_capacity ≤ agent.battery_level then
      let c := restore_pre_charging env c agent
      let c := recordM c (.charging_end aid)
      task_chain env c agent NOOP
    else (c, NOOP)
  else
    let station_pos :=
      match (alookup c.agent_targets aid).getD none with
      | some t => t.position
      | none => (0, 0)
    if ((agent.x, agent.y) : Pos) = station_pos then
      let station_available :=
        !(env.agents.any (fun other =>
          decide (other ≠ agent) && decide (((other.x, other.y) : Pos) = station_pos) &&
            other.is_charging && battery_pct_lt env other 90))
      if station_available then (c, NOOP)
      else
        let la := (alookup c.last_actions aid).getD []
        let la := if la.length < 2 then [LEFT, RIGHT] else la
        match la with
        | a :: rest => ({ c with last_actions := aupdate c.last_actions aid rest }, a)
        | [] => (c, NOOP)
    else
      match calc_for env c agent station_pos with
      | m :: rest => ({ c with last_actions := aupdate c.last_actions aid rest }, m)
      | [] => (c, NOOP)

/-- One iteration of the `for agent in self.env.agents` loop of the A*
variant's `get_actions` (lines 317-625): the no-shelf phase, the dead-battery
check, the two battery branches, the stuck/recovery block, the queued-action
pop, and the charging/seek/deliver/return state machine.  Returns the updated
controller and the action appended for this agent. -/
def agent_step (env : Env) (c0 : Ctrl) (agent : AgentSnap) : Ctrl × Nat :=
  let aid := agent.aid
  let c := recordM c0 (.movement aid)
  match no_shelf_phase env c agent with
  | .inl r => r
  | .inr c =>
    if agent.battery_level ≤ 0 then
      (recordM c (.battery_failure aid), NOOP)
    else
      let c := critical_phase env c agent
      let c := low_phase env c agent
      let c := stuck_update_astar c agent
      match (alookup c.last_actions aid).getD [] with
      | a :: rest => ({ c with last_actions := aupdate c.last_actions aid rest }, a)
      | [] =>
        if ctrlState c aid = AgState.charging then charging_branch env c agent
        else task_chain env c agent NOOP

/-- Lines 307-312 of `get_actions`: the expiry purge run before the per-agent
loop; reservations at least 20 steps old are removed from both dicts. -/
def purge_reservations (c : Ctrl) : Ctrl :=
  let expired :=
    (c.shelf_reservation_time.filter (fun e => decide ((20 : Int) ≤ c.current_step - e.2))).map
      (·.1)
  { c with
    reserved_shelves := c.reserved_shelves.filter (fun e => !(decide (e.1 ∈ expired)))
    shelf_reservation_time :=
      c.shelf_reservation_time.filter (fun e => !(decide (e.1 ∈ expired))) }

/-- `get_actions` of the A* variant: purge, `record_total_steps`, then the
per-agent loop in env order. -/
def get_actions (env : Env) (c : Ctrl) : Ctrl × List Nat :=
  let c := purge_reservations c
  let c := recordM c .total_steps
  env.agents.foldl (fun acc agent =>
    let r := agent_step env acc.1 agent
    (r.1, acc.2 ++ [r.2])) (c, [])

/-! Spec-side predicate for claim C4, written from the claim's own words (for
the refutation): obstacle and other-agent cells blocked; in a
carrying state every shelf cell (the current position of an env shelf)
blocked except exactly the carried shelf's current cell; in seek_shelf no
cell blocked merely for being a shelf cell. -/
def blockedSpecC4 (env : Env) (hs : HelperSt) (state : AgState) (agent : AgentSnap) : Prop :=
  (∀ p ∈ env.obstacles, p ∈ get_blocked_positions env hs state agent) ∧
  (∀ a ∈ env.agents, a ≠ agent →
    ((a.x, a.y) : Pos) ∈ get_blocked_positions env hs state agent) ∧
  ((state = AgState.deliver ∨ state = AgState.return_shelf ∨ state = AgState.charging) ∧
      agent.carrying.isSome →
    (∀ s ∈ env.shelfs, some s.sid ≠ agent.carrying →
      ((s.x, s.y) : Pos) ∈ get_blocked_positions env hs state agent) ∧
    (∀ s ∈ env.shelfs, some s.sid = agent.carrying →
      ((s.x, s.y) : Pos) ∉ get_blocked_positions env hs state agent)) ∧
  (state = AgState.seek_shelf →
    ∀ p ∈ get_blocked_positions env hs state agent,
      p ∈ env.obstacles ∨ ∃ a ∈ env.agents, a ≠ agent ∧ p = ((a.x, a.y) : Pos))

/-! Concrete inputs used by the per-claim theorems below. -/

/-- C4 refutation input: the carried shelf 0 has moved (current `(0,0)`, home
`(1,1)`); shelf 1 is at current `(2,0)` away from its home `(2,2)`. -/
def envC4x : Env :=
  ⟨5, 5, 100, [⟨0, 0, 0, 3, 50, false, some 0, 10⟩], [], [⟨0, 0, 0, 2⟩, ⟨1, 2, 0, 2⟩],
    [(4, 4)], []⟩

def hsC4x : HelperSt := ⟨[(0, (1, 1)), (1, (2, 2))], [(1, 1), (2, 2)]⟩

def agC4x : AgentSnap := ⟨0, 0, 0, 3, 50, false, some 0, 10⟩

/-- C3 refutation input: agent 0 in seek_shelf holds the reservation on
shelf 7 (made one step ago) and drops to 9% battery. -/
def agC3x : AgentSnap := ⟨0, 1, 1, 3, 9, false, none, 10⟩

def envC3x : Env := ⟨5, 5, 100, [agC3x], [⟨7, 2, 2, 3⟩], [⟨7, 2, 2, 3⟩], [(4, 2)], []⟩

def ctrlC3x : Ctrl :=
  ⟨[(0, .seek_shelf)], [(0, none)], [(0, (1, 1))], [(0, 0)], [(0, [])],
    [(7, 0)], [(7, 4)], 5, [], [], [(0, 0)], [], ⟨[(7, (2, 2))], [(2, 2)]⟩, [(4, 2)],
    [(7, (2, 2))], []⟩

/-- C3 witness inputs: a healthy agent standing on its reserved shelf (pickup
side), and the C3 refutation state (charging side). -/
def agC3w : AgentSnap := ⟨0, 2, 2, 3, 50, false, none, 10⟩

def envC3w : Env := ⟨5, 5, 100, [agC3w], [⟨7, 2, 2, 3⟩], [⟨7, 2, 2, 3⟩], [(4, 2)], []⟩

def ctrlC3w : Ctrl :=
  ⟨[(0, .seek_shelf)], [(0, some ⟨some 7, (2, 2)⟩)], [(0, (2, 2))], [(0, 0)], [(0, [])],
    [(7, 0)], [(7, 4)], 5, [], [], [(0, 0)], [], ⟨[(7, (2, 2))], [(2, 2)]⟩, [(4, 2)],
    [(7, (2, 2))], []⟩

/-- C6 refutation input: agent 0 at 9% battery, not charging, standing on the
charging-station corner `(0, 0)`. -/
def agC6x : AgentSnap := ⟨0, 0, 0, 3, 9, false, none, 10⟩

def envC6x : Env := ⟨5, 5, 100, [agC6x], [⟨7, 2, 2, 3⟩], [⟨7, 2, 2, 3⟩], [(4, 2)], []⟩

def ctrlC6x : Ctrl :=
  ⟨[(0, .seek_shelf)], [(0, none)], [(0, (0, 0))], [(0, 0)], [(0, [])],
    [], [], 5, [], [], [(0, 0)], [], ⟨[(7, (2, 2))], [(2, 2)]⟩, [(4, 2)],
    [(7, (2, 2))], []⟩

/-- C6 witness input: agent 0 at 9% battery away from every station, in
seek_shelf with a non-`None` target. -/
def agC6w : AgentSnap := ⟨0, 1, 1, 3, 9, false, none, 10⟩

def envC6w : Env := ⟨5, 5, 100, [agC6w], [⟨7, 2, 2, 3⟩], [⟨7, 2, 2, 3⟩], [(4, 2)], []⟩

def ctrlC6w : Ctrl :=
  ⟨[(0, .seek_shelf)], [(0, some ⟨some 7, (2, 2)⟩)], [(0, (1, 1))], [(0, 0)], [(0, [])],
    [], [], 5, [], [], [(0, 0)], [], ⟨[(7, (2, 2))], [(2, 2)]⟩, [(4, 2)],
    [(7, (2, 2))], []⟩

/-- C7 inputs: a stuck agent (pending `FORWARD`, unchanged position) with the
counter already at 1. -/
def agC7x : AgentSnap := ⟨0, 1, 1, 3, 50, false, none, 10⟩

def ctrlC7x : Ctrl :=
  ⟨[(0, .seek_shelf)], [(0, none)], [(0, (1, 1))], [(0, 1)], [(0, [1, 1])],
    [], [], 5, [], [], [(0, 0)], [(0, false)], ⟨[], []⟩, [(4, 2)], [], []⟩

/-- C9 failing input: agent 0 with a drained battery but no carryable shelf,
assigned the waiting area `(3, 1)` while standing at `(1, 1)`. -/
def agC9x : AgentSnap := ⟨0, 1, 1, 3, 0, false, none, 10⟩

def envC9x : Env := ⟨5, 5, 100, [agC9x], [], [], [(4, 2)], []⟩

def ctrlC9x : Ctrl :=
  ⟨[(0, .seek_shelf)], [(0, none)], [(0, (1, 1))], [(0, 0)], [(0, [])],
    [], [], 5, [], [(0, (3, 1))], [(3, 1)], [], ⟨[], []⟩, [(4, 2)], [], []⟩

/-- C7 witness input for the first-failure part: same stuck pose, counter 0. -/
def ctrlC7w : Ctrl :=
  ⟨[(0, .seek_shelf)], [(0, none)], [(0, (1, 1))], [(0, 0)], [(0, [1, 1])],
    [], [], 5, [], [], [(0, 0)], [(0, false)], ⟨[], []⟩, [(4, 2)], [], []⟩

/-- C5 scenario input: shelf 5 reserved by agent 0 at tick 0, viewed at
tick 20. -/
def ctrlC5x : Ctrl :=
  ⟨[(0, .seek_shelf)], [(0, none)], [], [], [],
    [(5, 0)], [(5, 0)], 20, [], [], [], [], ⟨[], []⟩, [], [], []⟩

/-! Search-correctness machinery for comparing the two planners: the facing
after a replay, the single exploration step both searches share, reachability
as its reflexive-transitive closure, and step chains. -/

/-- The facing after replaying an action sequence (companion of `replayPos`,
with the same transition semantics as the validator). -/
def replayDir : List Nat → Nat → Nat
  | [], d => d
  | a :: rest, d =>
    if a = FORWARD then replayDir rest d
    else if a = LEFT then replayDir rest (turnLeftDir d)
    else if a = RIGHT then replayDir rest (turnRightDir d)
    else replayDir rest d

/-- One exploration step, shared by both searches: `q` is an in-bounds
neighbor of `p` that is not blocked.  (The start cell itself is expanded
unconditionally by both searches, so no constraint is placed on `p`.) -/
def stepRel (cols rows : Int) (blocked : List Pos) (p q : Pos) : Prop :=
  q ∈ get_neighbors cols rows p ∧ q ∉ blocked

/-- Reachability through in-bounds unblocked cells. -/
def Reach (cols rows : Int) (blocked : List Pos) : Pos → Pos → Prop :=
  Relation.ReflTransGen (stepRel cols rows blocked)

/-- `chainP cols rows blocked p l`: the cells of `l` form a consecutive step
chain starting from `p`. -/
def chainP (cols rows : Int) (blocked : List Pos) : Pos → List Pos → Prop
  | _, [] => True
  | p, q :: rest => stepRel cols rows blocked p q ∧ chainP cols rows blocked q rest

/-- The last cell of the chain `p :: l`. -/
def endOf : Pos → List Pos → Pos
  | p, [] => p
  | _, q :: rest => endOf q rest

/-- The finitely many in-bounds cells, for the fuel-sufficiency counting
arguments. -/
def gridFinset (cols rows : Int) : Finset Pos :=
  (Finset.Ico 0 cols) ×ˢ (Finset.Ico 0 rows)

/-- The keys of a BFS visited map. -/
def vkeys (visited : List (Pos × Option Pos)) : List Pos := visited.map Prod.fst

/-- Every parent pointer in the visited map refers to an entry appearing
strictly earlier in the list (so parent chains terminate). -/
def ParentEarlier (visited : List (Pos × Option Pos)) : Prop :=
  ∀ (i : Nat) (hi : i < visited.length) (c : Pos),
    (visited.get ⟨i, hi⟩).2 = some c →
      ∃ (j : Nat) (hj : j < visited.length), j < i ∧ (visited.get ⟨j, hj⟩).1 = c

/-- What one `bfsProcess` pass (the inner neighbor loop of the BFS) guarantees
about its outputs, relative to its inputs. -/
structure BfsStepOut (cols rows : Int) (blocked : List Pos) (goal current : Pos)
    (ns queue : List Pos) (visited : List (Pos × Option Pos))
    (q2 : List Pos) (v2 : List (Pos × Option Pos)) (found : Bool) : Prop where
  kmono : ∀ k ∈ vkeys visited, k ∈ vkeys v2
  knodup : (vkeys v2).Nodup
  knew : ∀ k ∈ vkeys v2, k ∈ vkeys visited ∨
    (k ∈ get_neighbors cols rows current ∧ k ∉ blocked)
  entries : ∀ k c, (k, some c) ∈ v2 → (k, some c) ∈ visited ∨
    (c = current ∧ stepRel cols rows blocked c k)
  nones : ∀ (k : Pos) (v : Option Pos), (k, v) ∈ v2 → v = none → (k, v) ∈ visited
  pe : ParentEarlier v2
  qmono : ∀ q ∈ queue, q ∈ q2
  qnew : ∀ q ∈ q2, q ∈ queue ∨ (q ∈ vkeys v2 ∧ q ∉ vkeys visited)
  qsub : ∀ q ∈ q2, q ∈ vkeys v2
  qnodup : q2.Nodup
  count : (vkeys v2).length + queue.length =
    (vkeys visited).length + q2.length + (if found then 1 else 0)
  ffalse : found = false → goal ∉ vkeys v2 ∧
    (∀ n ∈ ns, n ≠ goal ∧ (n ∉ blocked → n ∈ vkeys v2)) ∧
    (∀ k ∈ vkeys v2, k ∉ vkeys visited → k ∈ q2)
  ftrue : found = true → goal ∈ vkeys v2

/-- The BFS loop invariant relating the queue and the visited map. -/
structure BfsInv (cols rows : Int) (blocked : List Pos) (goal start : Pos)
    (queue : List Pos) (visited : List (Pos × Option Pos)) : Prop where
  knodup : (vkeys visited).Nodup
  kinb : ∀ k ∈ vkeys visited, is_position_valid cols rows k = true
  qsub : ∀ q ∈ queue, q ∈ vkeys visited
  qnodup : queue.Nodup
  smem : start ∈ vkeys visited
  nstart : ∀ (k : Pos) (v : Option Pos), (k, v) ∈ visited → v = none → k = start
  entries : ∀ k c, (k, some c) ∈ visited → stepRel cols rows blocked c k
  pe : ParentEarlier visited
  processed : ∀ k ∈ vkeys visited, k ∉ queue →
    ∀ n ∈ get_neighbors cols rows k, n ≠ goal ∧ (n ∉ blocked → n ∈ vkeys visited)
  nogoal : goal ∉ vkeys visited

/-- Index of the first occurrence of a cell in a list (0 when absent at the
head of recursion; only used under membership hypotheses). -/
def idxN : List Pos → Pos → Nat
  | [], _ => 0
  | x :: xs, a => if x = a then 0 else idxN xs a + 1

/-- The A* loop invariant. -/
structure AstarInv (cols rows : Int) (blocked : List Pos) (goal start : Pos)
    (st : AstarSt) : Prop where
  onodup : st.openSet.Nodup
  cnodup : st.closed.Nodup
  odisj : ∀ p ∈ st.openSet, p ∉ st.closed
  oinb : ∀ p ∈ st.openSet, is_position_valid cols rows p = true
  cinb : ∀ p ∈ st.closed, is_position_valid cols rows p = true
  smem : start ∈ st.openSet ∨ start ∈ st.closed
  gstart : alookup st.gScore start = some 0
  skey : start ∉ st.cameFrom.map Prod.fst
  cfnodup : (st.cameFrom.map Prod.fst).Nodup
  entries : ∀ n c, (n, c) ∈ st.cameFrom → stepRel cols rows blocked c n
  pclosed : ∀ n c, (n, c) ∈ st.cameFrom → c ∈ st.closed
  prank : ∀ n c, (n, c) ∈ st.cameFrom → n ∈ st.closed →
    idxN st.closed c < idxN st.closed n
  keycover : ∀ p, (p ∈ st.openSet ∨ p ∈ st.closed) → p ≠ start →
    p ∈ st.cameFrom.map Prod.fst
  closure : ∀ p ∈ st.closed, ∀ n ∈ get_neighbors cols rows p, n ∉ blocked →
    (n ∈ st.openSet ∨ n ∈ st.closed)
  gng : goal ∉ st.closed

/-- What one `astarRelax` pass guarantees about its output state. -/
structure RelaxOut (cols rows : Int) (blocked : List Pos) (current start : Pos)
    (ns : List Pos) (st st2 : AstarSt) : Prop where
  ceq : st2.closed = st.closed
  omono : ∀ p ∈ st.openSet, p ∈ st2.openSet
  onew : ∀ p ∈ st2.openSet, p ∈ st.openSet ∨
    (p ∈ get_neighbors cols rows current ∧ p ∉ blocked ∧ p ∉ st.closed ∧
      p ∈ st2.cameFrom.map Prod.fst)
  onodup : st.openSet.Nodup → st2.openSet.Nodup
  kmono : ∀ k ∈ st.cameFrom.map Prod.fst, k ∈ st2.cameFrom.map Prod.fst
  entries : ∀ n c, (n, c) ∈ st2.cameFrom → (n, c) ∈ st.cameFrom ∨
    (c = current ∧ n ∈ get_neighbors cols rows current ∧ n ∉ blocked ∧
      n ∉ st.closed ∧ n ≠ start)
  cfnodup : (st.cameFrom.map Prod.fst).Nodup → (st2.cameFrom.map Prod.fst).Nodup
  gpres : alookup st2.gScore start = alookup st.gScore start
  nscl : ∀ n ∈ ns, n ∉ blocked → n ∈ st2.openSet ∨ n ∈ st.closed

/-! Theorems.  First some small lemmas about the dict model. -/

theorem alookup_aupdate_self {α β : Type} [DecidableEq α] (l : List (α × β)) (k : α) (v : β) :
    alookup (aupdate l k v) k = some v := by
  induction l with
  | nil => simp [aupdate, alookup]
  | cons h t ih =>
    by_cases hk : h.1 = k
    · simp [aupdate, hk, alookup]
    · simp only [aupdate]
      rw [if_neg hk]
      simp only [alookup]
      rw [if_neg fun hq => hk hq.symm]
      exact ih

theorem alookup_aupdate_ne {α β : Type} [DecidableEq α] (l : List (α × β)) (k q : α) (v : β)
    (h : q ≠ k) : alookup (aupdate l k v) q = alookup l q := by
  induction l with
  | nil => simp [aupdate, alookup, h]
  | cons hd t ih =>
    by_cases hk : hd.1 = k
    · simp only [aupdate]
      rw [if_pos hk]
      simp only [alookup]
      rw [if_neg h, if_neg (hk ▸ h)]
    · simp only [aupdate]
      rw [if_neg hk]
      simp only [alookup]
      by_cases hq : q = hd.1
      · rw [if_pos hq, if_pos hq]
      · rw [if_neg hq, if_neg hq]
        exact ih

/-- C8: an out-of-bounds or blocked goal makes both strategies return the
empty action sequence (the `calculate_movement` early exits). -/
theorem C8_invalid_goal_empty (cols rows : Int) (agent : AgentPose) (goal : Pos)
    (blocked : List Pos)
    (h : is_position_valid cols rows goal = false ∨ goal ∈ blocked) :
    calculate_movement_astar cols rows agent goal blocked = [] ∧
      calculate_movement_bfs cols rows agent goal blocked = [] := by
  unfold calculate_movement_astar calculate_movement_bfs
  rcases h with h | h
  · simp [h]
  · by_cases hv : is_position_valid cols rows goal
    · simp [hv, h]
    · simp [hv]

/-- C8 witness: the goal `(5, 0)` lies outside the 3x3 grid. -/
theorem C8_invalid_goal_empty_witness :
    calculate_movement_astar 3 3 ⟨0, 0, 3⟩ (5, 0) [] = [] ∧
      calculate_movement_bfs 3 3 ⟨0, 0, 3⟩ (5, 0) [] = [] :=
  C8_invalid_goal_empty 3 3 ⟨0, 0, 3⟩ (5, 0) [] (Or.inl (by decide))

/-- C10: a valid unblocked goal equal to the agent's current cell makes both
strategies return the empty sequence, the same value they return for an
unreachable goal, so the two cases are indistinguishable by return value. -/
theorem C10_goal_at_start_empty (cols rows : Int) (agent : AgentPose) (goal : Pos)
    (blocked : List Pos) (hv : is_position_valid cols rows goal = true)
    (hb : goal ∉ blocked) (heq : ((agent.x, agent.y) : Pos) = goal) :
    calculate_movement_astar cols rows agent goal blocked = [] ∧
      calculate_movement_bfs cols rows agent goal blocked = [] := by
  obtain ⟨gx, gy⟩ := goal
  have hx : agent.x = gx := congrArg Prod.fst heq
  have hy : agent.y = gy := congrArg Prod.snd heq
  have hdm : direct_movement agent (gx, gy) = [] := by
    simp [direct_movement, hx, hy, legX, legY]
  have hclear : is_direct_path_clear blocked (agent.x, agent.y) (gx, gy) = true := by
    simp [is_direct_path_clear, intStepRange, hx, hy]
  have hbfs : pathfind_movement_bfs cols rows agent (gx, gy) blocked = [] := by
    unfold pathfind_movement_bfs
    simp [hx, hy]
  constructor
  · unfold calculate_movement_astar
    simp [hv, hb, hclear, hdm, validate_action_sequence, validate_from]
  · unfold calculate_movement_bfs
    simp [hv, hb, hbfs]

/-- C10 witness: agent already standing on the valid free goal `(1, 1)`. -/
theorem C10_goal_at_start_empty_witness :
    calculate_movement_astar 3 3 ⟨1, 1, 0⟩ (1, 1) [] = [] ∧
      calculate_movement_bfs 3 3 ⟨1, 1, 0⟩ (1, 1) [] = [] :=
  C10_goal_at_start_empty 3 3 ⟨1, 1, 0⟩ (1, 1) [] (by decide) (by decide) rfl

/-- C4 counterexample: with the carried shelf moved away from its home cell,
the blocked set neither contains every shelf's current cell nor is the
exception the carried shelf's current cell — the exclusion is by the
remembered home position, so the claim as stated fails here. -/
theorem C4_counterexample_current_cell :
    ¬ blockedSpecC4 envC4x hsC4x AgState.deliver agC4x := by
  intro h
  have h3 := (h.2.2.1 ⟨Or.inl rfl, by decide⟩).1 ⟨1, 2, 0, 2⟩ (by decide) (by decide)
  exact absurd h3 (by decide)

/-- C4 (amended): membership in `get_blocked_positions` is exactly: a static
obstacle cell, another agent's cell, or — in the deliver/return_shelf/charging
states — a remembered (initialisation-time) shelf cell other than the carried
shelf's remembered home cell (all remembered shelf cells when not carrying);
in particular in seek_shelf no shelf cell is blocked as such. -/
theorem C4_amended_blocked_positions (env : Env) (hs : HelperSt) (state : AgState)
    (agent : AgentSnap) (p : Pos) :
    p ∈ get_blocked_positions env hs state agent ↔
      p ∈ env.obstacles ∨ (∃ a ∈ env.agents, a ≠ agent ∧ p = ((a.x, a.y) : Pos)) ∨
      ((state = AgState.deliver ∨ state = AgState.return_shelf ∨ state = AgState.charging) ∧
        match agent.carrying with
        | some sid =>
          p ∈ hs.shelf_locations ∧ p ≠ (alookup hs.shelf_memory sid).getD (-1, -1)
        | none => p ∈ hs.shelf_locations) := by
  unfold get_blocked_positions
  by_cases hst : state = AgState.deliver ∨ state = AgState.return_shelf ∨
      state = AgState.charging
  · rw [if_pos hst]
    cases hcar : agent.carrying with
    | none =>
      simp only [List.mem_append, List.mem_map, List.mem_filter, decide_eq_true_eq]
      constructor
      · rintro ((h | ⟨a, ⟨ha, hne⟩, rfl⟩) | h)
        · exact Or.inl h
        · exact Or.inr (Or.inl ⟨a, ha, hne, rfl⟩)
        · exact Or.inr (Or.inr ⟨hst, h⟩)
      · rintro (h | ⟨a, ha, hne, rfl⟩ | ⟨-, h⟩)
        · exact Or.inl (Or.inl h)
        · exact Or.inl (Or.inr ⟨a, ⟨ha, hne⟩, rfl⟩)
        · exact Or.inr h
    | some sid =>
      simp only [List.mem_append, List.mem_map, List.mem_filter, decide_eq_true_eq]
      constructor
      · rintro ((h | ⟨a, ⟨ha, hne⟩, rfl⟩) | h)
        · exact Or.inl h
        · exact Or.inr (Or.inl ⟨a, ha, hne, rfl⟩)
        · exact Or.inr (Or.inr ⟨hst, h.1, h.2⟩)
      · rintro (h | ⟨a, ha, hne, rfl⟩ | ⟨-, h1, h2⟩)
        · exact Or.inl (Or.inl h)
        · exact Or.inl (Or.inr ⟨a, ⟨ha, hne⟩, rfl⟩)
        · exact Or.inr ⟨h1, h2⟩
  · rw [if_neg hst]
    simp only [List.append_nil, List.mem_append, List.mem_map, List.mem_filter,
      decide_eq_true_eq]
    constructor
    · rintro (h | ⟨a, ⟨ha, hne⟩, rfl⟩)
      · exact Or.inl h
      · exact Or.inr (Or.inl ⟨a, ha, hne, rfl⟩)
    · rintro (h | ⟨a, ha, hne, rfl⟩ | ⟨h, -⟩)
      · exact Or.inl h
      · exact Or.inr ⟨a, ⟨ha, hne⟩, rfl⟩
      · exact absurd h hst

/-- C5: after the expiry purge at the top of `get_actions`, every remaining
reservation-time entry is younger than 20 ticks; and in the scenario where
shelf 5 was reserved by agent 0 at tick 0, at tick 20 the purged ledger no
longer reports it reserved to another agent's selection. -/
theorem C5_purge_enforces_ttl :
    (∀ (c : Ctrl), ∀ e ∈ (purge_reservations c).shelf_reservation_time,
      c.current_step - e.2 < 20) ∧
      (purge_reservations ctrlC5x).reserved_shelves = [] ∧
      reservedByOther (purge_reservations ctrlC5x) 1 ⟨5, 2, 2, 1⟩ = false := by
  refine ⟨?_, by decide, by decide⟩
  intro c e he
  simp only [purge_reservations, List.mem_filter] at he
  obtain ⟨hmem, hkeep⟩ := he
  by_contra hge
  push_neg at hge
  have : e.1 ∈ ((c.shelf_reservation_time.filter
      (fun e => decide ((20 : Int) ≤ c.current_step - e.2))).map Prod.fst) := by
    exact List.mem_map_of_mem _ (List.mem_filter.mpr ⟨hmem, by simpa using hge⟩)
  simp [this] at hkeep

/-- C5 witness: a reservation made one tick ago survives the purge and is
indeed younger than 20 ticks. -/
theorem C5_purge_enforces_ttl_witness :
    ((7 : Nat), (4 : Int)) ∈ (purge_reservations ctrlC3x).shelf_reservation_time ∧
      ctrlC3x.current_step - 4 < 20 :=
  ⟨by decide, C5_purge_enforces_ttl.1 ctrlC3x (7, 4) (by decide)⟩

theorem alookup_eq_none {α β : Type} [DecidableEq α] (l : List (α × β)) (k : α)
    (h : k ∉ l.map Prod.fst) : alookup l k = none := by
  induction l with
  | nil => rfl
  | cons hd t ih =>
    simp only [List.map_cons, List.mem_cons] at h
    push_neg at h
    simp only [alookup]
    rw [if_neg h.1]
    exact ih h.2

theorem keys_aupdate_nodup {α β : Type} [DecidableEq α] (l : List (α × β)) (k : α) (v : β)
    (h : (l.map Prod.fst).Nodup) : ((aupdate l k v).map Prod.fst).Nodup := by
  induction l with
  | nil => simp [aupdate]
  | cons hd t ih =>
    simp only [List.map_cons, List.nodup_cons] at h
    by_cases hk : hd.1 = k
    · simp only [aupdate]
      rw [if_pos hk]
      simp only [List.map_cons, List.nodup_cons]
      exact ⟨hk ▸ h.1, h.2⟩
    · simp only [aupdate]
      rw [if_neg hk]
      simp only [List.map_cons, List.nodup_cons]
      refine ⟨?_, ih h.2⟩
      intro hmem
      have : ∀ (t : List (α × β)), hd.1 ∉ t.map Prod.fst → hd.1 ≠ k →
          hd.1 ∉ (aupdate t k v).map Prod.fst := by
        intro t
        induction t with
        | nil => intro _ hne; simp [aupdate, hne]
        | cons hd2 t2 ih2 =>
          intro hmem2 hne
          simp only [List.map_cons, List.mem_cons] at hmem2
          push_neg at hmem2
          by_cases hk2 : hd2.1 = k
          · simp only [aupdate]
            rw [if_pos hk2]
            simp only [List.map_cons, List.mem_cons]
            push_neg
            exact ⟨hne, hmem2.2⟩
          · simp only [aupdate]
            rw [if_neg hk2]
            simp only [List.map_cons, List.mem_cons]
            push_neg
            exact ⟨hmem2.1, ih2 hmem2.2 hne⟩
      exact this t h.1 hk hmem

theorem alookup_adelete_self {α β : Type} [DecidableEq α] (l : List (α × β)) (k : α)
    (h : (l.map Prod.fst).Nodup) : alookup (adelete l k) k = none := by
  induction l with
  | nil => rfl
  | cons hd t ih =>
    simp only [List.map_cons, List.nodup_cons] at h
    by_cases hk : hd.1 = k
    · simp only [adelete]
      rw [if_pos hk]
      exact alookup_eq_none t k (hk ▸ h.1)
    · simp only [adelete]
      rw [if_neg hk]
      simp only [alookup]
      rw [if_neg fun hq => hk hq.symm]
      exact ih h.2

/-- `_store_pre_charging_state` only writes `pre_charging_data`. -/
theorem store_pre_only (c : Ctrl) (a : AgentSnap) :
    ∃ v, store_pre_charging c a = { c with pre_charging_data := v } := by
  simp only [store_pre_charging]
  split <;> exact ⟨_, rfl⟩

/-- The snapshot ignores the metrics field. -/
theorem store_pre_recordM (c : Ctrl) (e : MEvent) (a : AgentSnap) :
    (store_pre_charging (recordM c e) a).pre_charging_data =
      (store_pre_charging c a).pre_charging_data := by
  unfold store_pre_charging recordM ctrlState
  rcases h : (alookup c.agent_targets a.aid).getD none with _ | t <;> simp [h]

/-- A skipped critical branch (healthy battery) leaves the controller
unchanged. -/
theorem critical_phase_skip (env : Env) (c : Ctrl) (a : AgentSnap)
    (h : battery_pct_lt env a 10 = false) : critical_phase env c a = c := by
  unfold critical_phase
  simp [h]

/-- A skipped low-battery branch leaves the controller unchanged. -/
theorem low_phase_skip_pct (env : Env) (c : Ctrl) (a : AgentSnap)
    (h : battery_pct_lt env a 20 = false) : low_phase env c a = c := by
  unfold low_phase needs_charging
  simp [h]

/-- The low-battery branch is also skipped once the state is charging. -/
theorem low_phase_skip_charging (env : Env) (c : Ctrl) (a : AgentSnap)
    (h : ctrlState c a.aid = AgState.charging) : low_phase env c a = c := by
  unfold low_phase
  simp [h]

/-- The stuck/recovery block with an empty pending queue: the counter resets,
no recovery transition fires, and only the counter, the stored position and
possibly the metrics change. -/
theorem stuck_update_astar_empty_queue (c : Ctrl) (a : AgentSnap)
    (hla : (alookup c.last_actions a.aid).getD [] = []) :
    ∃ m, stuck_update_astar c a =
      { c with stuck_count := aupdate c.stuck_count a.aid 0
               last_positions := aupdate c.last_positions a.aid (a.x, a.y)
               metrics := m } := by
  have hinc : stuckIncCond c a.aid (a.x, a.y) = false := by
    unfold stuckIncCond
    simp [hla]
  have h1 : stuckCountStage c a.aid (a.x, a.y) =
      { c with stuck_count := aupdate c.stuck_count a.aid 0 } := by
    unfold stuckCountStage
    rw [if_neg]
    simp [hinc]
  have h2 : recoveryEntryAstar { c with stuck_count := aupdate c.stuck_count a.aid 0 } a =
      { c with stuck_count := aupdate c.stuck_count a.aid 0 } := by
    unfold recoveryEntryAstar
    rw [if_neg]
    intro hcond
    have := hcond.1
    simp only [alookup_aupdate_self, Option.getD_some] at this
    omega
  have h4 : ∀ (d : Ctrl), d.last_actions = c.last_actions →
      recoveryExitStage d a.aid (a.x, a.y) = d := by
    intro d hd
    unfold recoveryExitStage
    have : (decide ((alookup d.last_actions a.aid).getD [] = [])) = true := by
      rw [hd, hla]
      simp
    simp [this]
  simp only [stuck_update_astar]
  rw [h1, h2]
  unfold recoveryStepStage
  split
  · rw [h4 _ (by simp [recordM])]
    exact ⟨_, rfl⟩
  · rw [h4 _ (by rfl)]
    exact ⟨_, rfl⟩

/-- The no-shelf phase falls through for an agent in the deliver, return or
charging state. -/
theorem no_shelf_phase_busy (env : Env) (c : Ctrl) (a : AgentSnap)
    (h : ctrlState c a.aid = AgState.deliver ∨ ctrlState c a.aid = AgState.return_shelf ∨
      ctrlState c a.aid = AgState.charging) : no_shelf_phase env c a = .inr c := by
  have hdem : ¬ ((ctrlState c a.aid ≠ AgState.deliver ∧ ctrlState c a.aid ≠ AgState.return_shelf ∧
      ctrlState c a.aid ≠ AgState.charging) ∧ ¬ can_carry_any_shelf env c a = true) := by
    rintro ⟨⟨h1, h2, h3⟩, -⟩
    rcases h with hh | hh | hh
    · exact h1 hh
    · exact h2 hh
    · exact h3 hh
  have hns : ¬ (ctrlState c a.aid = AgState.no_shelf_to_carry) := by
    rcases h with hh | hh | hh <;> rw [hh] <;> intro hx <;> cases hx
  simp only [no_shelf_phase]
  rw [if_neg hdem, if_neg hns]

/-- The no-shelf phase falls through for an agent that can carry some shelf
and is not in the no-task state. -/
theorem no_shelf_phase_can_carry (env : Env) (c : Ctrl) (a : AgentSnap)
    (h : can_carry_any_shelf env c a = true)
    (h2 : ctrlState c a.aid ≠ AgState.no_shelf_to_carry) : no_shelf_phase env c a = .inr c := by
  have hdem : ¬ ((ctrlState c a.aid ≠ AgState.deliver ∧ ctrlState c a.aid ≠ AgState.return_shelf ∧
      ctrlState c a.aid ≠ AgState.charging) ∧ ¬ can_carry_any_shelf env c a = true) := by
    rintro ⟨-, hcc⟩
    rw [h] at hcc
    exact hcc rfl
  simp only [no_shelf_phase]
  rw [if_neg hdem, if_neg h2]

/-- The shelf-selection loop reads only the reservation ledger, its
timestamps and the tick counter. -/
theorem select_closest_shelf_congr (env : Env) (c₁ c₂ : Ctrl) (a : AgentSnap)
    (h1 : c₁.reserved_shelves = c₂.reserved_shelves)
    (h2 : c₁.shelf_reservation_time = c₂.shelf_reservation_time)
    (h3 : c₁.current_step = c₂.current_step) :
    select_closest_shelf env c₁ a = select_closest_shelf env c₂ a := by
  unfold select_closest_shelf reservedByOther
  simp only [h1, h2, h3]

theorem mem_insertByKey (key : Pos → Nat) (x y : Pos) (l : List Pos) :
    y ∈ insertByKey key x l ↔ y = x ∨ y ∈ l := by
  induction l with
  | nil => simp [insertByKey]
  | cons hd t ih =>
    simp only [insertByKey]
    split
    · simp [List.mem_cons]
    · simp only [List.mem_cons, ih]
      tauto

theorem mem_sortByKey (key : Pos → Nat) (x : Pos) (l : List Pos) :
    x ∈ sortByKey key l ↔ x ∈ l := by
  induction l with
  | nil => simp [sortByKey]
  | cons hd t ih =>
    simp only [sortByKey, List.foldr_cons] at *
    rw [mem_insertByKey, ih, List.mem_cons]

theorem sortByKey_ne_nil (key : Pos → Nat) (l : List Pos) (h : l ≠ []) :
    sortByKey key l ≠ [] := by
  intro hnil
  rcases l with _ | ⟨hd, t⟩
  · exact h rfl
  · have : hd ∈ sortByKey key (hd :: t) := (mem_sortByKey key hd _).mpr (List.mem_cons_self hd t)
    rw [hnil] at this
    exact List.not_mem_nil hd this

theorem findStation_mem (env : Env) (a : AgentSnap) (l : List Pos) (st : Pos)
    (h : findStation env a l = some st) : st ∈ l := by
  induction l with
  | nil => simp [findStation] at h
  | cons hd t ih =>
    unfold findStation at h
    split at h
    · exact List.mem_cons_of_mem _ (ih h)
    · dsimp only at h
      split at h
      · cases h
        exact List.mem_cons_self _ _
      · split at h
        · cases h
          exact List.mem_cons_self _ _
        · exact List.mem_cons_of_mem _ (ih h)

/-- An agent that is not standing on a station cell always gets a station
from `_get_closest_charging_station`, and it is one of the corner stations. -/
theorem get_closest_station_away (env : Env) (a : AgentSnap)
    (h : ((a.x, a.y) : Pos) ∉ charging_stations env) :
    ∃ st, get_closest_charging_station env a = some st ∧ st ∈ charging_stations env := by
  simp only [get_closest_charging_station]
  rw [if_neg h]
  rcases hs : sortByKey (fun st => (st.1 - a.x).natAbs + (st.2 - a.y).natAbs)
      (charging_stations env) with _ | ⟨hd, t⟩
  · exact absurd hs (sortByKey_ne_nil _ _ (by simp [charging_stations]))
  · rcases hfind : findStation env a (hd :: t) with _ | st
    · refine ⟨hd, ?_, ?_⟩
      · simp [hs, hfind]
      · have hmem : hd ∈ sortByKey (fun st => (st.1 - a.x).natAbs + (st.2 - a.y).natAbs)
            (charging_stations env) := by
          rw [hs]
          exact List.mem_cons_self hd t
        exact (mem_sortByKey _ hd _).mp hmem
    · refine ⟨st, ?_, ?_⟩
      · simp [hs, hfind]
      · have hmem : st ∈ sortByKey (fun st => (st.1 - a.x).natAbs + (st.2 - a.y).natAbs)
            (charging_stations env) := by
          rw [hs]
          exact findStation_mem env a _ st hfind
        exact (mem_sortByKey _ st _).mp hmem

theorem ctrlState_recordM (c : Ctrl) (e : MEvent) (aid : Nat) :
    ctrlState (recordM c e) aid = ctrlState c aid := rfl

theorem ctrlState_aupdate_self (aid : Nat) (s : AgState) (l : List (Nat × AgState)) :
    (alookup (aupdate l aid s) aid).getD AgState.seek_shelf = s := by
  rw [alookup_aupdate_self]
  rfl

/-- `_can_carry_any_shelf` reads only the reservation ledger, its timestamps
and the tick counter. -/
theorem can_carry_any_shelf_congr (env : Env) (c₁ c₂ : Ctrl) (a : AgentSnap)
    (h1 : c₁.reserved_shelves = c₂.reserved_shelves)
    (h2 : c₁.shelf_reservation_time = c₂.shelf_reservation_time)
    (h3 : c₁.current_step = c₂.current_step) :
    can_carry_any_shelf env c₁ a = can_carry_any_shelf env c₂ a := by
  unfold can_carry_any_shelf reservedByOther
  simp only [h1, h2, h3]

/-- The critical-battery branch in the firing case, as one explicit record:
the critical metric, the conditional snapshot, the charging-start metric, and
the state/target/queue updates. -/
theorem critical_phase_fires (env : Env) (c : Ctrl) (agent : AgentSnap) (st : Pos)
    (hcrit : battery_pct_lt env agent 10 = true) (hich : agent.is_charging = false)
    (hnc : ctrlState c agent.aid ≠ AgState.charging)
    (hstation : get_closest_charging_station env agent = some st) :
    critical_phase env c agent =
      (let c1 := recordM c (.critical_battery agent.aid)
       let c2 := if ((alookup c.agent_targets agent.aid).getD none).isSome then
           store_pre_charging c1 agent else c1
       let c3 := recordM c2 (.charging_start agent.aid)
       { c3 with
         agent_states := aupdate c3.agent_states agent.aid AgState.charging
         agent_targets := aupdate c3.agent_targets agent.aid (some ⟨none, st⟩)
         last_actions := aupdate c3.last_actions agent.aid [] }) := by
  simp only [critical_phase]
  rw [hcrit, hich]
  simp only [Bool.not_false, Bool.and_self, if_true]
  rcases htgt : (alookup c.agent_targets agent.aid).getD none with _ | t
  · rw [if_neg, hstation]
    · simp [htgt]
    · rintro ⟨-, hsome⟩
      rw [show (alookup (recordM c (.critical_battery agent.aid)).agent_targets
        agent.aid).getD none = none from htgt] at hsome
      simp at hsome
  · rw [if_pos, hstation]
    · simp [htgt]
    · exact ⟨hnc, by
        rw [show (alookup (recordM c (.critical_battery agent.aid)).agent_targets
          agent.aid).getD none = some t from htgt]
        rfl⟩

/-- The per-agent step when the critical-battery branch fires away from a
station: the agent ends the tick in the charging state targeting the selected
station, the pre-charging snapshot is stored exactly when a non-`None` target
existed, and the reservation ledger is untouched. -/
theorem agent_step_critical_shape (env : Env) (c : Ctrl) (agent : AgentSnap) (st : Pos)
    (hstate : ctrlState c agent.aid = AgState.deliver ∨
      ctrlState c agent.aid = AgState.return_shelf ∨
      (ctrlState c agent.aid = AgState.seek_shelf ∧ can_carry_any_shelf env c agent = true))
    (hlvl : 0 < agent.battery_level)
    (hcrit : battery_pct_lt env agent 10 = true)
    (hich : agent.is_charging = false)
    (hstation : get_closest_charging_station env agent = some st)
    (hstmem : st ∈ charging_stations env)
    (hpos : ((agent.x, agent.y) : Pos) ∉ charging_stations env) :
    ctrlState (agent_step env c agent).1 agent.aid = AgState.charging ∧
      (alookup (agent_step env c agent).1.agent_targets agent.aid).getD none =
        some ⟨none, st⟩ ∧
      (agent_step env c agent).1.reserved_shelves = c.reserved_shelves ∧
      (agent_step env c agent).1.shelf_reservation_time = c.shelf_reservation_time ∧
      (agent_step env c agent).1.pre_charging_data =
        (if ((alookup c.agent_targets agent.aid).getD none).isSome then
          (store_pre_charging c agent).pre_charging_data
         else c.pre_charging_data) := by
  have hnc : ctrlState c agent.aid ≠ AgState.charging := by
    rcases hstate with h | h | ⟨h, -⟩ <;> rw [h] <;> intro hx <;> cases hx
  have hns : no_shelf_phase env (recordM c (.movement agent.aid)) agent =
      .inr (recordM c (.movement agent.aid)) := by
    rcases hstate with h | h | ⟨h, hcc⟩
    · exact no_shelf_phase_busy env _ agent (Or.inl h)
    · exact no_shelf_phase_busy env _ agent (Or.inr (Or.inl h))
    · refine no_shelf_phase_can_carry env _ agent ?_ ?_
      · rw [can_carry_any_shelf_congr env (recordM c (.movement agent.aid)) c agent rfl rfl rfl]
        exact hcc
      · rw [show ctrlState (recordM c (.movement agent.aid)) agent.aid =
          ctrlState c agent.aid from rfl, h]
        intro hx
        cases hx
  have hcritm : ctrlState (recordM c (.movement agent.aid)) agent.aid ≠ AgState.charging := hnc
  have hfired := critical_phase_fires env (recordM c (.movement agent.aid)) agent st hcrit hich
    hcritm hstation
  simp only [agent_step, hns, hfired]
  set c2 : Ctrl :=
    if ((alookup (recordM c (.movement agent.aid)).agent_targets agent.aid).getD none).isSome then
      store_pre_charging (recordM (recordM c (.movement agent.aid)) (.critical_battery agent.aid))
        agent
    else recordM (recordM c (.movement agent.aid)) (.critical_battery agent.aid) with hc2
  have hc2fields : c2.agent_states = c.agent_states ∧ c2.agent_targets = c.agent_targets ∧
      c2.last_actions = c.last_actions ∧ c2.reserved_shelves = c.reserved_shelves ∧
      c2.shelf_reservation_time = c.shelf_reservation_time ∧
      c2.pre_charging_data =
        (if ((alookup c.agent_targets agent.aid).getD none).isSome then
          (store_pre_charging c agent).pre_charging_data
         else c.pre_charging_data) := by
    rw [hc2]
    split
    · obtain ⟨v, hv⟩ := store_pre_only
        (recordM (recordM c (.movement agent.aid)) (.critical_battery agent.aid)) agent
      rw [hv]
      refine ⟨rfl, rfl, rfl, rfl, rfl, ?_⟩
      have := store_pre_recordM (recordM c (.movement agent.aid)) (.critical_battery agent.aid)
        agent
      have h2 := store_pre_recordM c (.movement agent.aid) agent
      rename_i hsome
      have hsome2 : ((alookup c.agent_targets agent.aid).getD none).isSome = true := hsome
      rw [if_pos hsome2]
      have hv2 : v = (store_pre_charging
          (recordM (recordM c (.movement agent.aid)) (.critical_battery agent.aid))
          agent).pre_charging_data := by rw [hv]
      rw [hv2, this, h2]
    · rename_i hnone
      have hnone2 : ¬ ((alookup c.agent_targets agent.aid).getD none).isSome = true := hnone
      rw [if_neg hnone2]
      exact ⟨rfl, rfl, rfl, rfl, rfl, rfl⟩
  rw [if_neg (by omega : ¬ agent.battery_level ≤ 0)]
  set c3 : Ctrl := recordM c2 (.charging_start agent.aid) with hc3
  set c4 : Ctrl := { c3 with
    agent_states := aupdate c3.agent_states agent.aid AgState.charging
    agent_targets := aupdate c3.agent_targets agent.aid (some ⟨none, st⟩)
    last_actions := aupdate c3.last_actions agent.aid [] } with hc4
  have hstate4 : ctrlState c4 agent.aid = AgState.charging := by
    simp [hc4, ctrlState, alookup_aupdate_self]
  have hla4 : (alookup c4.last_actions agent.aid).getD [] = [] := by
    simp [hc4, alookup_aupdate_self]
  have htgt4 : (alookup c4.agent_targets agent.aid).getD none = some ⟨none, st⟩ := by
    simp [hc4, alookup_aupdate_self]
  rw [low_phase_skip_charging env c4 agent hstate4]
  obtain ⟨m, hm⟩ := stuck_update_astar_empty_queue c4 agent hla4
  rw [hm]
  set c5 : Ctrl := { c4 with
    stuck_count := aupdate c4.stuck_count agent.aid 0
    last_positions := aupdate c4.last_positions agent.aid (agent.x, agent.y)
    metrics := m } with hc5
  have hla5 : (alookup c5.last_actions agent.aid).getD [] = [] := hla4
  have hstate5 : ctrlState c5 agent.aid = AgState.charging := hstate4
  have htgt5 : (alookup c5.agent_targets agent.aid).getD none = some ⟨none, st⟩ := htgt4
  rw [hla5, if_pos hstate5]
  have hne : ¬ (((agent.x, agent.y) : Pos) = st) := fun he => hpos (he ▸ hstmem)
  simp only [charging_branch, hich, htgt5, Bool.false_eq_true, if_false]
  rw [if_neg hne]
  rcases hcalc : calc_for env c5 agent st with _ | ⟨m1, rest⟩
  · simp only [hcalc]
    exact ⟨hstate5, htgt5, hc2fields.2.2.2.1, hc2fields.2.2.2.2.1, hc2fields.2.2.2.2.2⟩
  · simp only [hcalc]
    exact ⟨hstate5, htgt5, hc2fields.2.2.2.1, hc2fields.2.2.2.2.1, hc2fields.2.2.2.2.2⟩

/-- The seek-branch core in the pickup case: the agent stands on the selected
shelf and can lift it, so the toggle fires, the state flips to deliver, and
the reservation entry is removed. -/
theorem seek_branch_core_pickup (env : Env) (d : Ctrl) (agent : AgentSnap) (shelf : Shelf)
    (act : Nat)
    (hla : (alookup d.last_actions agent.aid).getD [] = [])
    (hnd : (d.reserved_shelves.map Prod.fst).Nodup)
    (hsel : select_closest_shelf env d agent = some shelf)
    (hreach : ((agent.x, agent.y) : Pos) = ((shelf.x, shelf.y) : Pos))
    (hwt : shelf.weight ≤ agent.max_carry_weight) :
    (seek_branch_core env d agent act).2 = TOGGLE_LOAD ∧
      ctrlState (seek_branch_core env d agent act).1 agent.aid = AgState.deliver ∧
      alookup (seek_branch_core env d agent act).1.reserved_shelves shelf.sid = none := by
  have hreplan : (decide ((alookup d.last_actions agent.aid).getD [] = []) ||
      (match (alookup d.agent_targets agent.aid).getD none with
       | some t => decide (((agent.x, agent.y) : Pos) ≠ t.position)
       | none => true)) = true := by
    rw [hla]
    simp
  simp only [seek_branch_core, hreplan, if_true, hsel]
  rw [if_neg (fun hne => hne hreach)]
  set d1 : Ctrl := { d with
    reserved_shelves := aupdate d.reserved_shelves shelf.sid agent.aid
    shelf_reservation_time := aupdate d.shelf_reservation_time shelf.sid d.current_step } with hd1
  set d2 : Ctrl := { d1 with
    agent_targets := aupdate d1.agent_targets agent.aid
      (some ⟨some shelf.sid, get_aligned_position env (shelf.x, shelf.y)⟩) } with hd2
  have hres : alookup d2.reserved_shelves shelf.sid = some agent.aid := alookup_aupdate_self _ _ _
  have hnone : ∀ (e : Ctrl), e.reserved_shelves = d2.reserved_shelves →
      alookup (adelete e.reserved_shelves shelf.sid) shelf.sid = none := by
    intro e he
    rw [he]
    exact alookup_adelete_self _ _ (keys_aupdate_nodup d.reserved_shelves shelf.sid agent.aid hnd)
  rcases hcalc : calc_for env d2 agent (get_aligned_position env (shelf.x, shelf.y))
      with _ | ⟨m1, rest⟩
  · simp only [seek_reached_check]
    rw [if_pos hreach, if_pos hwt, if_pos (by rw [hres]; rfl)]
    exact ⟨rfl, by simp [ctrlState, alookup_aupdate_self], hnone _ rfl⟩
  · simp only [seek_reached_check]
    rw [if_pos hreach, if_pos hwt, if_pos (by rw [hres]; rfl)]
    exact ⟨rfl, by simp [ctrlState, alookup_aupdate_self], hnone _ rfl⟩

/-- The per-agent step in the successful-pickup case: the agent in seek_shelf
standing on the selected shelf with enough capacity emits toggle-load, moves
to deliver, and its reservation entry for that shelf is gone from the ledger
in the same tick. -/
theorem agent_step_pickup_shape (env : Env) (c : Ctrl) (agent : AgentSnap) (shelf : Shelf)
    (hseek : ctrlState c agent.aid = AgState.seek_shelf)
    (hcc : can_carry_any_shelf env c agent = true)
    (hlvl : 0 < agent.battery_level)
    (hcrit : battery_pct_lt env agent 10 = false)
    (hlow : battery_pct_lt env agent 20 = false)
    (hla : (alookup c.last_actions agent.aid).getD [] = [])
    (hnd : (c.reserved_shelves.map Prod.fst).Nodup)
    (hsel : select_closest_shelf env c agent = some shelf)
    (hreach : ((agent.x, agent.y) : Pos) = ((shelf.x, shelf.y) : Pos))
    (hwt : shelf.weight ≤ agent.max_carry_weight) :
    (agent_step env c agent).2 = TOGGLE_LOAD ∧
      ctrlState (agent_step env c agent).1 agent.aid = AgState.deliver ∧
      alookup (agent_step env c agent).1.reserved_shelves shelf.sid = none := by
  have hns : no_shelf_phase env (recordM c (.movement agent.aid)) agent =
      .inr (recordM c (.movement agent.aid)) := by
    refine no_shelf_phase_can_carry env _ agent ?_ ?_
    · rw [can_carry_any_shelf_congr env (recordM c (.movement agent.aid)) c agent rfl rfl rfl]
      exact hcc
    · rw [show ctrlState (recordM c (.movement agent.aid)) agent.aid =
        ctrlState c agent.aid from rfl, hseek]
      intro hx
      cases hx
  simp only [agent_step, hns]
  rw [if_neg (by omega : ¬ agent.battery_level ≤ 0)]
  rw [critical_phase_skip env _ agent hcrit, low_phase_skip_pct env _ agent hlow]
  obtain ⟨m, hm⟩ := stuck_update_astar_empty_queue (recordM c (.movement agent.aid)) agent hla
  rw [hm]
  set c2 : Ctrl := { recordM c (.movement agent.aid) with
    stuck_count := aupdate (recordM c (.movement agent.aid)).stuck_count agent.aid 0
    last_positions :=
      aupdate (recordM c (.movement agent.aid)).last_positions agent.aid (agent.x, agent.y)
    metrics := m } with hc2
  have hla2 : (alookup c2.last_actions agent.aid).getD [] = [] := hla
  have hstate2 : ctrlState c2 agent.aid = AgState.seek_shelf := hseek
  rw [hla2, if_neg (by rw [hstate2]; intro hx; cases hx)]
  simp only [task_chain, hstate2, if_true]
  simp only [seek_branch]
  by_cases hwa : (alookup c2.assigned_waiting_areas agent.aid).isSome = true
  · rw [if_pos hwa]
    have hcore := seek_branch_core_pickup env
      { c2 with assigned_waiting_areas := adelete c2.assigned_waiting_areas agent.aid }
      agent shelf NOOP hla2 hnd
      (by rw [select_closest_shelf_congr env
        { c2 with assigned_waiting_areas := adelete c2.assigned_waiting_areas agent.aid }
        c agent rfl rfl rfl]; exact hsel) hreach hwt
    exact ⟨hcore.1, hcore.2.1, hcore.2.2⟩
  · rw [if_neg hwa]
    have hcore := seek_branch_core_pickup env c2 agent shelf NOOP hla2 hnd
      (by rw [select_closest_shelf_congr env c2 c agent rfl rfl rfl]; exact hsel) hreach hwt
    exact ⟨hcore.1, hcore.2.1, hcore.2.2⟩

/-- C3 (amended): a successful pickup removes the shelf's reservation entry
from the ledger in the same tick, but a critical-battery re-route into
Charging does not — the ledger survives the tick unchanged and the entry only
lapses later through the TTL purge. -/
theorem C3_amended_reservation_release :
    (∀ (env : Env) (c : Ctrl) (agent : AgentSnap) (shelf : Shelf),
      ctrlState c agent.aid = AgState.seek_shelf →
      can_carry_any_shelf env c agent = true →
      0 < agent.battery_level →
      battery_pct_lt env agent 10 = false →
      battery_pct_lt env agent 20 = false →
      (alookup c.last_actions agent.aid).getD [] = [] →
      (c.reserved_shelves.map Prod.fst).Nodup →
      select_closest_shelf env c agent = some shelf →
      ((agent.x, agent.y) : Pos) = ((shelf.x, shelf.y) : Pos) →
      shelf.weight ≤ agent.max_carry_weight →
        (agent_step env c agent).2 = TOGGLE_LOAD ∧
          ctrlState (agent_step env c agent).1 agent.aid = AgState.deliver ∧
          alookup (agent_step env c agent).1.reserved_shelves shelf.sid = none) ∧
    (∀ (env : Env) (c : Ctrl) (agent : AgentSnap),
      (ctrlState c agent.aid = AgState.deliver ∨
        ctrlState c agent.aid = AgState.return_shelf ∨
        (ctrlState c agent.aid = AgState.seek_shelf ∧ can_carry_any_shelf env c agent = true)) →
      0 < agent.battery_level →
      battery_pct_lt env agent 10 = true →
      agent.is_charging = false →
      ((agent.x, agent.y) : Pos) ∉ charging_stations env →
        ctrlState (agent_step env c agent).1 agent.aid = AgState.charging ∧
          (agent_step env c agent).1.reserved_shelves = c.reserved_shelves ∧
          (agent_step env c agent).1.shelf_reservation_time = c.shelf_reservation_time) := by
  constructor
  · intro env c agent shelf h1 h2 h3 h4 h5 h6 h7 h8 h9 h10
    exact agent_step_pickup_shape env c agent shelf h1 h2 h3 h4 h5 h6 h7 h8 h9 h10
  · intro env c agent hstate hlvl hcrit hich hpos
    obtain ⟨st, hstation, hstmem⟩ := get_closest_station_away env agent hpos
    have h := agent_step_critical_shape env c agent st hstate hlvl hcrit hich hstation hstmem hpos
    exact ⟨h.1, h.2.2.1, h.2.2.2.1⟩

/-- C3 witness: agent 0 picking shelf 7 up off its cell (pickup side), and the
9%-battery re-route from the refutation input (charging side). -/
theorem C3_amended_reservation_release_witness :
    ((agent_step envC3w ctrlC3w agC3w).2 = TOGGLE_LOAD ∧
      ctrlState (agent_step envC3w ctrlC3w agC3w).1 0 = AgState.deliver ∧
      alookup (agent_step envC3w ctrlC3w agC3w).1.reserved_shelves 7 = none) ∧
    (ctrlState (agent_step envC3x ctrlC3x agC3x).1 0 = AgState.charging ∧
      (agent_step envC3x ctrlC3x agC3x).1.reserved_shelves = ctrlC3x.reserved_shelves ∧
      (agent_step envC3x ctrlC3x agC3x).1.shelf_reservation_time =
        ctrlC3x.shelf_reservation_time) :=
  ⟨C3_amended_reservation_release.1 envC3w ctrlC3w agC3w ⟨7, 2, 2, 3⟩ (by decide) (by decide)
      (by decide) (by decide) (by decide) (by decide) (by decide) (by decide) (by decide)
      (by decide),
    C3_amended_reservation_release.2 envC3x ctrlC3x agC3x
      (Or.inr (Or.inr ⟨by decide, by decide⟩)) (by decide) (by decide) (by decide) (by decide)⟩

/-- C6 (amended): an agent strictly below the critical threshold (but with
positive battery), not already charging, with a pursuable task (deliver,
return_shelf, or seek_shelf with a carryable shelf) and not already standing
on a charging-station cell, is re-routed by the allocator in the same tick:
state becomes Charging, the target becomes the station chosen by
`_get_closest_charging_station` — scanning stations in order of Manhattan
distance, the closest station with no agent standing on it, else the closest
station one of whose occupants is above 90% battery, else the closest station
overall — and the prior
{state, target, carried-shelf id} context is snapshotted exactly when the
agent had a non-`None` target. -/
theorem C6_amended_critical_transition (env : Env) (c : Ctrl) (agent : AgentSnap)
    (hstate : ctrlState c agent.aid = AgState.deliver ∨
      ctrlState c agent.aid = AgState.return_shelf ∨
      (ctrlState c agent.aid = AgState.seek_shelf ∧ can_carry_any_shelf env c agent = true))
    (hlvl : 0 < agent.battery_level)
    (hcrit : battery_pct_lt env agent 10 = true)
    (hich : agent.is_charging = false)
    (hpos : ((agent.x, agent.y) : Pos) ∉ charging_stations env) :
    ∃ st, get_closest_charging_station env agent = some st ∧ st ∈ charging_stations env ∧
      ctrlState (agent_step env c agent).1 agent.aid = AgState.charging ∧
      (alookup (agent_step env c agent).1.agent_targets agent.aid).getD none =
        some ⟨none, st⟩ ∧
      (agent_step env c agent).1.pre_charging_data =
        (if ((alookup c.agent_targets agent.aid).getD none).isSome then
          (store_pre_charging c agent).pre_charging_data
         else c.pre_charging_data) := by
  obtain ⟨st, hstation, hstmem⟩ := get_closest_station_away env agent hpos
  have h := agent_step_critical_shape env c agent st hstate hlvl hcrit hich hstation hstmem hpos
  exact ⟨st, hstation, hstmem, h.1, h.2.1, h.2.2.2.2⟩

/-- C6 witness: agent 0 at 9% battery at `(1, 1)` in seek_shelf with a
non-`None` target: it is re-routed to a corner station and its context is
snapshotted. -/
theorem C6_amended_critical_transition_witness :
    ∃ st, get_closest_charging_station envC6w agC6w = some st ∧
      st ∈ charging_stations envC6w ∧
      ctrlState (agent_step envC6w ctrlC6w agC6w).1 0 = AgState.charging ∧
      (alookup (agent_step envC6w ctrlC6w agC6w).1.agent_targets 0).getD none =
        some ⟨none, st⟩ ∧
      (agent_step envC6w ctrlC6w agC6w).1.pre_charging_data =
        (if ((alookup ctrlC6w.agent_targets 0).getD none).isSome then
          (store_pre_charging ctrlC6w agC6w).pre_charging_data
         else ctrlC6w.pre_charging_data) :=
  C6_amended_critical_transition envC6w ctrlC6w agC6w
    (Or.inr (Or.inr ⟨by decide, by decide⟩)) (by decide) (by decide) (by decide) (by decide)

/-- C1: in the A* strategy, when the direct path is blocked and the A* search
runs (agent `(0, 0)` facing RIGHT, goal `(2, 0)`, cell `(1, 0)` blocked on a
3x2 grid), the returned nonempty sequence replays to `(2, 1)` — the search's
path reconstruction omits the goal cell, so the sequence stops one cell short
of the requested goal, violating the round-trip property. -/
theorem C1_astar_sequence_misses_goal :
    calculate_movement_astar 3 2 ⟨0, 0, 3⟩ (2, 0) [(1, 0)] ≠ [] ∧
      replayPos (calculate_movement_astar 3 2 ⟨0, 0, 3⟩ (2, 0) [(1, 0)]) (0, 0) 3 = (2, 1) ∧
      ((2, 1) : Pos) ≠ (2, 0) := by decide

/-- C3 counterexample: agent 0 in seek_shelf holds the ledger entry for
shelf 7 and is re-routed to Charging by the critical-battery branch in this
tick, yet the reservation entry survives the tick — the charging transition
never touches the ledger. -/
theorem C3_counterexample_reservation_survives_charging :
    ctrlState (agent_step envC3x ctrlC3x agC3x).1 0 = AgState.charging ∧
      alookup (agent_step envC3x ctrlC3x agC3x).1.reserved_shelves 7 = some 0 ∧
      alookup (agent_step envC3x ctrlC3x agC3x).1.shelf_reservation_time 7 = some 4 := by
  decide

/-- C6 counterexample: agent 0 at 9% battery (strictly below the critical
threshold), not charging, but standing on the station corner `(0, 0)`: the
station lookup returns `None` and the allocator leaves the agent's state
unchanged instead of moving it to Charging. -/
theorem C6_counterexample_at_station_no_transition :
    battery_pct_lt envC6x agC6x 10 = true ∧ agC6x.is_charging = false ∧
      ctrlState ctrlC6x 0 ≠ AgState.charging ∧
      ctrlState (agent_step envC6x ctrlC6x agC6x).1 0 ≠ AgState.charging := by decide

/-- C9: the dead-battery check is not actually first in the per-agent loop
(despite the code comment saying it should be): an agent with battery 0 in
the no-task branch is still routed toward its waiting area — here it emits
`FORWARD`, not `NOOP`, and no battery-failure metric is recorded. -/
theorem C9_dead_battery_bypassed_by_no_task_branch :
    agC9x.battery_level ≤ 0 ∧
      (agent_step envC9x ctrlC9x agC9x).2 = FORWARD ∧
      MEvent.battery_failure 0 ∉ (agent_step envC9x ctrlC9x agC9x).1.metrics := by decide

/-- C7 counterexample: in the baseline controller, the second consecutive
failed forward attempt records the collision and enters recovery but does
not clear the pending action queue, which the claim asserts. -/
theorem C7_counterexample_baseline_keeps_queue :
    (alookup ctrlC7x.stuck_count 0).getD 0 = 1 ∧
      (alookup (stuck_update_baseline ctrlC7x agC7x).in_recovery 0).getD false = true ∧
      (alookup (stuck_update_baseline ctrlC7x agC7x).last_actions 0).getD [] = [1, 1] := by
  decide

/-- C7 (amended): a first failed forward attempt (counter going 0 to 1) never
changes the recovery flag in either controller; on the second consecutive
failure — agent not charging, not in the no-task state, not already
recovering — both controllers record a collision and enter recovery, the A*
variant clears the agent's action queue, while the baseline variant leaves
the queue untouched. -/
theorem C7_amended_stuck_thresholds :
    (∀ (c : Ctrl) (a : AgentSnap),
      stuckIncCond c a.aid (a.x, a.y) = true →
      (alookup c.stuck_count a.aid).getD 0 = 0 →
        (alookup (stuck_update_astar c a).in_recovery a.aid).getD false =
            (alookup c.in_recovery a.aid).getD false ∧
          (alookup (stuck_update_baseline c a).in_recovery a.aid).getD false =
            (alookup c.in_recovery a.aid).getD false) ∧
    (∀ (c : Ctrl) (a : AgentSnap),
      stuckIncCond c a.aid (a.x, a.y) = true →
      (alookup c.stuck_count a.aid).getD 0 = 1 →
      a.is_charging = false →
      ctrlState c a.aid ≠ AgState.no_shelf_to_carry →
      (alookup c.in_recovery a.aid).getD false = false →
        (alookup (stuck_update_astar c a).in_recovery a.aid).getD false = true ∧
          (alookup (stuck_update_astar c a).last_actions a.aid).getD [] = [] ∧
          (stuck_update_astar c a).metrics =
            c.metrics ++ [MEvent.collision a.aid, MEvent.recovery_step a.aid] ∧
          (alookup (stuck_update_baseline c a).in_recovery a.aid).getD false = true ∧
          (stuck_update_baseline c a).metrics =
            c.metrics ++ [MEvent.collision a.aid, MEvent.recovery_step a.aid] ∧
          (alookup (stuck_update_baseline c a).last_actions a.aid).getD [] =
            (alookup c.last_actions a.aid).getD []) := by
  have hpos : ∀ (c : Ctrl) (a : AgentSnap), stuckIncCond c a.aid (a.x, a.y) = true →
      alookup c.last_positions a.aid = some ((a.x, a.y) : Pos) := by
    intro c a hinc
    simp only [stuckIncCond, Bool.and_eq_true, decide_eq_true_eq] at hinc
    exact hinc.1.2
  have hstep : ∀ (d : Ctrl) (aid : Nat),
      (recoveryStepStage d aid).in_recovery = d.in_recovery ∧
        (recoveryStepStage d aid).last_actions = d.last_actions ∧
        (recoveryStepStage d aid).last_positions = d.last_positions ∧
        (recoveryStepStage d aid).stuck_count = d.stuck_count := by
    intro d aid
    unfold recoveryStepStage
    split <;> simp [recordM]
  have hstepTrue : ∀ (d : Ctrl) (aid : Nat), (alookup d.in_recovery aid).getD false = true →
      recoveryStepStage d aid = recordM d (.recovery_step aid) := by
    intro d aid h
    unfold recoveryStepStage
    rw [if_pos h]
  have hexit : ∀ (d : Ctrl) (a : AgentSnap),
      alookup d.last_positions a.aid = some ((a.x, a.y) : Pos) →
      recoveryExitStage d a.aid (a.x, a.y) = d := by
    intro d a hd
    unfold recoveryExitStage
    have hfalse : decide (alookup d.last_positions a.aid ≠ some ((a.x, a.y) : Pos)) = false := by
      simp [hd]
    simp [hfalse]
  constructor
  · intro c a hinc hcnt
    have h1 : stuckCountStage c a.aid (a.x, a.y) =
        { c with stuck_count := aupdate c.stuck_count a.aid (0 + 1) } := by
      unfold stuckCountStage
      rw [if_pos hinc, hcnt]
    have h2a : recoveryEntryAstar { c with stuck_count := aupdate c.stuck_count a.aid (0 + 1) } a =
        { c with stuck_count := aupdate c.stuck_count a.aid (0 + 1) } := by
      unfold recoveryEntryAstar
      rw [if_neg]
      intro hcond
      have := hcond.1
      simp only [alookup_aupdate_self, Option.getD_some] at this
      omega
    have h2b : recoveryEntryBaseline { c with stuck_count := aupdate c.stuck_count a.aid (0 + 1) } a =
        { c with stuck_count := aupdate c.stuck_count a.aid (0 + 1) } := by
      unfold recoveryEntryBaseline
      rw [if_neg]
      intro hcond
      have := hcond.1
      simp only [alookup_aupdate_self, Option.getD_some] at this
      omega
    constructor
    · simp only [stuck_update_astar]
      rw [h1, h2a,
        hexit _ a (by rw [(hstep _ a.aid).2.2.1]; exact hpos c a hinc),
        (hstep _ a.aid).1]
    · simp only [stuck_update_baseline]
      rw [h1, h2b,
        hexit _ a (by rw [(hstep _ a.aid).2.2.1]; exact hpos c a hinc),
        (hstep _ a.aid).1]
  · intro c a hinc hcnt hchg hst hrec
    have h1 : stuckCountStage c a.aid (a.x, a.y) =
        { c with stuck_count := aupdate c.stuck_count a.aid (1 + 1) } := by
      unfold stuckCountStage
      rw [if_pos hinc, hcnt]
    have h2a : recoveryEntryAstar { c with stuck_count := aupdate c.stuck_count a.aid (1 + 1) } a =
        { c with stuck_count := aupdate c.stuck_count a.aid (1 + 1)
                 last_actions := aupdate c.last_actions a.aid []
                 in_recovery := aupdate c.in_recovery a.aid true
                 metrics := c.metrics ++ [.collision a.aid] } := by
      unfold recoveryEntryAstar
      rw [if_pos]
      · rfl
      · refine ⟨by simp [alookup_aupdate_self], by simp [hchg], hst, by simp [hrec]⟩
    have h2b : recoveryEntryBaseline { c with stuck_count := aupdate c.stuck_count a.aid (1 + 1) } a =
        { c with stuck_count := aupdate c.stuck_count a.aid (1 + 1)
                 in_recovery := aupdate c.in_recovery a.aid true
                 metrics := c.metrics ++ [.collision a.aid] } := by
      unfold recoveryEntryBaseline
      rw [if_pos]
      · rfl
      · refine ⟨by simp [alookup_aupdate_self], hst, by simp [hrec]⟩
    have hposc := hpos c a hinc
    refine ⟨?_, ?_, ?_, ?_, ?_, ?_⟩
    · simp only [stuck_update_astar]
      rw [h1, h2a, hstepTrue _ a.aid (by simp [alookup_aupdate_self]),
        hexit _ a (by simp only [recordM]; exact hposc)]
      simp [recordM, alookup_aupdate_self]
    · simp only [stuck_update_astar]
      rw [h1, h2a, hstepTrue _ a.aid (by simp [alookup_aupdate_self]),
        hexit _ a (by simp only [recordM]; exact hposc)]
      simp [recordM, alookup_aupdate_self]
    · simp only [stuck_update_astar]
      rw [h1, h2a, hstepTrue _ a.aid (by simp [alookup_aupdate_self]),
        hexit _ a (by simp only [recordM]; exact hposc)]
      simp [recordM]
    · simp only [stuck_update_baseline]
      rw [h1, h2b, hstepTrue _ a.aid (by simp [alookup_aupdate_self]),
        hexit _ a (by simp only [recordM]; exact hposc)]
      simp [recordM, alookup_aupdate_self]
    · simp only [stuck_update_baseline]
      rw [h1, h2b, hstepTrue _ a.aid (by simp [alookup_aupdate_self]),
        hexit _ a (by simp only [recordM]; exact hposc)]
      simp [recordM]
    · simp only [stuck_update_baseline]
      rw [h1, h2b, hstepTrue _ a.aid (by simp [alookup_aupdate_self]),
        hexit _ a (by simp only [recordM]; exact hposc)]
      simp [recordM]

/-- C7 witness: the two threshold behaviours at the concrete stuck pose, with
the counter at 0 and at 1 respectively. -/
theorem C7_amended_stuck_thresholds_witness :
    ((alookup (stuck_update_astar ctrlC7w agC7x).in_recovery 0).getD false =
        (alookup ctrlC7w.in_recovery 0).getD false ∧
      (alookup (stuck_update_baseline ctrlC7w agC7x).in_recovery 0).getD false =
        (alookup ctrlC7w.in_recovery 0).getD false) ∧
      ((alookup (stuck_update_astar ctrlC7x agC7x).in_recovery 0).getD false = true ∧
        (alookup (stuck_update_astar ctrlC7x agC7x).last_actions 0).getD [] = [] ∧
        (stuck_update_astar ctrlC7x agC7x).metrics =
          ctrlC7x.metrics ++ [MEvent.collision 0, MEvent.recovery_step 0] ∧
        (alookup (stuck_update_baseline ctrlC7x agC7x).in_recovery 0).getD false = true ∧
        (stuck_update_baseline ctrlC7x agC7x).metrics =
          ctrlC7x.metrics ++ [MEvent.collision 0, MEvent.recovery_step 0] ∧
        (alookup (stuck_update_baseline ctrlC7x agC7x).last_actions 0).getD [] =
          (alookup ctrlC7x.last_actions 0).getD []) :=
  ⟨C7_amended_stuck_thresholds.1 ctrlC7w agC7x (by decide) (by decide),
    C7_amended_stuck_thresholds.2 ctrlC7x agC7x (by decide) (by decide) (by decide)
      (by decide) (by decide)⟩

/-! Lemma batch 1: neighbors, chains, replay/validate compositionality. -/

theorem mem_get_neighbors {cols rows : Int} {p q : Pos} :
    q ∈ get_neighbors cols rows p ↔
      (q = (p.1, p.2 + 1) ∨ q = (p.1 + 1, p.2) ∨ q = (p.1, p.2 - 1) ∨ q = (p.1 - 1, p.2)) ∧
        is_position_valid cols rows q = true := by
  simp [get_neighbors, List.mem_filter]

theorem stepRel_valid {cols rows : Int} {blocked : List Pos} {p q : Pos}
    (h : stepRel cols rows blocked p q) : is_position_valid cols rows q = true :=
  (mem_get_neighbors.mp h.1).2

theorem chainP_reach {cols rows : Int} {blocked : List Pos} :
    ∀ (l : List Pos) (p : Pos), chainP cols rows blocked p l →
      Reach cols rows blocked p (endOf p l)
  | [], _, _ => Relation.ReflTransGen.refl
  | q :: rest, _, h =>
    Relation.ReflTransGen.head h.1 (chainP_reach rest q h.2)

theorem validate_turn (cols rows : Int) (blocked : List Pos) {d dd : Nat}
    (hd : d < 4) (hdd : dd < 4) (rest : List Nat) (p : Pos) :
    validate_from cols rows blocked (turn_to_face d dd ++ rest) p d =
      validate_from cols rows blocked rest p dd := by
  interval_cases d <;> interval_cases dd <;>
    simp [turn_to_face, validate_from, turnLeftDir, turnRightDir, FORWARD, LEFT, RIGHT]

theorem replayDir_turn {d dd : Nat} (hd : d < 4) (hdd : dd < 4) (rest : List Nat) :
    replayDir (turn_to_face d dd ++ rest) d = replayDir rest dd := by
  interval_cases d <;> interval_cases dd <;>
    simp [turn_to_face, replayDir, turnLeftDir, turnRightDir, FORWARD, LEFT, RIGHT]

theorem replayPos_turn {d dd : Nat} (hd : d < 4) (hdd : dd < 4) (rest : List Nat) (p : Pos) :
    replayPos (turn_to_face d dd ++ rest) p d = replayPos rest p dd := by
  interval_cases d <;> interval_cases dd <;>
    simp [turn_to_face, replayPos, turnLeftDir, turnRightDir, FORWARD, LEFT, RIGHT]

theorem replayPos_append (l m : List Nat) (p : Pos) (d : Nat) :
    replayPos (l ++ m) p d = replayPos m (replayPos l p d) (replayDir l d) := by
  induction l generalizing p d with
  | nil => rfl
  | cons a rest ih =>
    simp only [List.cons_append, replayPos, replayDir]
    split_ifs <;> apply ih

theorem replayDir_append (l m : List Nat) (d : Nat) :
    replayDir (l ++ m) d = replayDir m (replayDir l d) := by
  induction l generalizing d with
  | nil => rfl
  | cons a rest ih =>
    simp only [List.cons_append, replayDir]
    split_ifs <;> apply ih

theorem replayDir_replicate_forward (n : Nat) (d : Nat) :
    replayDir (List.replicate n FORWARD) d = d := by
  induction n with
  | zero => rfl
  | succ k ih => simpa [List.replicate, replayDir] using ih

theorem replayPos_replicate_forward (n : Nat) (d : Nat) (p : Pos) :
    replayPos (List.replicate n FORWARD) p d = (forwardPos d)^[n] p := by
  induction n generalizing p with
  | zero => rfl
  | succ k ih =>
    simp [List.replicate, replayPos, ih, Function.iterate_succ_apply]

theorem iterate_forward_up (n : Nat) (p : Pos) : (forwardPos 0)^[n] p = (p.1, p.2 - n) := by
  induction n generalizing p with
  | zero => simp
  | succ k ih =>
    rw [Function.iterate_succ_apply, ih]
    simp [forwardPos, Prod.ext_iff]
    ring

theorem iterate_forward_down (n : Nat) (p : Pos) : (forwardPos 1)^[n] p = (p.1, p.2 + n) := by
  induction n generalizing p with
  | zero => simp
  | succ k ih =>
    rw [Function.iterate_succ_apply, ih]
    simp [forwardPos, Prod.ext_iff]
    ring

theorem iterate_forward_left (n : Nat) (p : Pos) : (forwardPos 2)^[n] p = (p.1 - n, p.2) := by
  induction n generalizing p with
  | zero => simp
  | succ k ih =>
    rw [Function.iterate_succ_apply, ih]
    simp [forwardPos, Prod.ext_iff]
    ring

theorem iterate_forward_right (n : Nat) (p : Pos) : (forwardPos 3)^[n] p = (p.1 + n, p.2) := by
  induction n generalizing p with
  | zero => simp
  | succ k ih =>
    rw [Function.iterate_succ_apply, ih]
    simp [forwardPos, Prod.ext_iff]
    ring

/-! Lemma batch 2: the direct-movement branch. -/

theorem legX_replay {d : Nat} (hd : d < 4) (dx : Int) (p : Pos) :
    replayPos (legX d dx).1 p d = (p.1 + dx, p.2) ∧
      replayDir (legX d dx).1 d = (legX d dx).2 ∧ (legX d dx).2 < 4 := by
  by_cases h : dx = 0
  · subst h; simp [legX, replayPos, replayDir, hd]
  · simp only [legX, if_pos h]
    by_cases hgt : dx > 0
    · simp only [if_pos hgt]
      have habs : (dx.natAbs : Int) = dx := Int.natAbs_of_nonneg (le_of_lt hgt)
      by_cases hde : d ≠ 3
      · simp only [if_pos hde]
        refine ⟨?_, ?_, by norm_num⟩
        · rw [replayPos_turn hd (by norm_num), replayPos_replicate_forward,
            iterate_forward_right, habs]
        · rw [replayDir_turn hd (by norm_num), replayDir_replicate_forward]
      · simp only [if_neg hde]
        push_neg at hde
        subst hde
        refine ⟨?_, ?_, by norm_num⟩
        · rw [replayPos_replicate_forward, iterate_forward_right, habs]
        · rw [replayDir_replicate_forward]
    · simp only [if_neg hgt]
      have habs : (dx.natAbs : Int) = -dx := by
        rw [← Int.natAbs_neg]
        exact Int.natAbs_of_nonneg (by omega)
      by_cases hde : d ≠ 2
      · simp only [if_pos hde]
        refine ⟨?_, ?_, by norm_num⟩
        · rw [replayPos_turn hd (by norm_num), replayPos_replicate_forward,
            iterate_forward_left, habs]
          simp [sub_eq_add_neg]
        · rw [replayDir_turn hd (by norm_num), replayDir_replicate_forward]
      · simp only [if_neg hde]
        push_neg at hde
        subst hde
        refine ⟨?_, ?_, by norm_num⟩
        · rw [replayPos_replicate_forward, iterate_forward_left, habs]
          simp [sub_eq_add_neg]
        · rw [replayDir_replicate_forward]

theorem legY_replay {d : Nat} (hd : d < 4) (dy : Int) (p : Pos) :
    replayPos (legY d dy).1 p d = (p.1, p.2 + dy) ∧
      replayDir (legY d dy).1 d = (legY d dy).2 ∧ (legY d dy).2 < 4 := by
  by_cases h : dy = 0
  · subst h; simp [legY, replayPos, replayDir, hd]
  · simp only [legY, if_pos h]
    by_cases hgt : dy > 0
    · simp only [if_pos hgt]
      have habs : (dy.natAbs : Int) = dy := Int.natAbs_of_nonneg (le_of_lt hgt)
      by_cases hde : d ≠ 1
      · simp only [if_pos hde]
        refine ⟨?_, ?_, by norm_num⟩
        · rw [replayPos_turn hd (by norm_num), replayPos_replicate_forward,
            iterate_forward_down, habs]
        · rw [replayDir_turn hd (by norm_num), replayDir_replicate_forward]
      · simp only [if_neg hde]
        push_neg at hde
        subst hde
        refine ⟨?_, ?_, by norm_num⟩
        · rw [replayPos_replicate_forward, iterate_forward_down, habs]
        · rw [replayDir_replicate_forward]
    · simp only [if_neg hgt]
      have habs : (dy.natAbs : Int) = -dy := by
        rw [← Int.natAbs_neg]
        exact Int.natAbs_of_nonneg (by omega)
      by_cases hde : d ≠ 0
      · simp only [if_pos hde]
        refine ⟨?_, ?_, by norm_num⟩
        · rw [replayPos_turn hd (by norm_num), replayPos_replicate_forward,
            iterate_forward_up, habs]
          simp [sub_eq_add_neg]
        · rw [replayDir_turn hd (by norm_num), replayDir_replicate_forward]
      · simp only [if_neg hde]
        push_neg at hde
        subst hde
        refine ⟨?_, ?_, by norm_num⟩
        · rw [replayPos_replicate_forward, iterate_forward_up, habs]
          simp [sub_eq_add_neg]
        · rw [replayDir_replicate_forward]

theorem replay_direct {agent : AgentPose} (hd : agent.dir < 4) (goal : Pos) :
    replayPos (direct_movement agent goal) (agent.x, agent.y) agent.dir = goal := by
  simp only [direct_movement]
  split_ifs with hax
  · rw [replayPos_append]
    obtain ⟨hx1, hx2, hx3⟩ := legX_replay hd (goal.1 - agent.x) (agent.x, agent.y)
    rw [hx1, hx2]
    obtain ⟨hy1, _, _⟩ :=
      legY_replay hx3 (goal.2 - agent.y) (agent.x + (goal.1 - agent.x), agent.y)
    rw [hy1]
    simp [Prod.ext_iff]
  · rw [replayPos_append]
    obtain ⟨hy1, hy2, hy3⟩ := legY_replay hd (goal.2 - agent.y) (agent.x, agent.y)
    rw [hy1, hy2]
    obtain ⟨hx1, _, _⟩ :=
      legX_replay hy3 (goal.1 - agent.x) (agent.x, agent.y + (goal.2 - agent.y))
    rw [hx1]
    simp [Prod.ext_iff]

theorem direct_nonempty {agent : AgentPose} {goal : Pos}
    (h : ((agent.x, agent.y) : Pos) ≠ goal) : direct_movement agent goal ≠ [] := by
  have hor : goal.1 - agent.x ≠ 0 ∨ goal.2 - agent.y ≠ 0 := by
    by_contra hc
    push_neg at hc
    exact h (by cases goal; simp [Prod.ext_iff] at hc ⊢; omega)
  have hlegx : ∀ d, goal.1 - agent.x ≠ 0 → (legX d (goal.1 - agent.x)).1 ≠ [] := by
    intro d hne
    simp only [legX, if_pos hne]
    split_ifs <;>
      simp [List.replicate, List.append_eq_nil, Int.natAbs_eq_iff, hne,
        ← List.length_eq_zero, Int.natAbs_eq_zero]
  have hlegy : ∀ d, goal.2 - agent.y ≠ 0 → (legY d (goal.2 - agent.y)).1 ≠ [] := by
    intro d hne
    simp only [legY, if_pos hne]
    split_ifs <;>
      simp [List.replicate, List.append_eq_nil, Int.natAbs_eq_iff, hne,
        ← List.length_eq_zero, Int.natAbs_eq_zero]
  simp only [direct_movement]
  split_ifs with hax
  · rcases hor with hx | hy
    · simp [List.append_eq_nil, hlegx _ hx]
    · simp [List.append_eq_nil, hlegy _ hy]
  · rcases hor with hx | hy
    · simp [List.append_eq_nil, hlegx _ hx]
    · simp [List.append_eq_nil, hlegy _ hy]

/-! Lemma batch 3: validated sequences witness reachability; path-to-action
conversion on step chains; the grid cardinality bound. -/

theorem reach_forward {cols rows : Int} {blocked : List Pos} {p : Pos} {d : Nat}
    (hvalid : is_position_valid cols rows (forwardPos d p) = true)
    (hub : forwardPos d p ∉ blocked) :
    Reach cols rows blocked p (forwardPos d p) := by
  have hm : forwardPos d p = p ∨ forwardPos d p ∈ get_neighbors cols rows p := by
    rcases d with _ | _ | _ | _ | n
    · exact Or.inr (mem_get_neighbors.mpr ⟨Or.inr (Or.inr (Or.inl rfl)), hvalid⟩)
    · exact Or.inr (mem_get_neighbors.mpr ⟨Or.inl rfl, hvalid⟩)
    · exact Or.inr (mem_get_neighbors.mpr ⟨Or.inr (Or.inr (Or.inr rfl)), hvalid⟩)
    · exact Or.inr (mem_get_neighbors.mpr ⟨Or.inr (Or.inl rfl), hvalid⟩)
    · exact Or.inl rfl
  rcases hm with he | hmem
  · rw [he]
    exact Relation.ReflTransGen.refl
  · exact Relation.ReflTransGen.single ⟨hmem, hub⟩

theorem validate_reach {cols rows : Int} {blocked : List Pos} :
    ∀ (acts : List Nat) (p : Pos) (d : Nat),
      validate_from cols rows blocked acts p d = true →
      Reach cols rows blocked p (replayPos acts p d) := by
  intro acts
  induction acts with
  | nil => intro p d _; exact Relation.ReflTransGen.refl
  | cons a rest ih =>
    intro p d h
    simp only [validate_from] at h
    simp only [replayPos]
    by_cases ha : a = FORWARD
    · rw [if_pos ha] at h ⊢
      by_cases hg : (!(is_position_valid cols rows (forwardPos d p)) ||
          decide (forwardPos d p ∈ blocked)) = true
      · rw [if_pos hg] at h; cases h
      · rw [if_neg hg] at h
        have hg' : (!(is_position_valid cols rows (forwardPos d p)) ||
            decide (forwardPos d p ∈ blocked)) = false := Bool.eq_false_iff.mpr hg
        rw [Bool.or_eq_false_iff] at hg'
        have hv : is_position_valid cols rows (forwardPos d p) = true := by
          simpa using hg'.1
        have hb : forwardPos d p ∉ blocked := by
          simpa using hg'.2
        exact Relation.ReflTransGen.trans (reach_forward hv hb) (ih _ _ h)
    · rw [if_neg ha] at h ⊢
      by_cases hl : a = LEFT
      · rw [if_pos hl] at h ⊢; exact ih _ _ h
      · rw [if_neg hl] at h ⊢
        by_cases hr : a = RIGHT
        · rw [if_pos hr] at h ⊢; exact ih _ _ h
        · rw [if_neg hr] at h ⊢; exact ih _ _ h

theorem validate_forward_cons (cols rows : Int) (blocked : List Pos) (p : Pos) (d : Nat)
    (hv : is_position_valid cols rows (forwardPos d p) = true)
    (hb : forwardPos d p ∉ blocked) (rest : List Nat) :
    validate_from cols rows blocked (FORWARD :: rest) p d =
      validate_from cols rows blocked rest (forwardPos d p) d := by
  simp [validate_from, hv, hb]

theorem convert_dup (d : Nat) (p : Pos) (rest : List Pos) :
    convert_path d p (p :: rest) = convert_path d p rest := by
  simp [convert_path]

theorem convert_nonempty {cols rows : Int} {blocked : List Pos} {p q : Pos} {rest : List Pos}
    (h : stepRel cols rows blocked p q) (d : Nat) :
    convert_path d p (q :: rest) ≠ [] := by
  rcases (mem_get_neighbors.mp h.1).1 with hq | hq | hq | hq <;> subst hq <;>
    simp [convert_path, List.append_eq_nil]

theorem convert_validate {cols rows : Int} {blocked : List Pos} :
    ∀ (l : List Pos) (p : Pos) (d : Nat), d < 4 →
      chainP cols rows blocked p l →
      validate_from cols rows blocked (convert_path d p l) p d = true := by
  intro l
  induction l with
  | nil => intro p d _ _; rfl
  | cons q rest ih =>
    intro p d hd hc
    obtain ⟨hstep, hrest⟩ := hc
    have hv : is_position_valid cols rows q = true := stepRel_valid hstep
    have hb : q ∉ blocked := hstep.2
    rcases (mem_get_neighbors.mp hstep.1).1 with hq | hq | hq | hq <;> subst hq
    · have hcv : convert_path d p ((p.1, p.2 + 1) :: rest) =
          (if d ≠ 1 then turn_to_face d 1 else []) ++
            FORWARD :: convert_path 1 (p.1, p.2 + 1) rest := by
        simp [convert_path]
      rw [hcv]
      by_cases hde : d ≠ 1
      · rw [if_pos hde, validate_turn cols rows blocked hd (by norm_num),
          validate_forward_cons cols rows blocked p 1 hv hb]
        exact ih _ 1 (by norm_num) hrest
      · push_neg at hde
        subst hde
        have hne : ¬((1 : Nat) ≠ 1) := by simp
        rw [if_neg hne, List.nil_append, validate_forward_cons cols rows blocked p 1 hv hb]
        exact ih _ 1 (by norm_num) hrest
    · have hcv : convert_path d p ((p.1 + 1, p.2) :: rest) =
          (if d ≠ 3 then turn_to_face d 3 else []) ++
            FORWARD :: convert_path 3 (p.1 + 1, p.2) rest := by
        simp [convert_path]
      rw [hcv]
      by_cases hde : d ≠ 3
      · rw [if_pos hde, validate_turn cols rows blocked hd (by norm_num),
          validate_forward_cons cols rows blocked p 3 hv hb]
        exact ih _ 3 (by norm_num) hrest
      · push_neg at hde
        subst hde
        have hne : ¬((3 : Nat) ≠ 3) := by simp
        rw [if_neg hne, List.nil_append, validate_forward_cons cols rows blocked p 3 hv hb]
        exact ih _ 3 (by norm_num) hrest
    · have hcv : convert_path d p ((p.1, p.2 - 1) :: rest) =
          (if d ≠ 0 then turn_to_face d 0 else []) ++
            FORWARD :: convert_path 0 (p.1, p.2 - 1) rest := by
        simp [convert_path]
      rw [hcv]
      by_cases hde : d ≠ 0
      · rw [if_pos hde, validate_turn cols rows blocked hd (by norm_num),
          validate_forward_cons cols rows blocked p 0 hv hb]
        exact ih _ 0 (by norm_num) hrest
      · push_neg at hde
        subst hde
        have hne : ¬((0 : Nat) ≠ 0) := by simp
        rw [if_neg hne, List.nil_append, validate_forward_cons cols rows blocked p 0 hv hb]
        exact ih _ 0 (by norm_num) hrest
    · have hcv : convert_path d p ((p.1 - 1, p.2) :: rest) =
          (if d ≠ 2 then turn_to_face d 2 else []) ++
            FORWARD :: convert_path 2 (p.1 - 1, p.2) rest := by
        simp [convert_path]
      rw [hcv]
      by_cases hde : d ≠ 2
      · rw [if_pos hde, validate_turn cols rows blocked hd (by norm_num),
          validate_forward_cons cols rows blocked p 2 hv hb]
        exact ih _ 2 (by norm_num) hrest
      · push_neg at hde
        subst hde
        have hne : ¬((2 : Nat) ≠ 2) := by simp
        rw [if_neg hne, List.nil_append, validate_forward_cons cols rows blocked p 2 hv hb]
        exact ih _ 2 (by norm_num) hrest

theorem mem_gridFinset {cols rows : Int} {p : Pos} :
    p ∈ gridFinset cols rows ↔ is_position_valid cols rows p = true := by
  cases p with
  | mk a b =>
    simp only [gridFinset, Finset.mem_product, Finset.mem_Ico, is_position_valid,
      Bool.and_eq_true, decide_eq_true_eq]
    tauto

theorem card_gridFinset {cols rows : Int} (hc : 0 ≤ cols) (hr : 0 ≤ rows) :
    (gridFinset cols rows).card = (cols * rows).toNat := by
  obtain ⟨a, rfl⟩ := Int.eq_ofNat_of_zero_le hc
  obtain ⟨b, rfl⟩ := Int.eq_ofNat_of_zero_le hr
  rw [gridFinset, Finset.card_product, Int.card_Ico, Int.card_Ico]
  rw [show ((a : Int) * b).toNat = a * b from by
    rw [← Int.natCast_mul, Int.toNat_natCast]]
  simp

theorem nodup_inbounds_length_le {cols rows : Int} {l : List Pos}
    (hnd : l.Nodup) (hin : ∀ p ∈ l, is_position_valid cols rows p = true)
    (hc : 0 ≤ cols) (hr : 0 ≤ rows) :
    l.length ≤ (cols * rows).toNat := by
  have hsub : l.toFinset ⊆ gridFinset cols rows := by
    intro p hp
    exact mem_gridFinset.mpr (hin p (List.mem_toFinset.mp hp))
  have := Finset.card_le_card hsub
  rw [List.toFinset_card_of_nodup hnd, card_gridFinset hc hr] at this
  exact this

/-! Dict and list helper lemmas for the search analyses. -/

theorem alookup_mem {α β : Type} [DecidableEq α] :
    ∀ (l : List (α × β)) (k : α) (v : β), alookup l k = some v → (k, v) ∈ l
  | [], _, _, h => by cases h
  | (k', v') :: t, k, v, h => by
    simp only [alookup] at h
    by_cases hk : k = k'
    · rw [if_pos hk] at h
      cases h
      subst hk
      exact List.mem_cons_self _ _
    · rw [if_neg hk] at h
      exact List.mem_cons_of_mem _ (alookup_mem t k v h)

theorem alookup_nodup_of_mem {α β : Type} [DecidableEq α] :
    ∀ (l : List (α × β)), (l.map Prod.fst).Nodup → ∀ (k : α) (v : β),
      (k, v) ∈ l → alookup l k = some v
  | [], _, _, _, h => by cases h
  | (k', v') :: t, hnd, k, v, h => by
    simp only [List.map_cons, List.nodup_cons] at hnd
    rcases List.mem_cons.mp h with he | ht
    · cases he
      simp [alookup]
    · have hk : k ≠ k' := by
        intro he
        subst he
        exact hnd.1 (List.mem_map.mpr ⟨(k, v), ht, rfl⟩)
      simp only [alookup]
      rw [if_neg hk]
      exact alookup_nodup_of_mem t hnd.2 k v ht

theorem alookup_mem_keys {α β : Type} [DecidableEq α] :
    ∀ (l : List (α × β)) (k : α), k ∈ l.map Prod.fst → ∃ v, alookup l k = some v
  | [], _, h => by cases h
  | (k', v') :: t, k, h => by
    simp only [alookup]
    by_cases hk : k = k'
    · exact ⟨v', by rw [if_pos hk]⟩
    · rcases List.mem_cons.mp h with he | ht
      · exact absurd he hk
      · rw [if_neg hk]
        exact alookup_mem_keys t k ht

theorem mem_aupdate {α β : Type} [DecidableEq α] :
    ∀ (l : List (α × β)) (n : α) (v : β) (k : α) (c : β),
      (k, c) ∈ aupdate l n v → (k, c) ∈ l ∨ (k = n ∧ c = v)
  | [], n, v, k, c, h => by
    simp only [aupdate, List.mem_singleton] at h
    cases h
    exact Or.inr ⟨rfl, rfl⟩
  | (k', v') :: t, n, v, k, c, h => by
    simp only [aupdate] at h
    by_cases hk : k' = n
    · rw [if_pos hk] at h
      rcases List.mem_cons.mp h with he | ht
      · cases he
        exact Or.inr ⟨rfl, rfl⟩
      · exact Or.inl (List.mem_cons_of_mem _ ht)
    · rw [if_neg hk] at h
      rcases List.mem_cons.mp h with he | ht
      · cases he
        exact Or.inl (List.mem_cons_self _ _)
      · rcases mem_aupdate t n v k c ht with hl | hr
        · exact Or.inl (List.mem_cons_of_mem _ hl)
        · exact Or.inr hr

theorem mem_removeFirst {l : List Pos} {x p : Pos} (h : p ∈ removeFirst l x) : p ∈ l := by
  induction l with
  | nil => cases h
  | cons a t ih =>
    simp only [removeFirst] at h
    by_cases ha : a = x
    · rw [if_pos ha] at h
      exact List.mem_cons_of_mem _ h
    · rw [if_neg ha] at h
      rcases List.mem_cons.mp h with he | ht
      · exact he ▸ List.mem_cons_self _ _
      · exact List.mem_cons_of_mem _ (ih ht)

theorem mem_removeFirst_of_ne {l : List Pos} {x p : Pos} (hne : p ≠ x) (h : p ∈ l) :
    p ∈ removeFirst l x := by
  induction l with
  | nil => cases h
  | cons a t ih =>
    simp only [removeFirst]
    by_cases ha : a = x
    · rw [if_pos ha]
      rcases List.mem_cons.mp h with he | ht
      · exact absurd (he.trans ha) hne
      · exact ht
    · rw [if_neg ha]
      rcases List.mem_cons.mp h with he | ht
      · exact he ▸ List.mem_cons_self _ _
      · exact List.mem_cons_of_mem _ (ih ht)

theorem not_mem_removeFirst_self {l : List Pos} (hnd : l.Nodup) (x : Pos) :
    x ∉ removeFirst l x := by
  induction l with
  | nil => simp [removeFirst]
  | cons a t ih =>
    simp only [removeFirst]
    rcases List.nodup_cons.mp hnd with ⟨hna, hnt⟩
    by_cases ha : a = x
    · rw [if_pos ha]
      subst ha
      exact hna
    · rw [if_neg ha]
      intro hmem
      rcases List.mem_cons.mp hmem with he | ht
      · exact ha he.symm
      · exact ih hnt ht

theorem removeFirst_nodup {l : List Pos} (hnd : l.Nodup) (x : Pos) :
    (removeFirst l x).Nodup := by
  induction l with
  | nil => simp [removeFirst]
  | cons a t ih =>
    simp only [removeFirst]
    rcases List.nodup_cons.mp hnd with ⟨hna, hnt⟩
    by_cases ha : a = x
    · rw [if_pos ha]
      exact hnt
    · rw [if_neg ha]
      exact List.nodup_cons.mpr ⟨fun hm => hna (mem_removeFirst hm), ih hnt⟩

theorem pyMinBy_mem {key : Pos → Option Nat} :
    ∀ {l : List Pos} {x : Pos}, pyMinBy key l = some x → x ∈ l := by
  intro l
  cases l with
  | nil => intro x h; cases h
  | cons a t =>
    intro x h
    simp only [pyMinBy, Option.some.injEq] at h
    subst h
    have : ∀ (t' : List Pos) (b : Pos), b ∈ a :: t →
        (∀ y ∈ t', y ∈ a :: t) →
        t'.foldl (fun best y => if ltOpt (key y) (key best) then y else best) b ∈ a :: t := by
      intro t'
      induction t' with
      | nil => intro b hb _; exact hb
      | cons c t'' ih =>
        intro b hb hsub
        simp only [List.foldl_cons]
        by_cases hc : ltOpt (key c) (key b)
        · rw [if_pos hc]
          exact ih c (hsub c (List.mem_cons_self _ _)) fun y hy =>
            hsub y (List.mem_cons_of_mem _ hy)
        · rw [if_neg hc]
          exact ih b hb fun y hy => hsub y (List.mem_cons_of_mem _ hy)
    exact this t a (List.mem_cons_self _ _) fun y hy => List.mem_cons_of_mem _ hy

/-! BFS search analysis: invariants of the visited map and queue. -/

theorem alookup_none_not_mem {α β : Type} [DecidableEq α] {l : List (α × β)} {k : α}
    (h : (alookup l k).isNone = true) : k ∉ l.map Prod.fst := by
  intro hmem
  rcases alookup_mem_keys l k hmem with ⟨v, hv⟩
  rw [hv] at h
  cases h

theorem alookup_isSome_mem {α β : Type} [DecidableEq α] {l : List (α × β)} {k : α}
    (h : (alookup l k).isNone = false) : k ∈ l.map Prod.fst := by
  by_contra hmem
  rw [alookup_eq_none l k hmem] at h
  cases h

theorem parentEarlier_snoc {visited : List (Pos × Option Pos)} {k c : Pos}
    (hpe : ParentEarlier visited) (hc : c ∈ vkeys visited) :
    ParentEarlier (visited ++ [(k, some c)]) := by
  intro i hi c2 hget
  have hlen : (visited ++ [(k, some c)]).length = visited.length + 1 := by
    simp
  by_cases hlt : i < visited.length
  · have hg : (visited ++ [(k, some c)]).get ⟨i, hi⟩ = visited.get ⟨i, hlt⟩ :=
      List.get_append i hlt
    rw [hg] at hget
    obtain ⟨j, hj, hji, hkey⟩ := hpe i hlt c2 hget
    refine ⟨j, by omega, hji, ?_⟩
    have hg2 : (visited ++ [(k, some c)]).get ⟨j, by omega⟩ = visited.get ⟨j, hj⟩ :=
      List.get_append j hj
    rw [hg2, hkey]
  · have hieq : i = visited.length := by omega
    subst hieq
    have hg : (visited ++ [(k, some c)]).get ⟨visited.length, hi⟩ = (k, some c) := by
      rw [List.get_eq_getElem, List.getElem_append_right (le_refl _)]
      simp
    rw [hg] at hget
    cases hget
    obtain ⟨e, he, hfst⟩ := List.mem_map.mp hc
    obtain ⟨⟨j, hj⟩, hget2⟩ := List.mem_iff_get.mp he
    refine ⟨j, by omega, hj, ?_⟩
    have hg2 : (visited ++ [(k, some c)]).get ⟨j, by omega⟩ = visited.get ⟨j, hj⟩ :=
      List.get_append j hj
    rw [hg2, hget2, hfst]

theorem vkeys_append (l : List (Pos × Option Pos)) (k : Pos) (v : Option Pos) :
    vkeys (l ++ [(k, v)]) = vkeys l ++ [k] := by
  simp [vkeys]

theorem bfsProcess_spec {cols rows : Int} {blocked : List Pos} {goal current : Pos}
    (hgb : goal ∉ blocked) :
    ∀ (ns queue : List Pos) (visited : List (Pos × Option Pos))
      (q2 : List Pos) (v2 : List (Pos × Option Pos)) (found : Bool),
      bfsProcess blocked goal current ns queue visited = (q2, v2, found) →
      (∀ n ∈ ns, n ∈ get_neighbors cols rows current) →
      (∀ q ∈ queue, q ∈ vkeys visited) →
      queue.Nodup →
      (vkeys visited).Nodup →
      goal ∉ vkeys visited →
      current ∈ vkeys visited →
      ParentEarlier visited →
      BfsStepOut cols rows blocked goal current ns queue visited q2 v2 found := by
  intro ns
  induction ns with
  | nil =>
    intro queue visited q2 v2 found heq hns hq hqnd hknd hng hcur hpe
    simp only [bfsProcess] at heq
    injection heq with h1 h2
    injection h2 with h2 h3
    subst h1 h2 h3
    exact ⟨fun k hk => hk, hknd, fun k hk => Or.inl hk, fun k c hkc => Or.inl hkc,
      fun k v hkv _ => hkv, hpe, fun q hq2 => hq2, fun q hq2 => Or.inl hq2, hq, hqnd,
      (by simp), fun _ => ⟨hng, (by simp), fun k hk hnk => absurd hk hnk⟩,
      fun hft => Bool.noConfusion hft⟩
  | cons n rest ih =>
    intro queue visited q2 v2 found heq hns hq hqnd hknd hng hcur hpe
    have hnn : n ∈ get_neighbors cols rows current := hns n (List.mem_cons_self _ _)
    have hrest : ∀ m ∈ rest, m ∈ get_neighbors cols rows current :=
      fun m hm => hns m (List.mem_cons_of_mem _ hm)
    simp only [bfsProcess] at heq
    by_cases hgoal : n = goal
    · rw [if_pos hgoal] at heq
      subst hgoal
      injection heq with h1 h2
      injection h2 with h2 h3
      subst h1 h2 h3
      refine ⟨?_, ?_, ?_, ?_, ?_, parentEarlier_snoc hpe hcur, fun q hq2 => hq2,
        fun q hq2 => Or.inl hq2, ?_, hqnd, ?_, fun hf => Bool.noConfusion hf, fun _ => ?_⟩
      · intro k hk
        rw [vkeys_append]
        exact List.mem_append_left _ hk
      · rw [vkeys_append]
        rw [List.nodup_append]
        exact ⟨hknd, List.nodup_singleton _, fun x hx hxg => hng ((List.mem_singleton.mp hxg) ▸ hx)⟩
      · intro k hk
        rw [vkeys_append] at hk
        rcases List.mem_append.mp hk with h | h
        · exact Or.inl h
        · exact Or.inr ((List.mem_singleton.mp h) ▸ ⟨hnn, hgb⟩)
      · intro k c hkc
        rcases List.mem_append.mp hkc with h | h
        · exact Or.inl h
        · have he := List.mem_singleton.mp h
          injection he with he1 he2
          injection he2 with he2
          subst he1 he2
          exact Or.inr ⟨rfl, hnn, hgb⟩
      · intro k v hkv hv
        rcases List.mem_append.mp hkv with h | h
        · exact h
        · have he := List.mem_singleton.mp h
          injection he with he1 he2
          subst hv he1
          cases he2
      · intro q hq2
        rw [vkeys_append]
        exact List.mem_append_left _ (hq q hq2)
      · rw [vkeys_append]
        simp
        omega
      · rw [vkeys_append]
        exact List.mem_append_right _ (by simp)
    · rw [if_neg hgoal] at heq
      by_cases hcond : ((alookup visited n).isNone && !(decide (n ∈ blocked))) = true
      · rw [if_pos hcond] at heq
        rw [Bool.and_eq_true] at hcond
        have hnk : n ∉ vkeys visited := alookup_none_not_mem hcond.1
        have hnb : n ∉ blocked := by simpa using hcond.2
        have hq' : ∀ q ∈ queue ++ [n], q ∈ vkeys (visited ++ [(n, some current)]) := by
          intro q hq2
          rw [vkeys_append]
          rcases List.mem_append.mp hq2 with h | h
          · exact List.mem_append_left _ (hq q h)
          · exact List.mem_append_right _ h
        have hqnd' : (queue ++ [n]).Nodup := by
          rw [List.nodup_append]
          exact ⟨hqnd, List.nodup_singleton _,
            fun x hx hxn => hnk ((List.mem_singleton.mp hxn) ▸ hq x hx)⟩
        have hknd' : (vkeys (visited ++ [(n, some current)])).Nodup := by
          rw [vkeys_append, List.nodup_append]
          exact ⟨hknd, List.nodup_singleton _,
            fun x hx hxn => hnk ((List.mem_singleton.mp hxn) ▸ hx)⟩
        have hng' : goal ∉ vkeys (visited ++ [(n, some current)]) := by
          rw [vkeys_append]
          intro hmem
          rcases List.mem_append.mp hmem with h | h
          · exact hng h
          · exact hgoal (List.mem_singleton.mp h).symm
        have hcur' : current ∈ vkeys (visited ++ [(n, some current)]) := by
          rw [vkeys_append]
          exact List.mem_append_left _ hcur
        have hpe' : ParentEarlier (visited ++ [(n, some current)]) :=
          parentEarlier_snoc hpe hcur
        obtain ⟨kmono, knodup, knew, entries, nones, pe, qmono, qnew, qsub, qnodup,
          count, ffalse, ftrue⟩ :=
          ih (queue ++ [n]) (visited ++ [(n, some current)]) q2 v2 found heq hrest hq'
            hqnd' hknd' hng' hcur' hpe'
        have hinkeys : n ∈ vkeys (visited ++ [(n, some current)]) := by
          rw [vkeys_append]
          exact List.mem_append_right _ (by simp)
        refine ⟨?_, knodup, ?_, ?_, ?_, pe, ?_, ?_, qsub, qnodup, ?_, ?_, ftrue⟩
        · intro k hk
          exact kmono k (by rw [vkeys_append]; exact List.mem_append_left _ hk)
        · intro k hk
          rcases knew k hk with h | h
          · rw [vkeys_append] at h
            rcases List.mem_append.mp h with h2 | h2
            · exact Or.inl h2
            · exact Or.inr ((List.mem_singleton.mp h2) ▸ ⟨hnn, hnb⟩)
          · exact Or.inr h
        · intro k c hkc
          rcases entries k c hkc with h | h
          · rcases List.mem_append.mp h with h2 | h2
            · exact Or.inl h2
            · have he := List.mem_singleton.mp h2
              injection he with he1 he2
              injection he2 with he2
              subst he1 he2
              exact Or.inr ⟨rfl, hnn, hnb⟩
          · exact Or.inr h
        · intro k v hkv hv
          have h := nones k v hkv hv
          rcases List.mem_append.mp h with h2 | h2
          · exact h2
          · have he := List.mem_singleton.mp h2
            injection he with he1 he2
            subst hv he1
            cases he2
        · intro q hqm
          exact qmono q (List.mem_append_left _ hqm)
        · intro q hq2
          rcases qnew q hq2 with h | h
          · rcases List.mem_append.mp h with h2 | h2
            · exact Or.inl h2
            · exact Or.inr ⟨qsub q hq2, (List.mem_singleton.mp h2) ▸ hnk⟩
          · exact Or.inr ⟨h.1, fun hm =>
              h.2 (by rw [vkeys_append]; exact List.mem_append_left _ hm)⟩
        · rw [vkeys_append] at count
          simp only [List.length_append, List.length_singleton] at count
          omega
        · intro hf
          obtain ⟨g1, g2, g3⟩ := ffalse hf
          refine ⟨g1, ?_, ?_⟩
          · intro m hm
            rcases List.mem_cons.mp hm with he | ht
            · subst he
              exact ⟨hgoal, fun _ => kmono m hinkeys⟩
            · exact g2 m ht
          · intro k hk hkold
            by_cases hk' : k ∈ vkeys (visited ++ [(n, some current)])
            · rw [vkeys_append] at hk'
              rcases List.mem_append.mp hk' with h2 | h2
              · exact absurd h2 hkold
              · exact qmono k (List.mem_append_right _ h2)
            · exact g3 k hk hk'
      · rw [if_neg hcond] at heq
        obtain ⟨kmono, knodup, knew, entries, nones, pe, qmono, qnew, qsub, qnodup,
          count, ffalse, ftrue⟩ :=
          ih queue visited q2 v2 found heq hrest hq hqnd hknd hng hcur hpe
        refine ⟨kmono, knodup, knew, entries, nones, pe, qmono, qnew, qsub, qnodup,
          count, ?_, ftrue⟩
        intro hf
        obtain ⟨g1, g2, g3⟩ := ffalse hf
        refine ⟨g1, ?_, g3⟩
        intro m hm
        rcases List.mem_cons.mp hm with he | ht
        · subst he
          refine ⟨hgoal, ?_⟩
          intro hmb
          have hdec : decide (m ∈ blocked) = false := decide_eq_false hmb
          have ha : (alookup visited m).isNone = false := by
            cases ha : (alookup visited m).isNone
            · rfl
            · exact absurd (by rw [ha, hdec]; rfl) hcond
          exact kmono m (alookup_isSome_mem ha)
        · exact g2 m ht

theorem nodup_subset_length_le {l1 l2 : List Pos} (h1 : l1.Nodup) (h2 : l2.Nodup)
    (hsub : l1 ⊆ l2) : l1.length ≤ l2.length := by
  rw [← List.toFinset_card_of_nodup h1, ← List.toFinset_card_of_nodup h2]
  exact Finset.card_le_card fun x hx => List.mem_toFinset.mpr (hsub (List.mem_toFinset.mp hx))

theorem bfsInv_step {cols rows : Int} {blocked : List Pos} {goal start current : Pos}
    {rest : List Pos} {visited : List (Pos × Option Pos)}
    {q2 : List Pos} {v2 : List (Pos × Option Pos)}
    (inv : BfsInv cols rows blocked goal start (current :: rest) visited)
    (out : BfsStepOut cols rows blocked goal current (get_neighbors cols rows current)
      rest visited q2 v2 false) :
    BfsInv cols rows blocked goal start q2 v2 := by
  obtain ⟨g1, g2, g3⟩ := out.ffalse rfl
  refine ⟨out.knodup, ?_, out.qsub, out.qnodup, out.kmono start inv.smem, ?_, ?_, out.pe,
    ?_, g1⟩
  · intro k hk
    rcases out.knew k hk with h | h
    · exact inv.kinb k h
    · exact (mem_get_neighbors.mp h.1).2
  · intro k v hkv hv
    exact inv.nstart k v (out.nones k v hkv hv) hv
  · intro k c hkc
    rcases out.entries k c hkc with h | h
    · exact inv.entries k c h
    · exact h.2
  · intro k hk hknq n hn
    by_cases hold : k ∈ vkeys visited
    · by_cases hc : k = current
      · subst hc
        exact g2 n hn
      · have hkr : k ∉ rest := fun hm => hknq (out.qmono k hm)
        have hkq : k ∉ current :: rest := by
          intro hm
          rcases List.mem_cons.mp hm with he | ht
          · exact hc he
          · exact hkr ht
        obtain ⟨hng, hmem⟩ := inv.processed k hold hkq n hn
        exact ⟨hng, fun hb => out.kmono n (hmem hb)⟩
    · exact absurd (g3 k hk hold) hknq

theorem bfsLoop_none_not_reach {cols rows : Int} {blocked : List Pos} {goal start : Pos}
    (hgb : goal ∉ blocked) (hsg : start ≠ goal) :
    ∀ (fuel : Nat) (queue : List Pos) (visited : List (Pos × Option Pos)),
      BfsInv cols rows blocked goal start queue visited →
      queue.length + ((cols * rows).toNat - (vkeys visited).length) < fuel →
      bfsLoop cols rows blocked goal fuel queue visited = none →
      ¬ Reach cols rows blocked start goal := by
  intro fuel
  induction fuel with
  | zero => intro queue visited _ hmu _; omega
  | succ f ih =>
    intro queue visited inv hmu hnone
    rcases queue with _ | ⟨current, rest⟩
    · intro hreach
      have key : ∀ p, Reach cols rows blocked start p → p ∈ vkeys visited ∧ p ≠ goal := by
        intro p hp
        induction hp with
        | refl => exact ⟨inv.smem, hsg⟩
        | tail hr hstep ihp =>
          obtain ⟨hmem, _⟩ := ihp
          have hproc := inv.processed _ hmem (List.not_mem_nil _) _ hstep.1
          exact ⟨hproc.2 hstep.2, hproc.1⟩
      exact (key goal hreach).2 rfl
    · simp only [bfsLoop] at hnone
      obtain ⟨⟨q2, v2, found⟩, hres⟩ :
          ∃ r, bfsProcess blocked goal current (get_neighbors cols rows current)
            rest visited = r := ⟨_, rfl⟩
      rw [hres] at hnone
      have out := bfsProcess_spec hgb (get_neighbors cols rows current) rest visited
        q2 v2 found hres (fun m hm => hm)
        (fun q hqm => inv.qsub q (List.mem_cons_of_mem _ hqm))
        (List.nodup_cons.mp inv.qnodup).2 inv.knodup inv.nogoal
        (inv.qsub current (List.mem_cons_self _ _)) inv.pe
      cases found with
      | true => cases hnone
      | false =>
        have inv2 := bfsInv_step inv out
        have hvalid : is_position_valid cols rows start = true := inv.kinb start inv.smem
        have hcnn : 0 ≤ cols ∧ 0 ≤ rows := by
          simp only [is_position_valid, Bool.and_eq_true, decide_eq_true_eq] at hvalid
          omega
        have hb2 : (vkeys v2).length ≤ (cols * rows).toNat :=
          nodup_inbounds_length_le inv2.knodup inv2.kinb hcnn.1 hcnn.2
        have hb1 : (vkeys visited).length ≤ (vkeys v2).length :=
          nodup_subset_length_le inv.knodup out.knodup fun k hk => out.kmono k hk
        have hcount := out.count
        simp only [if_neg Bool.false_ne_true] at hcount
        exact ih q2 v2 inv2 (by simp only [List.length_cons] at hmu; omega) hnone

theorem bfsLoop_some_wf {cols rows : Int} {blocked : List Pos} {goal start : Pos}
    (hgb : goal ∉ blocked) :
    ∀ (fuel : Nat) (queue : List Pos) (visited vf : List (Pos × Option Pos)),
      BfsInv cols rows blocked goal start queue visited →
      bfsLoop cols rows blocked goal fuel queue visited = some vf →
      ((vkeys vf).Nodup ∧ (∀ k c, (k, some c) ∈ vf → stepRel cols rows blocked c k) ∧
        (∀ (k : Pos) (v : Option Pos), (k, v) ∈ vf → v = none → k = start) ∧
        ParentEarlier vf ∧ goal ∈ vkeys vf) := by
  intro fuel
  induction fuel with
  | zero => intro queue visited vf _ hsome; cases hsome
  | succ f ih =>
    intro queue visited vf inv hsome
    rcases queue with _ | ⟨current, rest⟩
    · cases hsome
    · simp only [bfsLoop] at hsome
      obtain ⟨⟨q2, v2, found⟩, hres⟩ :
          ∃ r, bfsProcess blocked goal current (get_neighbors cols rows current)
            rest visited = r := ⟨_, rfl⟩
      rw [hres] at hsome
      have out := bfsProcess_spec hgb (get_neighbors cols rows current) rest visited
        q2 v2 found hres (fun m hm => hm)
        (fun q hqm => inv.qsub q (List.mem_cons_of_mem _ hqm))
        (List.nodup_cons.mp inv.qnodup).2 inv.knodup inv.nogoal
        (inv.qsub current (List.mem_cons_self _ _)) inv.pe
      cases found with
      | true =>
        have hv2 : v2 = vf := by
          injection hsome
        subst hv2
        refine ⟨out.knodup, ?_, ?_, out.pe, out.ftrue rfl⟩
        · intro k c hkc
          rcases out.entries k c hkc with h | h
          · exact inv.entries k c h
          · exact h.2
        · intro k v hkv hv
          exact inv.nstart k v (out.nones k v hkv hv) hv
      | false =>
        exact ih q2 v2 vf (bfsInv_step inv out) hsome

theorem bfsReconstruct_ok {cols rows : Int} {blocked : List Pos} {start : Pos}
    {visited : List (Pos × Option Pos)}
    (hnd : (vkeys visited).Nodup)
    (hpe : ParentEarlier visited)
    (hns : ∀ (k : Pos) (v : Option Pos), (k, v) ∈ visited → v = none → k = start)
    (hent : ∀ k c, (k, some c) ∈ visited → stepRel cols rows blocked c k) :
    ∀ (fuel i : Nat) (hi : i < visited.length) (current : Pos) (acc : List Pos),
      (visited.get ⟨i, hi⟩).1 = current → i < fuel →
      chainP cols rows blocked current acc →
      ∃ path, bfsReconstruct visited start fuel current acc = some path ∧
        chainP cols rows blocked start path ∧
        endOf start path = endOf current acc := by
  intro fuel
  induction fuel with
  | zero => intro i hi current acc _ hif _; omega
  | succ f ih =>
    intro i hi current acc hkey hif hchain
    by_cases hcs : current = start
    · subst hcs
      exact ⟨acc, by simp [bfsReconstruct], hchain, rfl⟩
    · have hmem : (current, (visited.get ⟨i, hi⟩).2) ∈ visited := by
        have h := List.get_mem visited i hi
        have he : visited.get ⟨i, hi⟩ = (current, (visited.get ⟨i, hi⟩).2) := by
          rw [← hkey]
        rwa [he] at h
      cases hv : (visited.get ⟨i, hi⟩).2 with
      | none =>
        exact absurd (hns current none (hv ▸ hmem) rfl) hcs
      | some c =>
        have halookup : alookup visited current = some (some c) :=
          alookup_nodup_of_mem visited hnd current (some c) (hv ▸ hmem)
        obtain ⟨j, hj, hji, hjkey⟩ := hpe i hi c hv
        have hstep : stepRel cols rows blocked c current :=
          hent current c (hv ▸ hmem)
        obtain ⟨path, hrec, hchain2, hend⟩ :=
          ih j hj c (current :: acc) hjkey (by omega) ⟨hstep, hchain⟩
        refine ⟨path, ?_, hchain2, hend⟩
        simp only [bfsReconstruct]
        rw [if_neg hcs, halookup]
        exact hrec

theorem bfs_initial_inv {cols rows : Int} {blocked : List Pos} {goal start : Pos}
    (hsg : start ≠ goal) (hsv : is_position_valid cols rows start = true) :
    BfsInv cols rows blocked goal start [start] [(start, none)] := by
  refine ⟨?_, ?_, ?_, ?_, ?_, ?_, ?_, ?_, ?_, ?_⟩
  · simp [vkeys]
  · intro k hk
    simp [vkeys] at hk
    subst hk
    exact hsv
  · intro q hq
    simp at hq
    subst hq
    simp [vkeys]
  · simp
  · simp [vkeys]
  · intro k v hkv _
    simp at hkv
    exact hkv.1
  · intro k c hkc
    simp at hkc
  · intro i hi c hget
    simp at hi
    subst hi
    simp at hget
  · intro k hk hknq n hn
    simp [vkeys] at hk
    subst hk
    exact absurd (by simp) hknq
  · intro hg
    simp [vkeys] at hg
    exact hsg hg.symm

theorem bfs_not_reach_empty {cols rows : Int} {agent : AgentPose} {goal : Pos}
    {blocked : List Pos}
    (hsv : is_position_valid cols rows (agent.x, agent.y) = true)
    (hgb : goal ∉ blocked) (hsg : ((agent.x, agent.y) : Pos) ≠ goal)
    (hnr : ¬ Reach cols rows blocked (agent.x, agent.y) goal) :
    pathfind_movement_bfs cols rows agent goal blocked = [] := by
  simp only [pathfind_movement_bfs]
  rw [if_neg hsg]
  cases hloop : bfsLoop cols rows blocked goal (bfsFuel cols rows)
      [(agent.x, agent.y)] [((agent.x, agent.y), none)] with
  | none => rfl
  | some visited =>
    exfalso
    obtain ⟨hnd, hent, hns, hpe, hgoalmem⟩ :=
      bfsLoop_some_wf hgb (bfsFuel cols rows) [(agent.x, agent.y)]
        [((agent.x, agent.y), none)] visited (bfs_initial_inv hsg hsv) hloop
    obtain ⟨e, he, hefst⟩ := List.mem_map.mp hgoalmem
    obtain ⟨⟨i, hi⟩, hgeti⟩ := List.mem_iff_get.mp he
    obtain ⟨path, hrec, hchain, hend⟩ :=
      bfsReconstruct_ok hnd hpe hns hent (visited.length + 1) i hi goal []
        (by rw [hgeti]; exact hefst) (by omega) trivial
    have hreach := chainP_reach path _ hchain
    rw [hend] at hreach
    exact hnr hreach

theorem bfs_reach_nonempty {cols rows : Int} {agent : AgentPose} {goal : Pos}
    {blocked : List Pos} (hd : agent.dir < 4)
    (hsv : is_position_valid cols rows (agent.x, agent.y) = true)
    (hgb : goal ∉ blocked) (hsg : ((agent.x, agent.y) : Pos) ≠ goal)
    (hr : Reach cols rows blocked (agent.x, agent.y) goal) :
    pathfind_movement_bfs cols rows agent goal blocked ≠ [] ∧
      validate_action_sequence cols rows agent
        (pathfind_movement_bfs cols rows agent goal blocked) blocked = true := by
  cases hloop : bfsLoop cols rows blocked goal (bfsFuel cols rows)
      [(agent.x, agent.y)] [((agent.x, agent.y), none)] with
  | none =>
    exfalso
    refine bfsLoop_none_not_reach hgb hsg (bfsFuel cols rows) [(agent.x, agent.y)]
      [((agent.x, agent.y), none)] (bfs_initial_inv hsg hsv) ?_ hloop hr
    simp only [List.length_singleton, bfsFuel, vkeys, List.map_cons, List.map_nil]
    omega
  | some visited =>
    obtain ⟨hnd, hent, hns, hpe, hgoalmem⟩ :=
      bfsLoop_some_wf hgb (bfsFuel cols rows) [(agent.x, agent.y)]
        [((agent.x, agent.y), none)] visited (bfs_initial_inv hsg hsv) hloop
    obtain ⟨e, he, hefst⟩ := List.mem_map.mp hgoalmem
    obtain ⟨⟨i, hi⟩, hgeti⟩ := List.mem_iff_get.mp he
    obtain ⟨path, hrec, hchain, hend⟩ :=
      bfsReconstruct_ok hnd hpe hns hent (visited.length + 1) i hi goal []
        (by rw [hgeti]; exact hefst) (by omega) trivial
    have hres : pathfind_movement_bfs cols rows agent goal blocked =
        convert_path_to_actions agent path := by
      simp only [pathfind_movement_bfs]
      rw [if_neg hsg, hloop]
      dsimp only
      rw [hrec]
    cases hpath : path with
    | nil =>
      exfalso
      rw [hpath] at hend
      have hend2 : (agent.x, agent.y) = goal := by simpa [endOf] using hend
      exact hsg hend2
    | cons q prest =>
      rw [hpath] at hchain
      obtain ⟨hstep, hchain2⟩ := hchain
      constructor
      · rw [hres, hpath]
        exact convert_nonempty hstep agent.dir
      · rw [hres, hpath]
        exact convert_validate (q :: prest) (agent.x, agent.y) agent.dir hd ⟨hstep, hchain2⟩

theorem calculate_movement_bfs_empty_iff {cols rows : Int} {agent : AgentPose} {goal : Pos}
    {blocked : List Pos} (hd : agent.dir < 4)
    (hsv : is_position_valid cols rows (agent.x, agent.y) = true) :
    (calculate_movement_bfs cols rows agent goal blocked = [] ↔
      ¬(is_position_valid cols rows goal = true ∧ goal ∉ blocked ∧
        ((agent.x, agent.y) : Pos) ≠ goal ∧
        Reach cols rows blocked (agent.x, agent.y) goal)) := by
  simp only [calculate_movement_bfs]
  by_cases hgv : is_position_valid cols rows goal = true
  · rw [hgv]
    simp only [Bool.not_true, Bool.false_eq_true, if_false]
    by_cases hgb : goal ∈ blocked
    · rw [if_pos (by simpa using hgb)]
      simp [hgb]
    · rw [if_neg (by simpa using hgb)]
      by_cases hsg : ((agent.x, agent.y) : Pos) = goal
      · have hpf : pathfind_movement_bfs cols rows agent goal blocked = [] := by
          simp only [pathfind_movement_bfs]
          rw [if_pos hsg]
        rw [hpf]
        simp [hgv, hgb, hsg]
      · by_cases hr : Reach cols rows blocked (agent.x, agent.y) goal
        · obtain ⟨hne, hvalid⟩ := bfs_reach_nonempty hd hsv hgb hsg hr
          rw [if_pos ⟨hne, hvalid⟩]
          simp only [iff_iff_implies_and_implies]
          constructor
          · intro hc
            exact absurd hc hne
          · intro hc
            exact absurd ⟨trivial, hgb, hsg, hr⟩ hc
        · have hpf := bfs_not_reach_empty hsv hgb hsg hr
          rw [hpf]
          simp [hgv, hgb, hsg, hr]
  · rw [Bool.not_eq_true] at hgv
    rw [hgv]
    simp [hgv]

/-! A* search analysis. -/

theorem mem_keys_aupdate_self {α β : Type} [DecidableEq α] (l : List (α × β)) (k : α) (v : β) :
    k ∈ (aupdate l k v).map Prod.fst := by
  induction l with
  | nil => simp [aupdate]
  | cons hd t ih =>
    simp only [aupdate]
    by_cases hk : hd.1 = k
    · rw [if_pos hk]
      simp
    · rw [if_neg hk]
      simp only [List.map_cons, List.mem_cons]
      exact Or.inr ih

theorem mem_keys_aupdate_mono {α β : Type} [DecidableEq α] (l : List (α × β)) (k : α) (v : β)
    {q : α} (h : q ∈ l.map Prod.fst) : q ∈ (aupdate l k v).map Prod.fst := by
  induction l with
  | nil => cases h
  | cons hd t ih =>
    simp only [List.map_cons, List.mem_cons] at h
    simp only [aupdate]
    by_cases hk : hd.1 = k
    · rw [if_pos hk]
      simp only [List.map_cons, List.mem_cons]
      rcases h with he | ht
      · exact Or.inl (he.trans hk)
      · exact Or.inr ht
    · rw [if_neg hk]
      simp only [List.map_cons, List.mem_cons]
      rcases h with he | ht
      · exact Or.inl he
      · exact Or.inr (ih ht)

theorem mem_keys_aupdate {α β : Type} [DecidableEq α] (l : List (α × β)) (k : α) (v : β)
    {q : α} (h : q ∈ (aupdate l k v).map Prod.fst) : q ∈ l.map Prod.fst ∨ q = k := by
  induction l with
  | nil =>
    simp [aupdate] at h
    exact Or.inr h
  | cons hd t ih =>
    simp only [aupdate] at h
    by_cases hk : hd.1 = k
    · rw [if_pos hk] at h
      simp only [List.map_cons, List.mem_cons] at h
      rcases h with he | ht
      · exact Or.inr he
      · exact Or.inl (by simp only [List.map_cons, List.mem_cons]; exact Or.inr ht)
    · rw [if_neg hk] at h
      simp only [List.map_cons, List.mem_cons] at h
      rcases h with he | ht
      · exact Or.inl (by simp only [List.map_cons, List.mem_cons]; exact Or.inl he)
      · rcases ih ht with h2 | h2
        · exact Or.inl (by simp only [List.map_cons, List.mem_cons]; exact Or.inr h2)
        · exact Or.inr h2

theorem astarRelax_spec {cols rows : Int} {blocked : List Pos} {goal current start : Pos}
    {gCur : Nat} :
    ∀ (ns : List Pos) (st : AstarSt),
      (∀ n ∈ ns, n ∈ get_neighbors cols rows current) →
      alookup st.gScore start = some 0 →
      (start ∈ st.openSet ∨ start ∈ st.closed) →
      RelaxOut cols rows blocked current start ns st
        (astarRelax blocked goal current gCur ns st) := by
  intro ns
  induction ns with
  | nil =>
    intro st hns hgs hsm
    exact ⟨rfl, fun p hp => hp, fun p hp => Or.inl hp, fun h => h, fun k hk => hk,
      fun n c h => Or.inl h, fun h => h, rfl, by simp⟩
  | cons n rest ih =>
    intro st hns hgs hsm
    have hnn := hns n (List.mem_cons_self _ _)
    have hrest : ∀ m ∈ rest, m ∈ get_neighbors cols rows current :=
      fun m hm => hns m (List.mem_cons_of_mem _ hm)
    by_cases hskip : (decide (n ∈ st.closed) || decide (n ∈ blocked)) = true
    · have hred : astarRelax blocked goal current gCur (n :: rest) st =
          astarRelax blocked goal current gCur rest st := by
        simp only [astarRelax]
        rw [if_pos hskip]
      rw [hred]
      have out := ih st hrest hgs hsm
      refine ⟨out.ceq, out.omono, out.onew, out.onodup, out.kmono, out.entries,
        out.cfnodup, out.gpres, ?_⟩
      intro m hm hmb
      rcases List.mem_cons.mp hm with he | ht
      · subst he
        rw [Bool.or_eq_true] at hskip
        rcases hskip with h | h
        · exact Or.inr (by simpa using h)
        · exact absurd (by simpa using h) hmb
      · exact out.nscl m ht hmb
    · have hncl : n ∉ st.closed := by
        intro hmem
        exact hskip (by simp [hmem])
      have hnb : n ∉ blocked := by
        intro hmem
        exact hskip (by simp [hmem])
      by_cases hopen : (!(decide (n ∈ st.openSet))) = true
      · have hno : n ∉ st.openSet := by simpa using hopen
        have hnstart : n ≠ start := by
          intro he
          subst he
          rcases hsm with h | h
          · exact hno h
          · exact hncl h
        have hred : astarRelax blocked goal current gCur (n :: rest) st =
            astarRelax blocked goal current gCur rest
              { openSet := st.openSet ++ [n], closed := st.closed,
                cameFrom := aupdate st.cameFrom n current,
                gScore := aupdate st.gScore n (gCur + 1),
                fScore := aupdate st.fScore n (gCur + 1 + heuristic n goal) } := by
          simp only [astarRelax]
          rw [if_neg hskip, if_pos hopen]
        rw [hred]
        have hgs2 : alookup (aupdate st.gScore n (gCur + 1)) start = some 0 := by
          rw [alookup_aupdate_ne _ _ _ _ (Ne.symm hnstart)]
          exact hgs
        have hsm2 : start ∈ st.openSet ++ [n] ∨ start ∈ st.closed := by
          rcases hsm with h | h
          · exact Or.inl (List.mem_append_left _ h)
          · exact Or.inr h
        have out := ih (AstarSt.mk (st.openSet ++ [n]) st.closed
          (aupdate st.cameFrom n current) (aupdate st.gScore n (gCur + 1))
          (aupdate st.fScore n (gCur + 1 + heuristic n goal))) hrest hgs2 hsm2
        refine ⟨out.ceq, ?_, ?_, ?_, ?_, ?_, ?_, ?_, ?_⟩
        · intro p hp
          exact out.omono p (List.mem_append_left _ hp)
        · intro p hp
          rcases out.onew p hp with h | h
          · rcases List.mem_append.mp h with h2 | h2
            · exact Or.inl h2
            · have he := List.mem_singleton.mp h2
              subst he
              exact Or.inr ⟨hnn, hnb, hncl,
                out.kmono p (mem_keys_aupdate_self st.cameFrom p current)⟩
          · exact Or.inr h
        · intro hnd
          refine out.onodup ?_
          rw [List.nodup_append]
          exact ⟨hnd, List.nodup_singleton _,
            fun x hx hxn => hno ((List.mem_singleton.mp hxn) ▸ hx)⟩
        · intro k hk
          exact out.kmono k (mem_keys_aupdate_mono st.cameFrom n current hk)
        · intro m c hmc
          rcases out.entries m c hmc with h | h
          · rcases mem_aupdate st.cameFrom n current m c h with h2 | h2
            · exact Or.inl h2
            · obtain ⟨he1, he2⟩ := h2
              subst he1 he2
              exact Or.inr ⟨rfl, hnn, hnb, hncl, hnstart⟩
          · exact Or.inr h
        · intro hnd
          exact out.cfnodup (keys_aupdate_nodup st.cameFrom n current hnd)
        · rw [out.gpres]
          exact alookup_aupdate_ne _ _ _ _ (Ne.symm hnstart)
        · intro m hm hmb
          rcases List.mem_cons.mp hm with he | ht
          · subst he
            exact Or.inl (out.omono m (List.mem_append_right _ (by simp)))
          · rcases out.nscl m ht hmb with h | h
            · exact Or.inl h
            · exact Or.inr h
      · have hmo : n ∈ st.openSet := by simpa using hopen
        by_cases hge : geOpt (gCur + 1) (alookup st.gScore n) = true
        · have hred : astarRelax blocked goal current gCur (n :: rest) st =
              astarRelax blocked goal current gCur rest st := by
            simp only [astarRelax]
            rw [if_neg hskip, if_neg hopen, if_pos hge]
          rw [hred]
          have out := ih st hrest hgs hsm
          refine ⟨out.ceq, out.omono, out.onew, out.onodup, out.kmono, out.entries,
            out.cfnodup, out.gpres, ?_⟩
          intro m hm hmb
          rcases List.mem_cons.mp hm with he | ht
          · subst he
            exact Or.inl (out.omono m hmo)
          · exact out.nscl m ht hmb
        · have hnstart : n ≠ start := by
            intro he
            subst he
            rw [hgs] at hge
            exact hge (by simp [geOpt])
          have hred : astarRelax blocked goal current gCur (n :: rest) st =
              astarRelax blocked goal current gCur rest
                { openSet := st.openSet, closed := st.closed,
                  cameFrom := aupdate st.cameFrom n current,
                  gScore := aupdate st.gScore n (gCur + 1),
                  fScore := aupdate st.fScore n (gCur + 1 + heuristic n goal) } := by
            simp only [astarRelax]
            rw [if_neg hskip, if_neg hopen, if_neg hge]
          rw [hred]
          have hgs2 : alookup (aupdate st.gScore n (gCur + 1)) start = some 0 := by
            rw [alookup_aupdate_ne _ _ _ _ (Ne.symm hnstart)]
            exact hgs
          have out := ih (AstarSt.mk st.openSet st.closed
            (aupdate st.cameFrom n current) (aupdate st.gScore n (gCur + 1))
            (aupdate st.fScore n (gCur + 1 + heuristic n goal))) hrest hgs2 hsm
          refine ⟨out.ceq, out.omono, ?_, out.onodup, ?_, ?_, ?_, ?_, ?_⟩
          · intro p hp
            rcases out.onew p hp with h | h
            · exact Or.inl h
            · exact Or.inr h
          · intro k hk
            exact out.kmono k (mem_keys_aupdate_mono st.cameFrom n current hk)
          · intro m c hmc
            rcases out.entries m c hmc with h | h
            · rcases mem_aupdate st.cameFrom n current m c h with h2 | h2
              · exact Or.inl h2
              · obtain ⟨he1, he2⟩ := h2
                subst he1 he2
                exact Or.inr ⟨rfl, hnn, hnb, hncl, hnstart⟩
            · exact Or.inr h
          · intro hnd
            exact out.cfnodup (keys_aupdate_nodup st.cameFrom n current hnd)
          · rw [out.gpres]
            exact alookup_aupdate_ne _ _ _ _ (Ne.symm hnstart)
          · intro m hm hmb
            rcases List.mem_cons.mp hm with he | ht
            · subst he
              exact Or.inl (out.omono m hmo)
            · exact out.nscl m ht hmb

theorem idxN_lt_length : ∀ {l : List Pos} {a : Pos}, a ∈ l → idxN l a < l.length := by
  intro l
  induction l with
  | nil => intro a h; cases h
  | cons x xs ih =>
    intro a h
    simp only [idxN]
    by_cases hx : x = a
    · rw [if_pos hx]
      simp
    · rw [if_neg hx]
      have ha : a ∈ xs := by
        rcases List.mem_cons.mp h with he | ht
        · exact absurd he.symm hx
        · exact ht
      simpa [List.length_cons] using ih ha

theorem idxN_append_of_mem : ∀ {l1 : List Pos} (l2 : List Pos) {a : Pos}, a ∈ l1 →
    idxN (l1 ++ l2) a = idxN l1 a := by
  intro l1
  induction l1 with
  | nil => intro l2 a h; cases h
  | cons x xs ih =>
    intro l2 a h
    simp only [List.cons_append, idxN, List.append_eq]
    by_cases hx : x = a
    · rw [if_pos hx, if_pos hx]
    · rw [if_neg hx, if_neg hx]
      have ha : a ∈ xs := by
        rcases List.mem_cons.mp h with he | ht
        · exact absurd he.symm hx
        · exact ht
      rw [ih l2 ha]

theorem idxN_append_of_not_mem : ∀ {l1 : List Pos} (l2 : List Pos) {a : Pos}, a ∉ l1 →
    idxN (l1 ++ l2) a = l1.length + idxN l2 a := by
  intro l1
  induction l1 with
  | nil => intro l2 a _; simp
  | cons x xs ih =>
    intro l2 a h
    simp only [List.cons_append, idxN, List.append_eq]
    have hx : x ≠ a := fun he => h (he ▸ List.mem_cons_self _ _)
    rw [if_neg hx, ih l2 (fun hm => h (List.mem_cons_of_mem _ hm))]
    simp only [List.length_cons]
    omega

theorem astarInv_step {cols rows : Int} {blocked : List Pos} {goal start current : Pos}
    {st : AstarSt}
    (inv : AstarInv cols rows blocked goal start st)
    (hcur : current ∈ st.openSet) (hcg : current ≠ goal) :
    AstarInv cols rows blocked goal start
      (astarRelax blocked goal current ((alookup st.gScore current).getD 0)
        (get_neighbors cols rows current)
        (AstarSt.mk (removeFirst st.openSet current) (st.closed ++ [current])
          st.cameFrom st.gScore st.fScore)) := by
  have hcnc : current ∉ st.closed := inv.odisj current hcur
  have hsm1 : start ∈ removeFirst st.openSet current ∨ start ∈ st.closed ++ [current] := by
    rcases inv.smem with h | h
    · by_cases hsc : start = current
      · exact Or.inr (List.mem_append_right _ (by rw [hsc]; simp))
      · exact Or.inl (mem_removeFirst_of_ne hsc h)
    · exact Or.inr (List.mem_append_left _ h)
  have out := @astarRelax_spec cols rows blocked goal current start
    ((alookup st.gScore current).getD 0) (get_neighbors cols rows current)
    (AstarSt.mk (removeFirst st.openSet current) (st.closed ++ [current])
      st.cameFrom st.gScore st.fScore)
    (fun m hm => hm) inv.gstart hsm1
  have hsub1 : ∀ p, p ∈ removeFirst st.openSet current → p ∈ st.openSet :=
    fun p hp => mem_removeFirst hp
  have hne1 : ∀ p, p ∈ removeFirst st.openSet current → p ≠ current := by
    intro p hp he
    subst he
    exact not_mem_removeFirst_self inv.onodup p hp
  refine ⟨?_, ?_, ?_, ?_, ?_, ?_, ?_, ?_, ?_, ?_, ?_, ?_, ?_, ?_, ?_⟩
  · exact out.onodup (removeFirst_nodup inv.onodup current)
  · rw [out.ceq]
    rw [List.nodup_append]
    exact ⟨inv.cnodup, List.nodup_singleton _,
      fun x hx hxc => hcnc ((List.mem_singleton.mp hxc) ▸ hx)⟩
  · intro p hp
    rw [out.ceq]
    rcases out.onew p hp with h | h
    · intro hmem
      rcases List.mem_append.mp hmem with h2 | h2
      · exact inv.odisj p (hsub1 p h) h2
      · exact hne1 p h (List.mem_singleton.mp h2)
    · exact h.2.2.1
  · intro p hp
    rcases out.onew p hp with h | h
    · exact inv.oinb p (hsub1 p h)
    · exact (mem_get_neighbors.mp h.1).2
  · intro p hp
    rw [out.ceq] at hp
    rcases List.mem_append.mp hp with h | h
    · exact inv.cinb p h
    · exact (List.mem_singleton.mp h) ▸ inv.oinb current hcur
  · rcases hsm1 with h | h
    · exact Or.inl (out.omono start h)
    · exact Or.inr (by rw [out.ceq]; exact h)
  · rw [out.gpres]
    exact inv.gstart
  · intro hmem
    obtain ⟨e, he, hefst⟩ := List.mem_map.mp hmem
    have he2 : (start, e.2) ∈ (astarRelax blocked goal current
        ((alookup st.gScore current).getD 0) (get_neighbors cols rows current)
        (AstarSt.mk (removeFirst st.openSet current) (st.closed ++ [current])
          st.cameFrom st.gScore st.fScore)).cameFrom := by
      rw [← hefst]
      simpa using he
    rcases out.entries start e.2 he2 with h | h
    · exact inv.skey (List.mem_map.mpr ⟨(start, e.2), h, rfl⟩)
    · exact h.2.2.2.2 rfl
  · exact out.cfnodup inv.cfnodup
  · intro m c hmc
    rcases out.entries m c hmc with h | h
    · exact inv.entries m c h
    · obtain ⟨hc, hmem, hmb, _, _⟩ := h
      subst hc
      exact ⟨hmem, hmb⟩
  · intro m c hmc
    rw [out.ceq]
    rcases out.entries m c hmc with h | h
    · exact List.mem_append_left _ (inv.pclosed m c h)
    · exact h.1 ▸ List.mem_append_right _ (by simp)
  · intro m c hmc hmcl
    rw [out.ceq]
    rw [out.ceq] at hmcl
    dsimp only at hmcl ⊢
    rcases out.entries m c hmc with h | h
    · have hccl : c ∈ st.closed := inv.pclosed m c h
      rw [idxN_append_of_mem _ hccl]
      rcases List.mem_append.mp hmcl with h2 | h2
      · rw [idxN_append_of_mem _ h2]
        exact inv.prank m c h h2
      · have hmc2 : m = current := List.mem_singleton.mp h2
        subst hmc2
        rw [idxN_append_of_not_mem _ hcnc]
        have := idxN_lt_length hccl
        omega
    · exact absurd hmcl h.2.2.2.1
  · intro p hp hps
    rcases hp with h | h
    · rcases out.onew p h with h2 | h2
      · exact out.kmono p (inv.keycover p (Or.inl (hsub1 p h2)) hps)
      · exact h2.2.2.2
    · rw [out.ceq] at h
      rcases List.mem_append.mp h with h2 | h2
      · exact out.kmono p (inv.keycover p (Or.inr h2) hps)
      · exact out.kmono p
          (inv.keycover p (Or.inl ((List.mem_singleton.mp h2) ▸ hcur)) hps)
  · intro p hp n hn hnb
    rw [out.ceq]
    rw [out.ceq] at hp
    rcases List.mem_append.mp hp with h | h
    · rcases inv.closure p h n hn hnb with h2 | h2
      · by_cases hnc : n = current
        · exact Or.inr (List.mem_append_right _ (by rw [hnc]; simp))
        · exact Or.inl (out.omono n (mem_removeFirst_of_ne hnc h2))
      · exact Or.inr (List.mem_append_left _ h2)
    · have hpc : p = current := List.mem_singleton.mp h
      subst hpc
      exact out.nscl n hn hnb
  · rw [out.ceq]
    intro hmem
    rcases List.mem_append.mp hmem with h | h
    · exact inv.gng h
    · exact hcg (List.mem_singleton.mp h).symm

theorem pyMinBy_nil_iff {key : Pos → Option Nat} {l : List Pos} :
    pyMinBy key l = none ↔ l = [] := by
  cases l with
  | nil => simp [pyMinBy]
  | cons a t => simp [pyMinBy]

theorem astarLoop_none_not_reach {cols rows : Int} {blocked : List Pos} {goal start : Pos} :
    ∀ (fuel : Nat) (st : AstarSt),
      AstarInv cols rows blocked goal start st →
      ((cols * rows).toNat + 1) - st.closed.length < fuel →
      astarLoop cols rows blocked goal fuel st = none →
      ¬ Reach cols rows blocked start goal := by
  intro fuel
  induction fuel with
  | zero => intro st _ hmu _; omega
  | succ f ih =>
    intro st inv hmu hnone
    simp only [astarLoop] at hnone
    cases hmin : pyMinBy (fun p => alookup st.fScore p) st.openSet with
    | none =>
      have hopen : st.openSet = [] := pyMinBy_nil_iff.mp hmin
      have hstart : start ∈ st.closed := by
        rcases inv.smem with h | h
        · rw [hopen] at h
          cases h
        · exact h
      intro hreach
      have key : ∀ p, Reach cols rows blocked start p → p ∈ st.closed := by
        intro p hp
        induction hp with
        | refl => exact hstart
        | tail hr hstep ihp =>
          rcases inv.closure _ ihp _ hstep.1 hstep.2 with h | h
          · rw [hopen] at h
            cases h
          · exact h
      exact inv.gng (key goal hreach)
    | some current =>
      rw [hmin] at hnone
      dsimp only at hnone
      by_cases hcg : current = goal
      · rw [if_pos hcg] at hnone
        cases hnone
      · rw [if_neg hcg] at hnone
        have hcur : current ∈ st.openSet := pyMinBy_mem hmin
        have inv2 := astarInv_step inv hcur hcg
        have hvalid : is_position_valid cols rows current = true := inv.oinb current hcur
        have hcnn : 0 ≤ cols ∧ 0 ≤ rows := by
          simp only [is_position_valid, Bool.and_eq_true, decide_eq_true_eq] at hvalid
          omega
        have hceq : (astarRelax blocked goal current ((alookup st.gScore current).getD 0)
            (get_neighbors cols rows current)
            (AstarSt.mk (removeFirst st.openSet current) (st.closed ++ [current])
              st.cameFrom st.gScore st.fScore)).closed = st.closed ++ [current] := by
          have out := @astarRelax_spec cols rows blocked goal current start
            ((alookup st.gScore current).getD 0) (get_neighbors cols rows current)
            (AstarSt.mk (removeFirst st.openSet current) (st.closed ++ [current])
              st.cameFrom st.gScore st.fScore)
            (fun m hm => hm) inv.gstart (by
              rcases inv.smem with h | h
              · by_cases hsc : start = current
                · exact Or.inr (List.mem_append_right _ (by rw [hsc]; simp))
                · exact Or.inl (mem_removeFirst_of_ne hsc h)
              · exact Or.inr (List.mem_append_left _ h))
          exact out.ceq
        have hlen : (st.closed ++ [current]).length ≤ (cols * rows).toNat :=
          nodup_inbounds_length_le (hceq ▸ inv2.cnodup) (hceq ▸ inv2.cinb) hcnn.1 hcnn.2
        refine ih _ inv2 ?_ hnone
        rw [hceq]
        simp only [List.length_append, List.length_singleton] at hlen ⊢
        omega

theorem astarLoop_some_wf {cols rows : Int} {blocked : List Pos} {goal start : Pos} :
    ∀ (fuel : Nat) (st : AstarSt) (cf : List (Pos × Pos)),
      AstarInv cols rows blocked goal start st →
      astarLoop cols rows blocked goal fuel st = some cf →
      ∃ stf : AstarSt, AstarInv cols rows blocked goal start stf ∧ stf.cameFrom = cf ∧
        goal ∈ stf.openSet := by
  intro fuel
  induction fuel with
  | zero => intro st cf _ hsome; cases hsome
  | succ f ih =>
    intro st cf inv hsome
    simp only [astarLoop] at hsome
    cases hmin : pyMinBy (fun p => alookup st.fScore p) st.openSet with
    | none =>
      rw [hmin] at hsome
      cases hsome
    | some current =>
      rw [hmin] at hsome
      dsimp only at hsome
      by_cases hcg : current = goal
      · rw [if_pos hcg] at hsome
        have hcf : st.cameFrom = cf := by injection hsome
        exact ⟨st, inv, hcf, hcg ▸ pyMinBy_mem hmin⟩
      · rw [if_neg hcg] at hsome
        exact ih _ cf (astarInv_step inv (pyMinBy_mem hmin) hcg) hsome

theorem closed_le_keys {cols rows : Int} {blocked : List Pos} {goal start : Pos}
    {st : AstarSt} (inv : AstarInv cols rows blocked goal start st)
    (hsg : start ≠ goal) (hgo : goal ∈ st.openSet) :
    st.closed.length ≤ (st.cameFrom.map Prod.fst).length := by
  have hgk : goal ∈ st.cameFrom.map Prod.fst :=
    inv.keycover goal (Or.inl hgo) (Ne.symm hsg)
  have hsub : insert goal st.closed.toFinset ⊆
      insert start (st.cameFrom.map Prod.fst).toFinset := by
    intro x hx
    rcases Finset.mem_insert.mp hx with he | hm
    · subst he
      exact Finset.mem_insert_of_mem (List.mem_toFinset.mpr hgk)
    · have hxc : x ∈ st.closed := List.mem_toFinset.mp hm
      by_cases hxs : x = start
      · exact hxs ▸ Finset.mem_insert_self _ _
      · exact Finset.mem_insert_of_mem
          (List.mem_toFinset.mpr (inv.keycover x (Or.inr hxc) hxs))
  have hcard := Finset.card_le_card hsub
  rw [Finset.card_insert_of_not_mem (fun hm => inv.gng (List.mem_toFinset.mp hm)),
    Finset.card_insert_of_not_mem (fun hm => inv.skey (List.mem_toFinset.mp hm)),
    List.toFinset_card_of_nodup inv.cnodup,
    List.toFinset_card_of_nodup inv.cfnodup] at hcard
  omega

theorem astarReconstruct_ok {cols rows : Int} {blocked : List Pos} {goal start : Pos}
    {st : AstarSt} (inv : AstarInv cols rows blocked goal start st)
    (hsg : start ≠ goal) (hgk : goal ∈ st.cameFrom.map Prod.fst) :
    ∀ (fuel : Nat) (current : Pos) (acc : List Pos),
      ((current = goal ∧ acc = []) ∨
        (current ∈ st.closed ∧ ∃ acc2, acc = current :: acc2 ∧
          chainP cols rows blocked current acc2 ∧
          stepRel cols rows blocked (endOf current acc2) goal)) →
      (if current ∈ st.closed then idxN st.closed current else st.closed.length) < fuel →
      ∃ acc2, astarReconstruct st.cameFrom fuel current acc = start :: acc2 ∧
        chainP cols rows blocked start acc2 ∧
        stepRel cols rows blocked (endOf start acc2) goal := by
  intro fuel
  induction fuel with
  | zero => intro current acc _ hR; omega
  | succ f ih =>
    intro current acc hform hR
    by_cases hkey : current ∈ st.cameFrom.map Prod.fst
    · obtain ⟨c, hc⟩ := alookup_mem_keys st.cameFrom current hkey
      have hcmem : (current, c) ∈ st.cameFrom := alookup_mem st.cameFrom current c hc
      have hccl : c ∈ st.closed := inv.pclosed current c hcmem
      have hcstep : stepRel cols rows blocked c current := inv.entries current c hcmem
      have hred : astarReconstruct st.cameFrom (f + 1) current acc =
          astarReconstruct st.cameFrom f c (c :: acc) := by
        simp only [astarReconstruct]
        rw [hc]
      rw [hred]
      have hform2 : (c = goal ∧ c :: acc = []) ∨
          (c ∈ st.closed ∧ ∃ acc2, c :: acc = c :: acc2 ∧
            chainP cols rows blocked c acc2 ∧
            stepRel cols rows blocked (endOf c acc2) goal) := by
        rcases hform with ⟨hcg, hacc⟩ | ⟨hccl2, acc2, hacc, hchain, hstep⟩
        · subst hcg hacc
          exact Or.inr ⟨hccl, [], rfl, trivial, hcstep⟩
        · subst hacc
          exact Or.inr ⟨hccl, current :: acc2, rfl, ⟨hcstep, hchain⟩, hstep⟩
      have hR2 : (if c ∈ st.closed then idxN st.closed c else st.closed.length) < f := by
        rw [if_pos hccl]
        rcases hform with ⟨hcg, _⟩ | ⟨hccl2, _⟩
        · subst hcg
          rw [if_neg inv.gng] at hR
          have := idxN_lt_length hccl
          omega
        · rw [if_pos hccl2] at hR
          have := inv.prank current c hcmem hccl2
          omega
      exact ih c (c :: acc) hform2 hR2
    · rcases hform with ⟨hcg, _⟩ | ⟨hccl2, acc2, hacc, hchain, hstep⟩
      · subst hcg
        exact absurd hgk hkey
      · have hcs : current = start := by
          by_contra hne
          exact hkey (inv.keycover current (Or.inr hccl2) hne)
        subst hcs hacc
        have hred : astarReconstruct st.cameFrom (f + 1) current (current :: acc2) =
            current :: acc2 := by
          simp only [astarReconstruct]
          rw [alookup_eq_none st.cameFrom current hkey]
        exact ⟨acc2, hred, hchain, hstep⟩

theorem astar_initial_inv {cols rows : Int} {blocked : List Pos} {goal start : Pos}
    (hsv : is_position_valid cols rows start = true) :
    AstarInv cols rows blocked goal start
      (AstarSt.mk [start] [] [] [(start, 0)] [(start, heuristic start goal)]) := by
  refine ⟨?_, ?_, ?_, ?_, ?_, ?_, ?_, ?_, ?_, ?_, ?_, ?_, ?_, ?_, ?_⟩
  · simp
  · simp
  · intro p _
    simp
  · intro p hp
    simp at hp
    subst hp
    exact hsv
  · intro p hp
    cases hp
  · exact Or.inl (by simp)
  · simp [alookup]
  · simp
  · simp
  · intro n c h
    cases h
  · intro n c h
    cases h
  · intro n c h
    cases h
  · intro p hp hps
    rcases hp with h | h
    · simp at h
      exact absurd h hps
    · cases h
  · intro p hp
    cases hp
  · simp

theorem astar_not_reach_empty {cols rows : Int} {agent : AgentPose} {goal : Pos}
    {blocked : List Pos}
    (hsv : is_position_valid cols rows (agent.x, agent.y) = true)
    (hsg : ((agent.x, agent.y) : Pos) ≠ goal)
    (hnr : ¬ Reach cols rows blocked (agent.x, agent.y) goal) :
    pathfind_movement_astar cols rows agent goal blocked = [] := by
  simp only [pathfind_movement_astar]
  cases hloop : astarLoop cols rows blocked goal (astarFuel cols rows)
      (AstarSt.mk [(agent.x, agent.y)] [] [] [((agent.x, agent.y), 0)]
        [((agent.x, agent.y), heuristic (agent.x, agent.y) goal)]) with
  | none => rfl
  | some cf =>
    exfalso
    obtain ⟨stf, invf, hcf, hgo⟩ :=
      astarLoop_some_wf (astarFuel cols rows) _ cf (astar_initial_inv hsv) hloop
    subst hcf
    have hgk : goal ∈ stf.cameFrom.map Prod.fst :=
      invf.keycover goal (Or.inl hgo) (Ne.symm hsg)
    obtain ⟨acc2, hrec, hchain, hstep⟩ :=
      astarReconstruct_ok invf hsg hgk (stf.cameFrom.length + 1) goal []
        (Or.inl ⟨rfl, rfl⟩) (by
          rw [if_neg invf.gng]
          have h1 := closed_le_keys invf hsg hgo
          have h2 : (stf.cameFrom.map Prod.fst).length = stf.cameFrom.length := by simp
          omega)
    have hreach := chainP_reach acc2 _ hchain
    exact hnr (Relation.ReflTransGen.tail hreach hstep)

theorem astar_reach_nonempty {cols rows : Int} {agent : AgentPose} {goal : Pos}
    {blocked : List Pos} (hd : agent.dir < 4)
    (hsv : is_position_valid cols rows (agent.x, agent.y) = true)
    (hsg : ((agent.x, agent.y) : Pos) ≠ goal)
    (hnadj : ¬ stepRel cols rows blocked (agent.x, agent.y) goal)
    (hr : Reach cols rows blocked (agent.x, agent.y) goal) :
    pathfind_movement_astar cols rows agent goal blocked ≠ [] ∧
      validate_action_sequence cols rows agent
        (pathfind_movement_astar cols rows agent goal blocked) blocked = true := by
  cases hloop : astarLoop cols rows blocked goal (astarFuel cols rows)
      (AstarSt.mk [(agent.x, agent.y)] [] [] [((agent.x, agent.y), 0)]
        [((agent.x, agent.y), heuristic (agent.x, agent.y) goal)]) with
  | none =>
    exfalso
    refine astarLoop_none_not_reach (astarFuel cols rows) _ (astar_initial_inv hsv)
      ?_ hloop hr
    simp [astarFuel]
  | some cf =>
    obtain ⟨stf, invf, hcf, hgo⟩ :=
      astarLoop_some_wf (astarFuel cols rows) _ cf (astar_initial_inv hsv) hloop
    subst hcf
    have hgk : goal ∈ stf.cameFrom.map Prod.fst :=
      invf.keycover goal (Or.inl hgo) (Ne.symm hsg)
    obtain ⟨acc2, hrec, hchain, hstep⟩ :=
      astarReconstruct_ok invf hsg hgk (stf.cameFrom.length + 1) goal []
        (Or.inl ⟨rfl, rfl⟩) (by
          rw [if_neg invf.gng]
          have h1 := closed_le_keys invf hsg hgo
          have h2 : (stf.cameFrom.map Prod.fst).length = stf.cameFrom.length := by simp
          omega)
    have hres : pathfind_movement_astar cols rows agent goal blocked =
        convert_path_to_actions agent ((agent.x, agent.y) :: acc2) := by
      simp only [pathfind_movement_astar]
      rw [hloop]
      dsimp only
      rw [hrec]
      rw [if_neg (by simp)]
    cases hacc : acc2 with
    | nil =>
      exfalso
      rw [hacc] at hstep
      exact hnadj hstep
    | cons q rest2 =>
      rw [hacc] at hchain hres
      obtain ⟨hstep1, hchain2⟩ := hchain
      constructor
      · rw [hres]
        show convert_path agent.dir (agent.x, agent.y)
          ((agent.x, agent.y) :: q :: rest2) ≠ []
        rw [convert_dup]
        exact convert_nonempty hstep1 agent.dir
      · rw [hres]
        show validate_from cols rows blocked
          (convert_path agent.dir (agent.x, agent.y) ((agent.x, agent.y) :: q :: rest2))
          (agent.x, agent.y) agent.dir = true
        rw [convert_dup]
        exact convert_validate (q :: rest2) (agent.x, agent.y) agent.dir hd
          ⟨hstep1, hchain2⟩

theorem direct_validate_reach {cols rows : Int} {agent : AgentPose} {goal : Pos}
    {blocked : List Pos} (hd : agent.dir < 4)
    (hval : validate_action_sequence cols rows agent (direct_movement agent goal)
      blocked = true) :
    Reach cols rows blocked (agent.x, agent.y) goal := by
  have h := validate_reach (direct_movement agent goal) (agent.x, agent.y) agent.dir hval
  rwa [replay_direct hd] at h

theorem adjacent_direct_clear {cols rows : Int} {blocked : List Pos} {s goal : Pos}
    (hsb : s ∉ blocked) (hadj : stepRel cols rows blocked s goal) :
    is_direct_path_clear blocked s goal = true := by
  rcases (mem_get_neighbors.mp hadj.1).1 with hq | hq | hq | hq <;> subst hq <;>
    simp [is_direct_path_clear, intStepRange, hsb]

theorem validate_single_forward {cols rows : Int} {blocked : List Pos} {p : Pos} {dd : Nat}
    (hv : is_position_valid cols rows (forwardPos dd p) = true)
    (hb : forwardPos dd p ∉ blocked) :
    validate_from cols rows blocked [FORWARD] p dd = true := by
  rw [validate_forward_cons cols rows blocked p dd hv hb]
  rfl

theorem adjacent_direct_validate {cols rows : Int} {agent : AgentPose} {goal : Pos}
    {blocked : List Pos} (hd : agent.dir < 4)
    (hadj : stepRel cols rows blocked (agent.x, agent.y) goal) :
    validate_action_sequence cols rows agent (direct_movement agent goal) blocked = true := by
  have hv : is_position_valid cols rows goal = true := stepRel_valid hadj
  have hb : goal ∉ blocked := hadj.2
  rcases (mem_get_neighbors.mp hadj.1).1 with hq | hq | hq | hq <;> subst hq
  · have hdm : direct_movement agent ((agent.x, agent.y).1, (agent.x, agent.y).2 + 1) =
        (if agent.dir ≠ 1 then turn_to_face agent.dir 1 else []) ++ [FORWARD] := by
      by_cases hde : agent.dir ≠ 1 <;>
        simp [direct_movement, legX, legY, hde, List.replicate]
    simp only [validate_action_sequence]
    rw [hdm]
    by_cases hde : agent.dir ≠ 1
    · rw [if_pos hde, validate_turn cols rows blocked hd (by norm_num)]
      exact validate_single_forward hv hb
    · push_neg at hde
      have hne : ¬(agent.dir ≠ 1) := by simp [hde]
      rw [if_neg hne, List.nil_append, hde]
      exact validate_single_forward hv hb
  · have hdm : direct_movement agent ((agent.x, agent.y).1 + 1, (agent.x, agent.y).2) =
        (if agent.dir ≠ 3 then turn_to_face agent.dir 3 else []) ++ [FORWARD] := by
      by_cases hde : agent.dir ≠ 3 <;>
        simp [direct_movement, legX, legY, hde, List.replicate]
    simp only [validate_action_sequence]
    rw [hdm]
    by_cases hde : agent.dir ≠ 3
    · rw [if_pos hde, validate_turn cols rows blocked hd (by norm_num)]
      exact validate_single_forward hv hb
    · push_neg at hde
      have hne : ¬(agent.dir ≠ 3) := by simp [hde]
      rw [if_neg hne, List.nil_append, hde]
      exact validate_single_forward hv hb
  · have hdm : direct_movement agent ((agent.x, agent.y).1, (agent.x, agent.y).2 - 1) =
        (if agent.dir ≠ 0 then turn_to_face agent.dir 0 else []) ++ [FORWARD] := by
      by_cases hde : agent.dir ≠ 0 <;>
        simp [direct_movement, legX, legY, hde, List.replicate]
    simp only [validate_action_sequence]
    rw [hdm]
    by_cases hde : agent.dir ≠ 0
    · rw [if_pos hde, validate_turn cols rows blocked hd (by norm_num)]
      exact validate_single_forward hv hb
    · push_neg at hde
      have hne : ¬(agent.dir ≠ 0) := by simp [hde]
      rw [if_neg hne, List.nil_append, hde]
      exact validate_single_forward hv hb
  · have hdm : direct_movement agent ((agent.x, agent.y).1 - 1, (agent.x, agent.y).2) =
        (if agent.dir ≠ 2 then turn_to_face agent.dir 2 else []) ++ [FORWARD] := by
      by_cases hde : agent.dir ≠ 2 <;>
        simp [direct_movement, legX, legY, hde, List.replicate]
    simp only [validate_action_sequence]
    rw [hdm]
    by_cases hde : agent.dir ≠ 2
    · rw [if_pos hde, validate_turn cols rows blocked hd (by norm_num)]
      exact validate_single_forward hv hb
    · push_neg at hde
      have hne : ¬(agent.dir ≠ 2) := by simp [hde]
      rw [if_neg hne, List.nil_append, hde]
      exact validate_single_forward hv hb

theorem calculate_movement_astar_empty_iff {cols rows : Int} {agent : AgentPose} {goal : Pos}
    {blocked : List Pos} (hd : agent.dir < 4)
    (hsv : is_position_valid cols rows (agent.x, agent.y) = true)
    (hsb : ((agent.x, agent.y) : Pos) ∉ blocked) :
    (calculate_movement_astar cols rows agent goal blocked = [] ↔
      ¬(is_position_valid cols rows goal = true ∧ goal ∉ blocked ∧
        ((agent.x, agent.y) : Pos) ≠ goal ∧
        Reach cols rows blocked (agent.x, agent.y) goal)) := by
  simp only [calculate_movement_astar]
  by_cases hgv : is_position_valid cols rows goal = true
  · rw [hgv]
    simp only [Bool.not_true, Bool.false_eq_true, if_false]
    by_cases hgb : goal ∈ blocked
    · rw [if_pos (by simpa using hgb)]
      simp [hgb]
    · rw [if_neg (by simpa using hgb)]
      by_cases hsg : ((agent.x, agent.y) : Pos) = goal
      · have hclear : is_direct_path_clear blocked (agent.x, agent.y) goal = true := by
          rw [← hsg]
          simp [is_direct_path_clear, intStepRange]
        have hdm : direct_movement agent goal = [] := by
          rw [← hsg]
          simp [direct_movement, legX, legY]
        have hval : validate_action_sequence cols rows agent
            (direct_movement agent goal) blocked = true := by
          rw [hdm]
          rfl
        rw [if_pos (by rw [hclear, hval]; rfl)]
        rw [hdm]
        simp [hsg]
      · by_cases hcond : (is_direct_path_clear blocked (agent.x, agent.y) goal &&
            validate_action_sequence cols rows agent (direct_movement agent goal)
              blocked) = true
        · rw [if_pos hcond]
          rw [Bool.and_eq_true] at hcond
          have hr : Reach cols rows blocked (agent.x, agent.y) goal :=
            direct_validate_reach hd hcond.2
          have hne := direct_nonempty hsg
          exact iff_of_false hne fun hcon => hcon ⟨trivial, hgb, hsg, hr⟩
        · rw [if_neg hcond]
          have hnadj : ¬ stepRel cols rows blocked (agent.x, agent.y) goal := by
            intro hadj
            exact hcond (by
              rw [adjacent_direct_clear hsb hadj, adjacent_direct_validate hd hadj]
              rfl)
          by_cases hr : Reach cols rows blocked (agent.x, agent.y) goal
          · obtain ⟨hne, hvd⟩ := astar_reach_nonempty hd hsv hsg hnadj hr
            rw [if_pos ⟨hne, hvd⟩]
            exact iff_of_false hne fun hcon => hcon ⟨trivial, hgb, hsg, hr⟩
          · have hpf := astar_not_reach_empty hsv hsg hr
            rw [hpf]
            rw [if_neg (by simp)]
            simp [hgb, hsg, hr]
  · rw [Bool.not_eq_true] at hgv
    rw [hgv]
    simp [hgv]

/-- C2 counterexample: on a 3x3 grid with the agent's own cell `(0, 0)` in
the blocked set (as happens when a queued shelf cell coincides with the
agent), goal `(1, 0)`: the A* strategy returns the empty sequence (its direct
check scans the start cell and fails, and the A* reconstruction drops the
goal, leaving only the start cell and hence no actions), while the BFS
strategy returns `[FORWARD]` — the two strategies disagree on emptiness. -/
theorem C2_counterexample_blocked_start :
    calculate_movement_astar 3 3 ⟨0, 0, 3⟩ (1, 0) [(0, 0)] = [] ∧
      calculate_movement_bfs 3 3 ⟨0, 0, 3⟩ (1, 0) [(0, 0)] = [FORWARD] := by decide

/-- C2 (amended): provided the agent's facing is one of the four direction
codes, its cell is inside the grid and its own cell is not in the blocked
set, the A*-strategy `calculate_movement` returns the empty sequence if and
only if the BFS-strategy `calculate_movement` does, on every grid, blocked
set and goal: both are empty exactly when the goal is invalid, blocked,
equal to the start, or unreachable through unblocked in-bounds cells. -/
theorem C2_amended_empty_equivalence (cols rows : Int) (agent : AgentPose) (goal : Pos)
    (blocked : List Pos) (hd : agent.dir < 4)
    (hsv : is_position_valid cols rows (agent.x, agent.y) = true)
    (hsb : ((agent.x, agent.y) : Pos) ∉ blocked) :
    (calculate_movement_astar cols rows agent goal blocked = [] ↔
      calculate_movement_bfs cols rows agent goal blocked = []) :=
  (calculate_movement_astar_empty_iff hd hsv hsb).trans
    (calculate_movement_bfs_empty_iff hd hsv).symm

/-- C2 witness: the equivalence instantiated on a 3x3 grid, agent at
`(0, 0)` facing RIGHT, goal `(2, 2)`, cell `(1, 1)` blocked. -/
theorem C2_amended_empty_equivalence_witness :
    ((3 : Nat) < 4 ∧ is_position_valid 3 3 ((0 : Int), (0 : Int)) = true ∧
      ((0, 0) : Pos) ∉ ([(1, 1)] : List Pos)) ∧
      (calculate_movement_astar 3 3 ⟨0, 0, 3⟩ (2, 2) [(1, 1)] = [] ↔
        calculate_movement_bfs 3 3 ⟨0, 0, 3⟩ (2, 2) [(1, 1)] = []) :=
  ⟨⟨by decide, by decide, by decide⟩,
    C2_amended_empty_equivalence 3 3 ⟨0, 0, 3⟩ (2, 2) [(1, 1)] (by decide) (by decide)
      (by decide)⟩

end Warehouse
